import Mathlib

/-!
Shallow embedding of the `asyncapi` crate's `Channel` and `Operation` data
model (files `src/channel.rs`, `src/operations.rs`) together with the serde
derived serialization and deserialization behaviour those files declare
through their attributes: `#[serde(rename_all = "camelCase")]`,
`#[serde(flatten)]` extension bags, `#[serde(default)]`,
`#[serde(skip_serializing_if = ...)]`, `#[serde(rename = "$ref")]`,
`#[serde(untagged)]` enums and per-variant `#[serde(rename = ...)]`.

Documents are modelled as structured JSON values; objects are
insertion-ordered association lists, mirroring `indexmap::IndexMap` and
`serde_json::Value` objects.  Decoders return `Option`: serde
deserialization either produces a value or fails with one terminal error,
and no claim depends on error messages.

Types referenced by `channel.rs` / `operations.rs` but defined in modules of
the crate that are not part of the provided sources (`ReferenceOr`,
`Message`, `Parameter`, `ChannelBinding`, `Schema`, `Tag`,
`ExternalDocumentation`, `OperationBinding`, `OperationTrait`) are modelled
from the specification, as marked on each of their declarations.
-/

namespace AsyncAPI

/-- A structured document value: the decoded JSON tree over which the
crate's contract is defined.  Objects are insertion-ordered association
lists of key/value pairs, as in `serde_json::Value` backed by `IndexMap`. -/
inductive Json where
  | null : Json
  | bool (b : Bool) : Json
  | num (n : Int) : Json
  | str (s : String) : Json
  | arr (elems : List Json) : Json
  | obj (fields : List (String × Json)) : Json
deriving Repr

mutual

/-- Decidable equality on JSON values. -/
def Json.decEq : (a b : Json) → Decidable (a = b)
  | .null, .null => .isTrue rfl
  | .null, .bool _ => .isFalse (fun h => Json.noConfusion h)
  | .null, .num _ => .isFalse (fun h => Json.noConfusion h)
  | .null, .str _ => .isFalse (fun h => Json.noConfusion h)
  | .null, .arr _ => .isFalse (fun h => Json.noConfusion h)
  | .null, .obj _ => .isFalse (fun h => Json.noConfusion h)
  | .bool _, .null => .isFalse (fun h => Json.noConfusion h)
  | .bool x, .bool y =>
      if h : x = y then .isTrue (by rw [h])
      else .isFalse (fun hh => h (Json.bool.inj hh))
  | .bool _, .num _ => .isFalse (fun h => Json.noConfusion h)
  | .bool _, .str _ => .isFalse (fun h => Json.noConfusion h)
  | .bool _, .arr _ => .isFalse (fun h => Json.noConfusion h)
  | .bool _, .obj _ => .isFalse (fun h => Json.noConfusion h)
  | .num _, .null => .isFalse (fun h => Json.noConfusion h)
  | .num _, .bool _ => .isFalse (fun h => Json.noConfusion h)
  | .num x, .num y =>
      if h : x = y then .isTrue (by rw [h])
      else .isFalse (fun hh => h (Json.num.inj hh))
  | .num _, .str _ => .isFalse (fun h => Json.noConfusion h)
  | .num _, .arr _ => .isFalse (fun h => Json.noConfusion h)
  | .num _, .obj _ => .isFalse (fun h => Json.noConfusion h)
  | .str _, .null => .isFalse (fun h => Json.noConfusion h)
  | .str _, .bool _ => .isFalse (fun h => Json.noConfusion h)
  | .str _, .num _ => .isFalse (fun h => Json.noConfusion h)
  | .str x, .str y =>
      if h : x = y then .isTrue (by rw [h])
      else .isFalse (fun hh => h (Json.str.inj hh))
  | .str _, .arr _ => .isFalse (fun h => Json.noConfusion h)
  | .str _, .obj _ => .isFalse (fun h => Json.noConfusion h)
  | .arr _, .null => .isFalse (fun h => Json.noConfusion h)
  | .arr _, .bool _ => .isFalse (fun h => Json.noConfusion h)
  | .arr _, .num _ => .isFalse (fun h => Json.noConfusion h)
  | .arr _, .str _ => .isFalse (fun h => Json.noConfusion h)
  | .arr xs, .arr ys =>
      match Json.decEqList xs ys with
      | .isTrue h => .isTrue (by rw [h])
      | .isFalse h => .isFalse (fun hh => h (Json.arr.inj hh))
  | .arr _, .obj _ => .isFalse (fun h => Json.noConfusion h)
  | .obj _, .null => .isFalse (fun h => Json.noConfusion h)
  | .obj _, .bool _ => .isFalse (fun h => Json.noConfusion h)
  | .obj _, .num _ => .isFalse (fun h => Json.noConfusion h)
  | .obj _, .str _ => .isFalse (fun h => Json.noConfusion h)
  | .obj _, .arr _ => .isFalse (fun h => Json.noConfusion h)
  | .obj xs, .obj ys =>
      match Json.decEqFields xs ys with
      | .isTrue h => .isTrue (by rw [h])
      | .isFalse h => .isFalse (fun hh => h (Json.obj.inj hh))
termination_by structural a _ => a

/-- Decidable equality on lists of JSON values. -/
def Json.decEqList : (a b : List Json) → Decidable (a = b)
  | [], [] => .isTrue rfl
  | [], _ :: _ => .isFalse (fun h => List.noConfusion h)
  | _ :: _, [] => .isFalse (fun h => List.noConfusion h)
  | x :: xs, y :: ys =>
      match Json.decEq x y, Json.decEqList xs ys with
      | .isTrue h1, .isTrue h2 => .isTrue (by rw [h1, h2])
      | .isFalse h1, _ => .isFalse (fun hh => h1 (List.head_eq_of_cons_eq hh))
      | _, .isFalse h2 => .isFalse (fun hh => h2 (List.tail_eq_of_cons_eq hh))
termination_by structural a _ => a

/-- Decidable equality on JSON object field lists. -/
def Json.decEqFields : (a b : List (String × Json)) → Decidable (a = b)
  | [], [] => .isTrue rfl
  | [], _ :: _ => .isFalse (fun h => List.noConfusion h)
  | _ :: _, [] => .isFalse (fun h => List.noConfusion h)
  | (k, x) :: xs, (l, y) :: ys =>
      if h0 : k = l then
        match Json.decEq x y, Json.decEqFields xs ys with
        | .isTrue h1, .isTrue h2 => .isTrue (by rw [h0, h1, h2])
        | .isFalse h1, _ =>
            .isFalse (fun hh => h1 (congrArg Prod.snd (List.head_eq_of_cons_eq hh)))
        | _, .isFalse h2 => .isFalse (fun hh => h2 (List.tail_eq_of_cons_eq hh))
      else
        .isFalse (fun hh => h0 (congrArg Prod.fst (List.head_eq_of_cons_eq hh)))
termination_by structural a _ => a

end

instance : DecidableEq Json := Json.decEq

/-- First value bound to key `k` in an association list, as JSON object
lookup. -/
def lookupKey (k : String) : List (String × α) → Option α
  | [] => none
  | (k', v) :: rest => if k' = k then some v else lookupKey k rest

/-- The keys of an association list, in order. -/
def keysOf (m : List (String × α)) : List String :=
  m.map Prod.fst

/-- `IndexMap::insert` semantics: if the key is already present, replace its
value in place; otherwise append the pair at the end. -/
def idxInsert (m : List (String × α)) (k : String) (v : α) : List (String × α) :=
  match m with
  | [] => [(k, v)]
  | (k', v') :: rest => if k' = k then (k, v) :: rest else (k', v') :: idxInsert rest k v

/-- Fold a list of pairs into an `IndexMap` by repeated insertion, starting
from `acc` (the order in which a serde map visitor feeds entries into an
`IndexMap`). -/
def idxOfListFrom (acc : List (String × α)) : List (String × α) → List (String × α)
  | [] => acc
  | (k, v) :: rest => idxOfListFrom (idxInsert acc k v) rest

/-- Build an `IndexMap` from document object entries. -/
def idxOfList (fs : List (String × α)) : List (String × α) :=
  idxOfListFrom [] fs

/-! ## Decoding primitives shared by all fields

These mirror the `Deserialize` implementations the derived code delegates
to: `String`, `Option<T>` (JSON `null` becomes `None`, anything else is
deserialized as `Some`), `Vec<T>` (arrays only), and
`IndexMap<String, V>` (objects only, entries inserted in document order). -/

/-- `String::deserialize`: accepts exactly JSON strings. -/
def decodeString : Json → Option String
  | .str s => some s
  | _ => none

/-- `Option::<T>::deserialize`: `null` yields `None`; any other value is
deserialized as `T` and wrapped in `Some`. -/
def decodeOptionWith (f : Json → Option α) : Json → Option (Option α)
  | .null => some none
  | j => (f j).map some

/-- Deserialize every element of a JSON array in order, failing if any
element fails (`Vec<T>` behaviour). -/
def decodeElems (f : Json → Option α) : List Json → Option (List α)
  | [] => some []
  | x :: xs =>
      match f x with
      | none => none
      | some v => (decodeElems f xs).map (v :: ·)

/-- `Vec::<T>::deserialize`: accepts exactly JSON arrays. -/
def decodeListWith (f : Json → Option α) : Json → Option (List α)
  | .arr xs => decodeElems f xs
  | _ => none

/-- The map-visitor loop of `IndexMap::<String, V>::deserialize`: decode
each entry's value and insert it into the accumulated map. -/
def decodeEntries (f : Json → Option α) :
    List (String × Json) → List (String × α) → Option (List (String × α))
  | [], acc => some acc
  | (k, j) :: rest, acc =>
      match f j with
      | none => none
      | some v => decodeEntries f rest (idxInsert acc k v)

/-- `IndexMap::<String, V>::deserialize`: accepts exactly JSON objects. -/
def decodeIndexMap (f : Json → Option α) : Json → Option (List (String × α))
  | .obj fs => decodeEntries f fs []
  | _ => none

/-- Serialize an `IndexMap` as a JSON object, entries in map order. -/
def encodeObjWith (f : α → Json) (m : List (String × α)) : Json :=
  .obj (m.map fun kv => (kv.1, f kv.2))

/-- Serialize an `Option` value standing in a position where it is written
even when `None` (e.g. `IndexMap` values): `None` becomes `null`. -/
def encodeOptionWith (f : α → Json) : Option α → Json
  | none => .null
  | some a => f a

/-- Emit a field only when the optional value is present
(`#[serde(skip_serializing_if = "Option::is_none")]`). -/
def optEntry (k : String) (f : α → Json) : Option α → List (String × Json)
  | none => []
  | some a => [(k, f a)]

/-- Emit a field only when the collection is non-empty
(`#[serde(skip_serializing_if = "Vec::is_empty")]` /
`"IndexMap::is_empty"`). -/
def seqEntry (k : String) (f : List α → Json) (l : List α) : List (String × Json) :=
  if l.isEmpty then [] else [(k, f l)]

/-! ## Entities of the crate that are outside the provided sources

`channel.rs` and `operations.rs` use `Message`, `Parameter`,
`ChannelBinding`, `Schema`, `Tag`, `ExternalDocumentation`,
`OperationBinding` and `OperationTrait` from sibling modules whose files
are not part of the provided sources.  Per the spec (sections 2 and 3),
every entity is a data container carrying an extension bag that collects
all document fields not matching a declared field name; their individual
declared fields are not specified.  They are therefore modelled as their
extension bag alone: deserialization accepts any JSON object and collects
every field into the bag, and serialization re-emits the bag as the
object. -/

/-- Modelled from the spec: the `Message` entity (module `message`, not in
the provided sources) as an entity owning an extension bag (spec sections 2
and 3); its declared fields are not specified, so every object field is
collected into the bag. -/
structure Message where
  extensions : List (String × Json)
deriving DecidableEq, Repr

/-- Modelled from the spec: the `Parameter` entity (module `parameter`, not
in the provided sources), as an extension-bag data container. -/
structure Parameter where
  extensions : List (String × Json)
deriving DecidableEq, Repr

/-- Modelled from the spec: the `ChannelBinding` entity (module
`channel_binding`, not in the provided sources), as an extension-bag data
container. -/
structure ChannelBinding where
  extensions : List (String × Json)
deriving DecidableEq, Repr

/-- Modelled from the spec: the `Schema` entity (module `schema`, not in
the provided sources), as an extension-bag data container. -/
structure Schema where
  extensions : List (String × Json)
deriving DecidableEq, Repr

/-- Modelled from the spec: the `Tag` entity (module `tag`, not in the
provided sources), as an extension-bag data container. -/
structure Tag where
  extensions : List (String × Json)
deriving DecidableEq, Repr

/-- Modelled from the spec: the `ExternalDocumentation` entity (module
`external_documentation`, not in the provided sources), as an
extension-bag data container. -/
structure ExternalDocumentation where
  extensions : List (String × Json)
deriving DecidableEq, Repr

/-- Modelled from the spec: the `OperationBinding` entity (module
`operation_binding`, not in the provided sources), as an extension-bag
data container. -/
structure OperationBinding where
  extensions : List (String × Json)
deriving DecidableEq, Repr

/-- Modelled from the spec: the `OperationTrait` entity (module
`operation_trait`, not in the provided sources), as an extension-bag data
container. -/
structure OperationTrait where
  extensions : List (String × Json)
deriving DecidableEq, Repr

/-- Deserialize an extension-bag entity: any JSON object is accepted and
all of its fields are collected into the bag in order. -/
def decodeExtFields : Json → Option (List (String × Json))
  | .obj fs => some (idxOfList fs)
  | _ => none

def decodeMessage (j : Json) : Option Message :=
  (decodeExtFields j).map Message.mk

def encodeMessage (m : Message) : Json :=
  .obj m.extensions

def decodeParameter (j : Json) : Option Parameter :=
  (decodeExtFields j).map Parameter.mk

def encodeParameter (p : Parameter) : Json :=
  .obj p.extensions

def decodeChannelBinding (j : Json) : Option ChannelBinding :=
  (decodeExtFields j).map ChannelBinding.mk

def encodeChannelBinding (b : ChannelBinding) : Json :=
  .obj b.extensions

def decodeSchema (j : Json) : Option Schema :=
  (decodeExtFields j).map Schema.mk

def encodeSchema (s : Schema) : Json :=
  .obj s.extensions

def decodeTag (j : Json) : Option Tag :=
  (decodeExtFields j).map Tag.mk

def encodeTag (t : Tag) : Json :=
  .obj t.extensions

def decodeExternalDocumentation (j : Json) : Option ExternalDocumentation :=
  (decodeExtFields j).map ExternalDocumentation.mk

def encodeExternalDocumentation (d : ExternalDocumentation) : Json :=
  .obj d.extensions

def decodeOperationBinding (j : Json) : Option OperationBinding :=
  (decodeExtFields j).map OperationBinding.mk

def encodeOperationBinding (b : OperationBinding) : Json :=
  .obj b.extensions

def decodeOperationTrait (j : Json) : Option OperationTrait :=
  (decodeExtFields j).map OperationTrait.mk

def encodeOperationTrait (t : OperationTrait) : Json :=
  .obj t.extensions

/-! ## ReferenceOr -/

/-- Modelled from the spec: `ReferenceOr<T>` (module `reference`, not in
the provided sources): a field whose document value is either an inline
value of type `T` or an object containing solely a pointer string to
another place in the same document (spec sections 3 and 4.1). -/
inductive ReferenceOr (α : Type) where
  | Reference (reference : String)
  | Item (item : α)
deriving DecidableEq, Repr

/-- The reference shape: an object containing only the designated
reference key, holding the pointer string. -/
def refOnly : Json → Option String
  | .obj [(k, .str s)] => if k = "$ref" then some s else none
  | _ => none

/-- Modelled from the spec: `ReferenceOr<T>` deserialization (spec section
4.1): if the document object contains only the designated reference key,
parse as a reference; otherwise attempt to parse the full value as `T`,
and fail only if that also fails. -/
def decodeReferenceOr (f : Json → Option α) (j : Json) : Option (ReferenceOr α) :=
  match refOnly j with
  | some s => some (.Reference s)
  | none => (f j).map .Item

/-- Modelled from the spec: `ReferenceOr<T>` serialization (spec section
4.1): the reference variant serializes to an object containing only the
reference field; the inline variant serializes exactly as `T` would
standalone. -/
def encodeReferenceOr (f : α → Json) : ReferenceOr α → Json
  | .Reference s => .obj [("$ref", .str s)]
  | .Item a => f a

def decodeRefOrMessage : Json → Option (ReferenceOr Message) :=
  decodeReferenceOr decodeMessage

def encodeRefOrMessage : ReferenceOr Message → Json :=
  encodeReferenceOr encodeMessage

/-! ## channel.rs: OperationMessageType -/

/-- The `#[serde(untagged)]` enum `OperationMessageType` from
`channel.rs` (lines 163 to 168): either a mapping of names to message
references or a single message reference. -/
inductive OperationMessageType where
  | Map (m : List (String × ReferenceOr Message))
  | Single (r : ReferenceOr Message)
deriving DecidableEq, Repr

/-- Untagged deserialization of `OperationMessageType`: the variants are
tried in declaration order, `Map` first, then `Single`; the first
structurally successful parse wins, and failure of both is the only error
path. -/
def decodeOperationMessageType (j : Json) : Option OperationMessageType :=
  match decodeIndexMap decodeRefOrMessage j with
  | some m => some (.Map m)
  | none => (decodeRefOrMessage j).map .Single

/-- Untagged serialization of `OperationMessageType`: each variant
serializes as its payload would standalone. -/
def encodeOperationMessageType : OperationMessageType → Json
  | .Map m => encodeObjWith encodeRefOrMessage m
  | .Single r => encodeRefOrMessage r

/-! ## channel.rs: Channel

`Channel` (lines 81 to 161) derives `Serialize`, `Deserialize`, `Default`
and `PartialEq` with `#[serde(rename_all = "camelCase")]`.  Field
attributes, in declaration order:

* `messages : IndexMap<String, Option<OperationMessageType>>` — no
  attribute, hence required on deserialization;
* `address : Option<String>` — skipped when `None`;
* `description : Option<String>` — skipped when `None`;
* `servers : Vec<String>` — `default`, skipped when empty;
* `parameters : IndexMap<String, ReferenceOr<Parameter>>` — `default`,
  skipped when empty;
* `bindings : Option<ReferenceOr<ChannelBinding>>` — skipped when `None`;
* `extensions : IndexMap<String, serde_json::Value>` — `flatten`;
* `reference : Option<String>` — renamed `"$ref"`, skipped when `None`. -/

structure Channel where
  messages : List (String × Option OperationMessageType)
  address : Option String := none
  description : Option String := none
  servers : List String := []
  parameters : List (String × ReferenceOr Parameter) := []
  bindings : Option (ReferenceOr ChannelBinding) := none
  extensions : List (String × Json) := []
  reference : Option String := none
deriving DecidableEq, Repr

/-- Serialized form of the `messages` field value. -/
def encodeChannelMessages (m : List (String × Option OperationMessageType)) : Json :=
  encodeObjWith (encodeOptionWith encodeOperationMessageType) m

/-- Deserializer for the `messages` field value. -/
def decodeChannelMessages : Json → Option (List (String × Option OperationMessageType)) :=
  decodeIndexMap (decodeOptionWith decodeOperationMessageType)

/-- The fields of the serialized form of a `Channel`, in the order serde
emits them: declared fields in declaration order (each subject to its
skip condition), with the flattened extension bag entries at the position
of the `extensions` field, i.e. between `bindings` and `"$ref"`. -/
def encChFields (c : Channel) : List (String × Json) :=
  ("messages", encodeChannelMessages c.messages)
    :: (optEntry "address" Json.str c.address
      ++ (optEntry "description" Json.str c.description
        ++ (seqEntry "servers" (fun l => .arr (l.map Json.str)) c.servers
          ++ (seqEntry "parameters"
              (fun m => encodeObjWith (encodeReferenceOr encodeParameter) m) c.parameters
            ++ (optEntry "bindings" (encodeReferenceOr encodeChannelBinding) c.bindings
              ++ (c.extensions
                ++ optEntry "$ref" Json.str c.reference))))))

/-- Serialization of `Channel`. -/
def encodeChannel (c : Channel) : Json :=
  .obj (encChFields c)

/-- In-progress state of the `Channel` map visitor: each declared field is
`none` until its key has been seen (seeing it twice is a duplicate-field
error), and unmatched fields accumulate into the extension bag. -/
structure ChannelAcc where
  messages : Option (List (String × Option OperationMessageType)) := none
  address : Option (Option String) := none
  description : Option (Option String) := none
  servers : Option (List String) := none
  parameters : Option (List (String × ReferenceOr Parameter)) := none
  bindings : Option (Option (ReferenceOr ChannelBinding)) := none
  reference : Option (Option String) := none
  extensions : List (String × Json) := []
deriving DecidableEq, Repr

/-- Fill a declared field slot from its document value: a second
occurrence of the key is a duplicate-field error, and a value the field's
deserializer rejects fails the whole parse. -/
def setSlot (d : Json → Option α) (slot : Option α) (j : Json) (set : α → β) : Option β :=
  match slot with
  | some _ => none
  | none => (d j).map set

/-- One step of the `Channel` map visitor: match the key against the
declared (camelCase / renamed) field names; any other key is collected
into the flattened extension bag. -/
def chStep (acc : ChannelAcc) (k : String) (j : Json) : Option ChannelAcc :=
  if k = "messages" then
    setSlot decodeChannelMessages acc.messages j
      (fun v => { acc with messages := some v })
  else if k = "address" then
    setSlot (decodeOptionWith decodeString) acc.address j
      (fun v => { acc with address := some v })
  else if k = "description" then
    setSlot (decodeOptionWith decodeString) acc.description j
      (fun v => { acc with description := some v })
  else if k = "servers" then
    setSlot (decodeListWith decodeString) acc.servers j
      (fun v => { acc with servers := some v })
  else if k = "parameters" then
    setSlot (decodeIndexMap (decodeReferenceOr decodeParameter)) acc.parameters j
      (fun v => { acc with parameters := some v })
  else if k = "bindings" then
    setSlot (decodeOptionWith (decodeReferenceOr decodeChannelBinding)) acc.bindings j
      (fun v => { acc with bindings := some v })
  else if k = "$ref" then
    setSlot (decodeOptionWith decodeString) acc.reference j
      (fun v => { acc with reference := some v })
  else
    some { acc with extensions := idxInsert acc.extensions k j }

/-- The serde map-visitor loop shared by the flattened structs: feed each
document entry to the struct's key-dispatch step, stopping at the first
failure. -/
def foldFields (step : β → String → Json → Option β) :
    List (String × Json) → β → Option β
  | [], acc => some acc
  | (k, j) :: rest, acc =>
      match step acc k j with
      | none => none
      | some acc' => foldFields step rest acc'

/-- The `Channel` map-visitor loop over the document object's entries. -/
def decodeChannelFields : List (String × Json) → ChannelAcc → Option ChannelAcc :=
  foldFields chStep

/-- Finish `Channel` deserialization: `messages` has no default and is a
missing-field error when absent; `Option` fields default to `None` and
`#[serde(default)]` collections default to empty. -/
def finChannel (acc : ChannelAcc) : Option Channel :=
  match acc.messages with
  | none => none
  | some m =>
      some
        { messages := m
          address := acc.address.getD none
          description := acc.description.getD none
          servers := acc.servers.getD []
          parameters := acc.parameters.getD []
          bindings := acc.bindings.getD none
          extensions := acc.extensions
          reference := acc.reference.getD none }

/-- Deserialization of `Channel`: a struct with a flattened field
deserializes from a document object only. -/
def decodeChannel : Json → Option Channel
  | .obj fs =>
      match decodeChannelFields fs {} with
      | none => none
      | some acc => finChannel acc
  | _ => none

/-! ## operations.rs

`ActionType` (lines 11 to 16) is a plain enum with
`#[serde(rename_all = "camelCase")]` and explicit per-variant renames
`"receive"` and `"send"`; its `Default` impl (lines 18 to 22) returns
`Receive`.  The module defines its own untagged `OperationMessageType`
and `OperationChannelType` (lines 24 to 36), each `Schema(Schema)` or
`Any(serde_json::Value)`; these are placed in the `operations` namespace
to mirror the Rust module paths, since `channel.rs` declares a distinct
`OperationMessageType`. -/

inductive ActionType where
  | Receive
  | Send
deriving DecidableEq, Repr

/-- The `Default` impl for `ActionType` (operations.rs lines 18 to 22). -/
def ActionType.default : ActionType :=
  ActionType.Receive

/-- Deserialization of the unit-variant enum `ActionType`: exactly the
strings `"receive"` and `"send"` are accepted. -/
def decodeActionType : Json → Option ActionType
  | .str s =>
      if s = "receive" then some .Receive
      else if s = "send" then some .Send
      else none
  | _ => none

/-- Serialization of `ActionType` to its renamed variant string. -/
def encodeActionType : ActionType → Json
  | .Receive => .str "receive"
  | .Send => .str "send"

namespace operations

/-- The untagged `OperationMessageType` of operations.rs (lines 24 to
29): a `Schema` or any raw JSON value. -/
inductive OperationMessageType where
  | Schema (s : AsyncAPI.Schema)
  | Any (v : Json)
deriving DecidableEq, Repr

/-- The untagged `OperationChannelType` of operations.rs (lines 31 to
36): a `Schema` or any raw JSON value. -/
inductive OperationChannelType where
  | Schema (s : AsyncAPI.Schema)
  | Any (v : Json)
deriving DecidableEq, Repr

/-- Untagged deserialization: `Schema` is tried first; the
`Any(serde_json::Value)` fallback accepts every JSON value, so this
deserializer never fails. -/
def decodeOperationMessageType (j : Json) : OperationMessageType :=
  match decodeSchema j with
  | some s => .Schema s
  | none => .Any j

def encodeOperationMessageType : OperationMessageType → Json
  | .Schema s => encodeSchema s
  | .Any v => v

/-- Untagged deserialization: `Schema` is tried first; the
`Any(serde_json::Value)` fallback accepts every JSON value, so this
deserializer never fails. -/
def decodeOperationChannelType (j : Json) : OperationChannelType :=
  match decodeSchema j with
  | some s => .Schema s
  | none => .Any j

def encodeOperationChannelType : OperationChannelType → Json
  | .Schema s => encodeSchema s
  | .Any v => v

end operations

/-! ## operations.rs: Operation

`Operation` (lines 119 to 168) derives `Serialize`, `Deserialize`,
`Default` and `PartialEq` with `#[serde(rename_all = "camelCase")]`.
Field attributes, in declaration order:

* `action : ActionType` — no attribute, hence required on
  deserialization;
* `channel : Option<OperationChannelType>` — skipped when `None`;
* `messages : Option<Vec<OperationMessageType>>` — skipped when `None`;
* `operation_id : Option<String>` — camelCased to `"operationId"`,
  skipped when `None`;
* `summary : Option<String>` — skipped when `None`;
* `description : Option<String>` — skipped when `None`;
* `tags : Vec<Tag>` — `default`, skipped when empty;
* `external_docs : Option<ExternalDocumentation>` — camelCased to
  `"externalDocs"`, skipped when `None`;
* `bindings : Option<ReferenceOr<OperationBinding>>` — skipped when
  `None`;
* `traits : Vec<ReferenceOr<OperationTrait>>` — `default`, skipped when
  empty;
* `extensions : IndexMap<String, serde_json::Value>` — `flatten`. -/

structure Operation where
  action : ActionType
  channel : Option operations.OperationChannelType := none
  messages : Option (List operations.OperationMessageType) := none
  operation_id : Option String := none
  summary : Option String := none
  description : Option String := none
  tags : List Tag := []
  external_docs : Option ExternalDocumentation := none
  bindings : Option (ReferenceOr OperationBinding) := none
  traits : List (ReferenceOr OperationTrait) := []
  extensions : List (String × Json) := []
deriving DecidableEq, Repr

/-- Deserializer for the `messages` field value of an `Operation`: an
optional array whose elements always deserialize (the `Any` fallback). -/
def decodeOpMessages : Json → Option (Option (List operations.OperationMessageType)) :=
  decodeOptionWith (decodeListWith (fun j => some (operations.decodeOperationMessageType j)))

/-- The fields of the serialized form of an `Operation`, in the order
serde emits them: declared fields in declaration order (each subject to
its skip condition), with the flattened extension bag entries last. -/
def encOpFields (o : Operation) : List (String × Json) :=
  ("action", encodeActionType o.action)
    :: (optEntry "channel" operations.encodeOperationChannelType o.channel
      ++ (optEntry "messages"
          (fun l => .arr (l.map operations.encodeOperationMessageType)) o.messages
        ++ (optEntry "operationId" Json.str o.operation_id
          ++ (optEntry "summary" Json.str o.summary
            ++ (optEntry "description" Json.str o.description
              ++ (seqEntry "tags" (fun l => .arr (l.map encodeTag)) o.tags
                ++ (optEntry "externalDocs" encodeExternalDocumentation o.external_docs
                  ++ (optEntry "bindings" (encodeReferenceOr encodeOperationBinding) o.bindings
                    ++ (seqEntry "traits"
                        (fun l => .arr (l.map (encodeReferenceOr encodeOperationTrait)))
                        o.traits
                      ++ o.extensions)))))))))

/-- Serialization of `Operation`. -/
def encodeOperation (o : Operation) : Json :=
  .obj (encOpFields o)

/-- In-progress state of the `Operation` map visitor. -/
structure OperationAcc where
  action : Option ActionType := none
  channel : Option (Option operations.OperationChannelType) := none
  messages : Option (Option (List operations.OperationMessageType)) := none
  operation_id : Option (Option String) := none
  summary : Option (Option String) := none
  description : Option (Option String) := none
  tags : Option (List Tag) := none
  external_docs : Option (Option ExternalDocumentation) := none
  bindings : Option (Option (ReferenceOr OperationBinding)) := none
  traits : Option (List (ReferenceOr OperationTrait)) := none
  extensions : List (String × Json) := []
deriving DecidableEq, Repr

/-- One step of the `Operation` map visitor: match the key against the
declared (camelCase) field names; any other key is collected into the
flattened extension bag. -/
def opStep (acc : OperationAcc) (k : String) (j : Json) : Option OperationAcc :=
  if k = "action" then
    setSlot decodeActionType acc.action j
      (fun v => { acc with action := some v })
  else if k = "channel" then
    setSlot (decodeOptionWith (fun j => some (operations.decodeOperationChannelType j)))
      acc.channel j (fun v => { acc with channel := some v })
  else if k = "messages" then
    setSlot decodeOpMessages acc.messages j
      (fun v => { acc with messages := some v })
  else if k = "operationId" then
    setSlot (decodeOptionWith decodeString) acc.operation_id j
      (fun v => { acc with operation_id := some v })
  else if k = "summary" then
    setSlot (decodeOptionWith decodeString) acc.summary j
      (fun v => { acc with summary := some v })
  else if k = "description" then
    setSlot (decodeOptionWith decodeString) acc.description j
      (fun v => { acc with description := some v })
  else if k = "tags" then
    setSlot (decodeListWith decodeTag) acc.tags j
      (fun v => { acc with tags := some v })
  else if k = "externalDocs" then
    setSlot (decodeOptionWith decodeExternalDocumentation) acc.external_docs j
      (fun v => { acc with external_docs := some v })
  else if k = "bindings" then
    setSlot (decodeOptionWith (decodeReferenceOr decodeOperationBinding)) acc.bindings j
      (fun v => { acc with bindings := some v })
  else if k = "traits" then
    setSlot (decodeListWith (decodeReferenceOr decodeOperationTrait)) acc.traits j
      (fun v => { acc with traits := some v })
  else
    some { acc with extensions := idxInsert acc.extensions k j }

/-- The `Operation` map-visitor loop over the document object's
entries. -/
def decodeOperationFields : List (String × Json) → OperationAcc → Option OperationAcc :=
  foldFields opStep

/-- Finish `Operation` deserialization: `action` carries no
`#[serde(default)]` attribute, so its absence is a missing-field error
(the `Default` impl of `ActionType` plays no part in deserialization);
`Option` fields default to `None` and `#[serde(default)]` collections
default to empty. -/
def finOperation (acc : OperationAcc) : Option Operation :=
  match acc.action with
  | none => none
  | some a =>
      some
        { action := a
          channel := acc.channel.getD none
          messages := acc.messages.getD none
          operation_id := acc.operation_id.getD none
          summary := acc.summary.getD none
          description := acc.description.getD none
          tags := acc.tags.getD []
          external_docs := acc.external_docs.getD none
          bindings := acc.bindings.getD none
          traits := acc.traits.getD []
          extensions := acc.extensions }

/-- Deserialization of `Operation`: a struct with a flattened field
deserializes from a document object only. -/
def decodeOperation : Json → Option Operation
  | .obj fs =>
      match decodeOperationFields fs {} with
      | none => none
      | some acc => finOperation acc
  | _ => none

/-! ## Well-formedness predicates

The round-trip claims quantify over representable values and decodable
documents.  The predicates below isolate the values and documents for
which the round trip is exact: maps with duplicate-free keys, extension
bags that do not collide with declared field names, and
shape-discriminated variants whose encoded form re-selects the same
variant. -/

/-- Keys of an association list are pairwise distinct. -/
def nodupKeysB : List (String × α) → Bool
  | [] => true
  | (k, _) :: rest => !((keysOf rest).contains k) && nodupKeysB rest

mutual

/-- Every object anywhere inside the value has pairwise distinct keys
(serde_json's parsed values always satisfy this). -/
def Json.nk : Json → Bool
  | .null => true
  | .bool _ => true
  | .num _ => true
  | .str _ => true
  | .arr xs => Json.nkList xs
  | .obj fs => nodupKeysB fs && Json.nkFields fs
termination_by structural a => a

/-- `Json.nk` on every element of a list. -/
def Json.nkList : List Json → Bool
  | [] => true
  | x :: xs => Json.nk x && Json.nkList xs
termination_by structural a => a

/-- `Json.nk` on every value of an object field list. -/
def Json.nkFields : List (String × Json) → Bool
  | [] => true
  | (_, v) :: rest => Json.nk v && Json.nkFields rest
termination_by structural a => a

end

/-- The serialized names of the declared fields of `Channel`, i.e. the
keys its deserializer does not route into the extension bag. -/
def channelKeys : List String :=
  ["messages", "address", "description", "servers", "parameters", "bindings", "$ref"]

/-- The serialized names of the declared fields of `Operation`. -/
def operationKeys : List String :=
  ["action", "channel", "messages", "operationId", "summary", "description",
    "tags", "externalDocs", "bindings", "traits"]

/-- Apply a check to the payload of a present optional value. -/
def optWFB (f : α → Bool) : Option α → Bool
  | none => true
  | some a => f a

/-- Well-formedness of a `ReferenceOr` whose item is an extension-bag
entity: the item's bag has distinct keys and its serialized form is not
itself reference-shaped (otherwise re-decoding selects the `Reference`
variant). -/
def refOrWFB (ext : α → List (String × Json)) : ReferenceOr α → Bool
  | .Reference _ => true
  | .Item a => nodupKeysB (ext a) && (refOnly (.obj (ext a))).isNone

/-- Well-formedness of a channel `OperationMessageType`: map keys are
distinct and every entry is well formed; a `Single` value must not
re-decode under the `Map` shape, which the untagged deserializer tries
first. -/
def omtWFB : OperationMessageType → Bool
  | .Map m => nodupKeysB m && m.all (fun kv => refOrWFB Message.extensions kv.2)
  | .Single r => refOrWFB Message.extensions r &&
      (decodeIndexMap decodeRefOrMessage (encodeRefOrMessage r)).isNone

/-- Well-formedness of a `Channel` value for the value round trip. -/
def channelWFB (c : Channel) : Bool :=
  nodupKeysB c.messages &&
  c.messages.all (fun kv => optWFB omtWFB kv.2) &&
  nodupKeysB c.parameters &&
  c.parameters.all (fun kv => refOrWFB Parameter.extensions kv.2) &&
  optWFB (refOrWFB ChannelBinding.extensions) c.bindings &&
  nodupKeysB c.extensions &&
  c.extensions.all (fun kv => !(channelKeys.contains kv.1))

/-- Well-formedness of an operations-module `OperationChannelType`: a
`Schema` item has a duplicate-free bag; an `Any` value must not parse as
a `Schema`, which the untagged deserializer tries first, and must not be
`null`, which the containing `Option` field would re-decode as absent. -/
def octWFB : operations.OperationChannelType → Bool
  | .Schema s => nodupKeysB s.extensions
  | .Any .null => false
  | .Any v => (decodeSchema v).isNone

/-- Well-formedness of an operations-module `OperationMessageType`;
see `octWFB`. -/
def omtOpWFB : operations.OperationMessageType → Bool
  | .Schema s => nodupKeysB s.extensions
  | .Any v => (decodeSchema v).isNone

/-- Well-formedness of an `Operation` value for the value round trip. -/
def operationWFB (o : Operation) : Bool :=
  optWFB octWFB o.channel &&
  optWFB (fun l => l.all omtOpWFB) o.messages &&
  o.tags.all (fun t => nodupKeysB t.extensions) &&
  optWFB (fun d => nodupKeysB d.extensions) o.external_docs &&
  optWFB (refOrWFB OperationBinding.extensions) o.bindings &&
  o.traits.all (refOrWFB OperationTrait.extensions) &&
  nodupKeysB o.extensions &&
  o.extensions.all (fun kv => !(operationKeys.contains kv.1))

/-- The value at key `k`, if present, is not `null` (so an
`Option` field decoded from it is not skipped on re-serialization). -/
def notNullAt (k : String) (fs : List (String × Json)) : Bool :=
  match lookupKey k fs with
  | some .null => false
  | _ => true

/-- The value at key `k`, if present, is not the empty array. -/
def notEmptyArrAt (k : String) (fs : List (String × Json)) : Bool :=
  match lookupKey k fs with
  | some (.arr []) => false
  | _ => true

/-- The value at key `k`, if present, is not the empty object. -/
def notEmptyObjAt (k : String) (fs : List (String × Json)) : Bool :=
  match lookupKey k fs with
  | some (.obj []) => false
  | _ => true

/-- No field of a channel document holds a value its re-serialization
would skip: optional fields are not explicitly `null` and defaulted
collections are not explicitly empty. -/
def chNoSkipB (fs : List (String × Json)) : Bool :=
  notNullAt "address" fs && notNullAt "description" fs &&
  notEmptyArrAt "servers" fs && notEmptyObjAt "parameters" fs &&
  notNullAt "bindings" fs && notNullAt "$ref" fs

/-- No field of an operation document holds a value its re-serialization
would skip. -/
def opNoSkipB (fs : List (String × Json)) : Bool :=
  notNullAt "channel" fs && notNullAt "messages" fs && notNullAt "operationId" fs &&
  notNullAt "summary" fs && notNullAt "description" fs && notEmptyArrAt "tags" fs &&
  notNullAt "externalDocs" fs && notNullAt "bindings" fs && notEmptyArrAt "traits" fs

/-! ## Association-list lemmas -/

theorem keysOf_nil : keysOf ([] : List (String × α)) = [] := rfl

theorem keysOf_cons (k : String) (v : α) (m : List (String × α)) :
    keysOf ((k, v) :: m) = k :: keysOf m := rfl

theorem keysOf_append (xs ys : List (String × α)) :
    keysOf (xs ++ ys) = keysOf xs ++ keysOf ys :=
  List.map_append _ _ _

theorem lookupKey_eq_none {k : String} {m : List (String × α)} :
    lookupKey k m = none ↔ k ∉ keysOf m := by
  induction m with
  | nil => simp [lookupKey, keysOf]
  | cons kv rest ih =>
      obtain ⟨k', v⟩ := kv
      by_cases h : k' = k
      · subst h
        simp [lookupKey, keysOf_cons]
      · simp [lookupKey, keysOf_cons, h, ih, Ne.symm h]

theorem lookupKey_mem {k : String} {m : List (String × α)} {v : α}
    (h : lookupKey k m = some v) : (k, v) ∈ m := by
  induction m with
  | nil => simp [lookupKey] at h
  | cons kv rest ih =>
      obtain ⟨k', v'⟩ := kv
      by_cases he : k' = k
      · subst he
        simp [lookupKey] at h
        simp [h]
      · simp [lookupKey, he] at h
        simp [ih h]

theorem lookupKey_append_left {k : String} {xs : List (String × α)} {v : α}
    (ys : List (String × α)) (h : lookupKey k xs = some v) :
    lookupKey k (xs ++ ys) = some v := by
  induction xs with
  | nil => simp [lookupKey] at h
  | cons kv rest ih =>
      obtain ⟨k', v'⟩ := kv
      by_cases he : k' = k <;> simp [lookupKey, he] at h ⊢ <;> simp_all

theorem lookupKey_append_right {k : String} {xs : List (String × α)}
    (ys : List (String × α)) (h : lookupKey k xs = none) :
    lookupKey k (xs ++ ys) = lookupKey k ys := by
  induction xs with
  | nil => simp
  | cons kv rest ih =>
      obtain ⟨k', v'⟩ := kv
      by_cases he : k' = k <;> simp [lookupKey, he] at h ⊢ <;> simp_all

theorem idxInsert_of_not_mem {k : String} {m : List (String × α)} (v : α)
    (h : k ∉ keysOf m) : idxInsert m k v = m ++ [(k, v)] := by
  induction m with
  | nil => rfl
  | cons kv rest ih =>
      obtain ⟨k', v'⟩ := kv
      simp [keysOf_cons] at h
      have hne : ¬ k' = k := fun he => h.1 he.symm
      simp [idxInsert, hne, ih h.2]

theorem idxOfListFrom_of_fresh :
    ∀ (fs : List (String × α)) (acc : List (String × α)),
      (keysOf fs).Nodup → (∀ k ∈ keysOf fs, k ∉ keysOf acc) →
      idxOfListFrom acc fs = acc ++ fs := by
  intro fs
  induction fs with
  | nil => intro acc _ _; simp [idxOfListFrom]
  | cons kv rest ih =>
      intro acc hnd hfresh
      obtain ⟨k, v⟩ := kv
      rw [keysOf_cons] at hnd hfresh
      rw [idxOfListFrom, idxInsert_of_not_mem v (hfresh k (List.mem_cons_self _ _))]
      rw [ih (acc ++ [(k, v)]) (List.nodup_cons.mp hnd).2 ?fresh]
      · simp
      case fresh =>
        intro k' hk' hmem
        rw [keysOf_append] at hmem
        rcases List.mem_append.mp hmem with hin | hin
        · exact hfresh k' (List.mem_cons_of_mem _ hk') hin
        · have hkk : k' = k := by simpa [keysOf] using hin
          exact (List.nodup_cons.mp hnd).1 (hkk ▸ hk')

theorem idxOfList_of_nodup {fs : List (String × α)} (h : (keysOf fs).Nodup) :
    idxOfList fs = fs := by
  simpa using idxOfListFrom_of_fresh fs [] h (by simp [keysOf])

theorem nodupKeysB_iff {m : List (String × α)} :
    nodupKeysB m = true ↔ (keysOf m).Nodup := by
  induction m with
  | nil => simp [nodupKeysB, keysOf]
  | cons kv rest ih =>
      obtain ⟨k, v⟩ := kv
      simp [nodupKeysB, keysOf_cons, List.nodup_cons, ih, List.elem_iff]

/-! ## Json.nk extraction lemmas -/

theorem nk_obj_nodup {fs : List (String × Json)} (h : Json.nk (.obj fs) = true) :
    (keysOf fs).Nodup := by
  rw [Json.nk, Bool.and_eq_true] at h
  exact nodupKeysB_iff.mp h.1

theorem nkFields_val : ∀ {fs : List (String × Json)} {k : String} {v : Json},
    Json.nkFields fs = true → (k, v) ∈ fs → Json.nk v = true := by
  intro fs
  induction fs with
  | nil => intro k v _ hm; simp at hm
  | cons kv rest ih =>
      intro k v h hm
      obtain ⟨k', v'⟩ := kv
      rw [Json.nkFields, Bool.and_eq_true] at h
      rcases List.mem_cons.mp hm with he | hm'
      · cases he; exact h.1
      · exact ih h.2 hm'

theorem nk_obj_val {fs : List (String × Json)} {k : String} {v : Json}
    (h : Json.nk (.obj fs) = true) (hm : (k, v) ∈ fs) : Json.nk v = true := by
  rw [Json.nk, Bool.and_eq_true] at h
  exact nkFields_val h.2 hm

theorem nkList_mem : ∀ {xs : List Json} {x : Json},
    Json.nkList xs = true → x ∈ xs → Json.nk x = true := by
  intro xs
  induction xs with
  | nil => intro x _ hm; simp at hm
  | cons y rest ih =>
      intro x h hm
      rw [Json.nkList, Bool.and_eq_true] at h
      rcases List.mem_cons.mp hm with he | hm'
      · cases he; exact h.1
      · exact ih h.2 hm'

theorem nk_arr_mem {xs : List Json} {x : Json}
    (h : Json.nk (.arr xs) = true) (hm : x ∈ xs) : Json.nk x = true := by
  rw [Json.nk] at h
  exact nkList_mem h hm

/-! ## Primitive decoder characterizations -/

theorem decodeString_eq_some {j : Json} {s : String} (h : decodeString j = some s) :
    j = .str s := by
  cases j <;> simp [decodeString] at h
  rw [h]

theorem decodeOptionWith_null (f : Json → Option α) :
    decodeOptionWith f .null = some none := rfl

theorem decodeOptionWith_eq_some_none {f : Json → Option α} {j : Json}
    (h : decodeOptionWith f j = some none) : j = .null := by
  cases j <;> simp [decodeOptionWith] at h <;> rfl

theorem decodeOptionWith_eq_some_some {f : Json → Option α} {j : Json} {v : α}
    (h : decodeOptionWith f j = some (some v)) : j ≠ .null ∧ f j = some v := by
  cases j <;> simp [decodeOptionWith] at h <;> simp_all

theorem decodeOptionWith_not_null {f : Json → Option α} {j : Json}
    (h : j ≠ .null) : decodeOptionWith f j = (f j).map some := by
  cases j <;> simp [decodeOptionWith] at h ⊢

theorem decodeElems_map (f : Json → Option α) (g : α → Json) :
    ∀ (l : List α), (∀ x ∈ l, f (g x) = some x) →
      decodeElems f (l.map g) = some l := by
  intro l
  induction l with
  | nil => intro _; rfl
  | cons x rest ih =>
      intro h
      rw [List.map_cons, decodeElems, h x (List.mem_cons_self _ _),
        ih (fun y hy => h y (List.mem_cons_of_mem _ hy))]
      rfl

theorem decodeElems_encodeBack (f : Json → Option α) (g : α → Json) :
    ∀ (xs : List Json) (l : List α),
      (∀ x ∈ xs, ∀ v, f x = some v → g v = x) →
      decodeElems f xs = some l → l.map g = xs := by
  intro xs
  induction xs with
  | nil =>
      intro l _ h
      rw [decodeElems] at h
      cases h
      rfl
  | cons x rest ih =>
      intro l hval h
      rw [decodeElems] at h
      cases hx : f x with
      | none => rw [hx] at h; exact absurd h (by simp)
      | some v =>
          rw [hx] at h
          cases hr : decodeElems f rest with
          | none => rw [hr] at h; exact absurd h (by simp)
          | some l' =>
              rw [hr] at h
              simp at h
              subst h
              rw [List.map_cons,
                hval x (List.mem_cons_self _ _) v hx,
                ih l' (fun y hy => hval y (List.mem_cons_of_mem _ hy)) hr]

theorem decodeEntries_cons_some {f : Json → Option α} {j : Json} {v : α}
    (k : String) (rest : List (String × Json)) (acc : List (String × α))
    (h : f j = some v) :
    decodeEntries f ((k, j) :: rest) acc = decodeEntries f rest (idxInsert acc k v) := by
  rw [decodeEntries, h]

theorem decodeEntries_cons_none {f : Json → Option α} {j : Json}
    (k : String) (rest : List (String × Json)) (acc : List (String × α))
    (h : f j = none) :
    decodeEntries f ((k, j) :: rest) acc = none := by
  rw [decodeEntries, h]

theorem decodeEntries_map (f : Json → Option α) (g : α → Json) :
    ∀ (m acc : List (String × α)),
      (∀ kv ∈ m, f (g kv.2) = some kv.2) →
      (keysOf m).Nodup → (∀ k ∈ keysOf m, k ∉ keysOf acc) →
      decodeEntries f (m.map (fun kv => (kv.1, g kv.2))) acc = some (acc ++ m) := by
  intro m
  induction m with
  | nil => intro acc _ _ _; simp [decodeEntries]
  | cons kv rest ih =>
      intro acc hval hnd hfresh
      obtain ⟨k, v⟩ := kv
      rw [keysOf_cons] at hnd hfresh
      have hv : f (g v) = some v := hval (k, v) (List.mem_cons_self _ _)
      have hins : idxInsert acc k v = acc ++ [(k, v)] :=
        idxInsert_of_not_mem v (hfresh k (List.mem_cons_self _ _))
      have hrest := ih (acc ++ [(k, v)])
        (fun kv hkv => hval kv (List.mem_cons_of_mem _ hkv))
        (List.nodup_cons.mp hnd).2 ?fresh
      · rw [List.map_cons]
        rw [decodeEntries_cons_some k _ acc hv, hins, hrest]
        simp
      case fresh =>
        intro k' hk' hmem
        rw [keysOf_append] at hmem
        rcases List.mem_append.mp hmem with hin | hin
        · exact hfresh k' (List.mem_cons_of_mem _ hk') hin
        · have hkk : k' = k := by simpa [keysOf] using hin
          exact (List.nodup_cons.mp hnd).1 (hkk ▸ hk')

theorem decodeEntries_encodeBack (f : Json → Option α) (g : α → Json) :
    ∀ (fs : List (String × Json)) (acc m : List (String × α)),
      (∀ kv ∈ fs, ∀ v, f kv.2 = some v → g v = kv.2) →
      (keysOf fs).Nodup → (∀ k ∈ keysOf fs, k ∉ keysOf acc) →
      decodeEntries f fs acc = some m →
      m.map (fun kv => (kv.1, g kv.2)) = acc.map (fun kv => (kv.1, g kv.2)) ++ fs := by
  intro fs
  induction fs with
  | nil =>
      intro acc m _ _ _ h
      rw [decodeEntries] at h
      cases h
      simp
  | cons kv rest ih =>
      intro acc m hval hnd hfresh h
      obtain ⟨k, j⟩ := kv
      rw [keysOf_cons] at hnd hfresh
      cases hj : f j with
      | none =>
          rw [decodeEntries_cons_none k rest acc hj] at h
          exact Option.noConfusion h
      | some v =>
          rw [decodeEntries_cons_some k rest acc hj,
            idxInsert_of_not_mem v (hfresh k (List.mem_cons_self _ _))] at h
          have hmain := ih (acc ++ [(k, v)]) m
            (fun kv hkv => hval kv (List.mem_cons_of_mem _ hkv))
            (List.nodup_cons.mp hnd).2 ?fresh h
          · rw [hmain, List.map_append]
            simp [hval (k, j) (List.mem_cons_self _ _) v hj]
          case fresh =>
            intro k' hk' hmem
            rw [keysOf_append] at hmem
            rcases List.mem_append.mp hmem with hin | hin
            · exact hfresh k' (List.mem_cons_of_mem _ hk') hin
            · have hkk : k' = k := by simpa [keysOf] using hin
              exact (List.nodup_cons.mp hnd).1 (hkk ▸ hk')

/-! ## refOnly and extension-bag entity lemmas -/

theorem refOnly_eq_some {j : Json} {s : String} (h : refOnly j = some s) :
    j = .obj [("$ref", .str s)] := by
  match j, h with
  | .obj [(k, .str s')], h =>
      rw [refOnly] at h
      by_cases hk : k = "$ref"
      · simp [hk] at h
        simp [hk, h]
      · simp [hk] at h

theorem decodeExtFields_eq_some {j : Json} {e : List (String × Json)}
    (h : decodeExtFields j = some e) (hnk : Json.nk j = true) : j = .obj e := by
  cases j <;> simp [decodeExtFields] at h
  rename_i fs
  rw [Json.nk, Bool.and_eq_true] at hnk
  rw [← h, idxOfList_of_nodup (nodupKeysB_iff.mp hnk.1)]

theorem decodeExtFields_obj {e : List (String × Json)} (hnd : (keysOf e).Nodup) :
    decodeExtFields (.obj e) = some e := by
  rw [decodeExtFields, idxOfList_of_nodup hnd]

/-! ## Extension-bag entity round trips -/

theorem decodeMessage_encode {m : Message} (hnd : (keysOf m.extensions).Nodup) :
    decodeMessage (encodeMessage m) = some m := by
  rw [encodeMessage, decodeMessage, decodeExtFields_obj hnd]
  rfl

theorem decodeMessage_encodeBack {j : Json} {m : Message}
    (h : decodeMessage j = some m) (hnk : Json.nk j = true) : encodeMessage m = j := by
  rw [decodeMessage] at h
  rcases Option.map_eq_some'.mp h with ⟨e, he, rfl⟩
  rw [encodeMessage]
  exact (decodeExtFields_eq_some he hnk).symm

theorem decodeParameter_encode {p : Parameter} (hnd : (keysOf p.extensions).Nodup) :
    decodeParameter (encodeParameter p) = some p := by
  rw [encodeParameter, decodeParameter, decodeExtFields_obj hnd]
  rfl

theorem decodeParameter_encodeBack {j : Json} {p : Parameter}
    (h : decodeParameter j = some p) (hnk : Json.nk j = true) : encodeParameter p = j := by
  rw [decodeParameter] at h
  rcases Option.map_eq_some'.mp h with ⟨e, he, rfl⟩
  rw [encodeParameter]
  exact (decodeExtFields_eq_some he hnk).symm

theorem decodeChannelBinding_encode {b : ChannelBinding}
    (hnd : (keysOf b.extensions).Nodup) :
    decodeChannelBinding (encodeChannelBinding b) = some b := by
  rw [encodeChannelBinding, decodeChannelBinding, decodeExtFields_obj hnd]
  rfl

theorem decodeChannelBinding_encodeBack {j : Json} {b : ChannelBinding}
    (h : decodeChannelBinding j = some b) (hnk : Json.nk j = true) :
    encodeChannelBinding b = j := by
  rw [decodeChannelBinding] at h
  rcases Option.map_eq_some'.mp h with ⟨e, he, rfl⟩
  rw [encodeChannelBinding]
  exact (decodeExtFields_eq_some he hnk).symm

theorem decodeSchema_encode {s : Schema} (hnd : (keysOf s.extensions).Nodup) :
    decodeSchema (encodeSchema s) = some s := by
  rw [encodeSchema, decodeSchema, decodeExtFields_obj hnd]
  rfl

theorem decodeSchema_encodeBack {j : Json} {s : Schema}
    (h : decodeSchema j = some s) (hnk : Json.nk j = true) : encodeSchema s = j := by
  rw [decodeSchema] at h
  rcases Option.map_eq_some'.mp h with ⟨e, he, rfl⟩
  rw [encodeSchema]
  exact (decodeExtFields_eq_some he hnk).symm

theorem decodeTag_encode {t : Tag} (hnd : (keysOf t.extensions).Nodup) :
    decodeTag (encodeTag t) = some t := by
  rw [encodeTag, decodeTag, decodeExtFields_obj hnd]
  rfl

theorem decodeTag_encodeBack {j : Json} {t : Tag}
    (h : decodeTag j = some t) (hnk : Json.nk j = true) : encodeTag t = j := by
  rw [decodeTag] at h
  rcases Option.map_eq_some'.mp h with ⟨e, he, rfl⟩
  rw [encodeTag]
  exact (decodeExtFields_eq_some he hnk).symm

theorem decodeExternalDocumentation_encode {d : ExternalDocumentation}
    (hnd : (keysOf d.extensions).Nodup) :
    decodeExternalDocumentation (encodeExternalDocumentation d) = some d := by
  rw [encodeExternalDocumentation, decodeExternalDocumentation, decodeExtFields_obj hnd]
  rfl

theorem decodeExternalDocumentation_encodeBack {j : Json} {d : ExternalDocumentation}
    (h : decodeExternalDocumentation j = some d) (hnk : Json.nk j = true) :
    encodeExternalDocumentation d = j := by
  rw [decodeExternalDocumentation] at h
  rcases Option.map_eq_some'.mp h with ⟨e, he, rfl⟩
  rw [encodeExternalDocumentation]
  exact (decodeExtFields_eq_some he hnk).symm

theorem decodeOperationBinding_encode {b : OperationBinding}
    (hnd : (keysOf b.extensions).Nodup) :
    decodeOperationBinding (encodeOperationBinding b) = some b := by
  rw [encodeOperationBinding, decodeOperationBinding, decodeExtFields_obj hnd]
  rfl

theorem decodeOperationBinding_encodeBack {j : Json} {b : OperationBinding}
    (h : decodeOperationBinding j = some b) (hnk : Json.nk j = true) :
    encodeOperationBinding b = j := by
  rw [decodeOperationBinding] at h
  rcases Option.map_eq_some'.mp h with ⟨e, he, rfl⟩
  rw [encodeOperationBinding]
  exact (decodeExtFields_eq_some he hnk).symm

theorem decodeOperationTrait_encode {t : OperationTrait}
    (hnd : (keysOf t.extensions).Nodup) :
    decodeOperationTrait (encodeOperationTrait t) = some t := by
  rw [encodeOperationTrait, decodeOperationTrait, decodeExtFields_obj hnd]
  rfl

theorem decodeOperationTrait_encodeBack {j : Json} {t : OperationTrait}
    (h : decodeOperationTrait j = some t) (hnk : Json.nk j = true) :
    encodeOperationTrait t = j := by
  rw [decodeOperationTrait] at h
  rcases Option.map_eq_some'.mp h with ⟨e, he, rfl⟩
  rw [encodeOperationTrait]
  exact (decodeExtFields_eq_some he hnk).symm

/-! ## ReferenceOr round trips -/

theorem decodeReferenceOr_encode_ref (f : Json → Option α) (g : α → Json) (s : String) :
    decodeReferenceOr f (encodeReferenceOr g (.Reference s)) = some (.Reference s) := by
  rw [encodeReferenceOr, decodeReferenceOr]
  simp [refOnly]

theorem decodeReferenceOr_encode_item {f : Json → Option α} {g : α → Json} {a : α}
    (hro : refOnly (g a) = none) (hfa : f (g a) = some a) :
    decodeReferenceOr f (encodeReferenceOr g (.Item a)) = some (.Item a) := by
  rw [encodeReferenceOr, decodeReferenceOr, hro, hfa]
  rfl

theorem decodeReferenceOr_encodeBack {f : Json → Option α} {g : α → Json} {j : Json}
    {r : ReferenceOr α} (hval : ∀ a, f j = some a → g a = j)
    (h : decodeReferenceOr f j = some r) : encodeReferenceOr g r = j := by
  rw [decodeReferenceOr] at h
  cases hro : refOnly j with
  | some s =>
      rw [hro] at h
      cases h
      rw [encodeReferenceOr]
      exact (refOnly_eq_some hro).symm
  | none =>
      rw [hro] at h
      rcases Option.map_eq_some'.mp h with ⟨a, ha, rfl⟩
      rw [encodeReferenceOr]
      exact hval a ha

theorem decodeRefOrMessage_encode {r : ReferenceOr Message}
    (h : refOrWFB Message.extensions r = true) :
    decodeRefOrMessage (encodeRefOrMessage r) = some r := by
  rw [decodeRefOrMessage, encodeRefOrMessage]
  cases r with
  | Reference s => exact decodeReferenceOr_encode_ref _ _ s
  | Item m =>
      rw [refOrWFB, Bool.and_eq_true] at h
      exact decodeReferenceOr_encode_item (Option.isNone_iff_eq_none.mp h.2)
        (decodeMessage_encode (nodupKeysB_iff.mp h.1))

theorem decodeRefOrMessage_encodeBack {j : Json} {r : ReferenceOr Message}
    (h : decodeRefOrMessage j = some r) (hnk : Json.nk j = true) :
    encodeRefOrMessage r = j := by
  rw [decodeRefOrMessage] at h
  rw [encodeRefOrMessage]
  exact decodeReferenceOr_encodeBack (fun a ha => decodeMessage_encodeBack ha hnk) h

theorem decodeRefOrParameter_encode {r : ReferenceOr Parameter}
    (h : refOrWFB Parameter.extensions r = true) :
    decodeReferenceOr decodeParameter (encodeReferenceOr encodeParameter r) = some r := by
  cases r with
  | Reference s => exact decodeReferenceOr_encode_ref _ _ s
  | Item p =>
      rw [refOrWFB, Bool.and_eq_true] at h
      exact decodeReferenceOr_encode_item (Option.isNone_iff_eq_none.mp h.2)
        (decodeParameter_encode (nodupKeysB_iff.mp h.1))

theorem decodeRefOrParameter_encodeBack {j : Json} {r : ReferenceOr Parameter}
    (h : decodeReferenceOr decodeParameter j = some r) (hnk : Json.nk j = true) :
    encodeReferenceOr encodeParameter r = j :=
  decodeReferenceOr_encodeBack (fun a ha => decodeParameter_encodeBack ha hnk) h

theorem decodeRefOrChannelBinding_encode {r : ReferenceOr ChannelBinding}
    (h : refOrWFB ChannelBinding.extensions r = true) :
    decodeReferenceOr decodeChannelBinding (encodeReferenceOr encodeChannelBinding r) =
      some r := by
  cases r with
  | Reference s => exact decodeReferenceOr_encode_ref _ _ s
  | Item b =>
      rw [refOrWFB, Bool.and_eq_true] at h
      exact decodeReferenceOr_encode_item (Option.isNone_iff_eq_none.mp h.2)
        (decodeChannelBinding_encode (nodupKeysB_iff.mp h.1))

theorem decodeRefOrChannelBinding_encodeBack {j : Json} {r : ReferenceOr ChannelBinding}
    (h : decodeReferenceOr decodeChannelBinding j = some r) (hnk : Json.nk j = true) :
    encodeReferenceOr encodeChannelBinding r = j :=
  decodeReferenceOr_encodeBack (fun a ha => decodeChannelBinding_encodeBack ha hnk) h

theorem decodeRefOrOperationBinding_encode {r : ReferenceOr OperationBinding}
    (h : refOrWFB OperationBinding.extensions r = true) :
    decodeReferenceOr decodeOperationBinding (encodeReferenceOr encodeOperationBinding r) =
      some r := by
  cases r with
  | Reference s => exact decodeReferenceOr_encode_ref _ _ s
  | Item b =>
      rw [refOrWFB, Bool.and_eq_true] at h
      exact decodeReferenceOr_encode_item (Option.isNone_iff_eq_none.mp h.2)
        (decodeOperationBinding_encode (nodupKeysB_iff.mp h.1))

theorem decodeRefOrOperationBinding_encodeBack {j : Json} {r : ReferenceOr OperationBinding}
    (h : decodeReferenceOr decodeOperationBinding j = some r) (hnk : Json.nk j = true) :
    encodeReferenceOr encodeOperationBinding r = j :=
  decodeReferenceOr_encodeBack (fun a ha => decodeOperationBinding_encodeBack ha hnk) h

theorem decodeRefOrOperationTrait_encode {r : ReferenceOr OperationTrait}
    (h : refOrWFB OperationTrait.extensions r = true) :
    decodeReferenceOr decodeOperationTrait (encodeReferenceOr encodeOperationTrait r) =
      some r := by
  cases r with
  | Reference s => exact decodeReferenceOr_encode_ref _ _ s
  | Item t =>
      rw [refOrWFB, Bool.and_eq_true] at h
      exact decodeReferenceOr_encode_item (Option.isNone_iff_eq_none.mp h.2)
        (decodeOperationTrait_encode (nodupKeysB_iff.mp h.1))

theorem decodeRefOrOperationTrait_encodeBack {j : Json} {r : ReferenceOr OperationTrait}
    (h : decodeReferenceOr decodeOperationTrait j = some r) (hnk : Json.nk j = true) :
    encodeReferenceOr encodeOperationTrait r = j :=
  decodeReferenceOr_encodeBack (fun a ha => decodeOperationTrait_encodeBack ha hnk) h

/-! ## OperationMessageType and messages-map round trips -/

theorem encodeOperationMessageType_ne_null (t : OperationMessageType) :
    encodeOperationMessageType t ≠ .null := by
  cases t with
  | Map m => simp [encodeOperationMessageType, encodeObjWith]
  | Single r =>
      cases r <;>
        simp [encodeOperationMessageType, encodeRefOrMessage, encodeReferenceOr, encodeMessage]

theorem decodeOperationMessageType_encode {t : OperationMessageType}
    (h : omtWFB t = true) :
    decodeOperationMessageType (encodeOperationMessageType t) = some t := by
  cases t with
  | Map m =>
      rw [omtWFB, Bool.and_eq_true] at h
      obtain ⟨hnd, hall⟩ := h
      have hdec := decodeEntries_map decodeRefOrMessage encodeRefOrMessage m []
        (fun kv hkv => decodeRefOrMessage_encode (List.all_eq_true.mp hall kv hkv))
        (nodupKeysB_iff.mp hnd) (by simp [keysOf])
      rw [decodeOperationMessageType, encodeOperationMessageType, encodeObjWith,
        decodeIndexMap, hdec]
      simp
  | Single r =>
      rw [omtWFB, Bool.and_eq_true] at h
      rw [decodeOperationMessageType, encodeOperationMessageType,
        Option.isNone_iff_eq_none.mp h.2, decodeRefOrMessage_encode h.1]
      simp

theorem decodeOperationMessageType_encodeBack {j : Json} {t : OperationMessageType}
    (h : decodeOperationMessageType j = some t) (hnk : Json.nk j = true) :
    encodeOperationMessageType t = j := by
  rw [decodeOperationMessageType] at h
  cases hm : decodeIndexMap decodeRefOrMessage j with
  | some m =>
      rw [hm] at h
      cases h
      match j, hm, hnk with
      | .obj fs, hm, hnk =>
          rw [decodeIndexMap] at hm
          have hmain := decodeEntries_encodeBack decodeRefOrMessage encodeRefOrMessage fs [] m
            (fun kv hkv v hv => decodeRefOrMessage_encodeBack hv (nk_obj_val hnk hkv))
            (nk_obj_nodup hnk) (by simp [keysOf]) hm
          rw [encodeOperationMessageType, encodeObjWith]
          rw [List.map_nil, List.nil_append] at hmain
          rw [hmain]
  | none =>
      rw [hm] at h
      rcases Option.map_eq_some'.mp h with ⟨r, hr, rfl⟩
      rw [encodeOperationMessageType]
      exact decodeRefOrMessage_encodeBack hr hnk

theorem decodeChannelMessages_encode {m : List (String × Option OperationMessageType)}
    (hnd : (keysOf m).Nodup) (hall : ∀ kv ∈ m, optWFB omtWFB kv.2 = true) :
    decodeChannelMessages (encodeChannelMessages m) = some m := by
  have hdec := decodeEntries_map (decodeOptionWith decodeOperationMessageType)
    (encodeOptionWith encodeOperationMessageType) m [] ?hv hnd (by simp [keysOf])
  · rw [decodeChannelMessages, encodeChannelMessages, encodeObjWith, decodeIndexMap, hdec]
    simp
  case hv =>
    intro kv hkv
    cases hv : kv.2 with
    | none => rw [encodeOptionWith]; rfl
    | some t =>
        have hwf := hall kv hkv
        rw [hv, optWFB] at hwf
        rw [encodeOptionWith,
          decodeOptionWith_not_null (encodeOperationMessageType_ne_null t),
          decodeOperationMessageType_encode hwf]
        rfl

theorem decodeChannelMessages_encodeBack {j : Json}
    {m : List (String × Option OperationMessageType)}
    (h : decodeChannelMessages j = some m) (hnk : Json.nk j = true) :
    encodeChannelMessages m = j := by
  rw [decodeChannelMessages] at h
  match j, h, hnk with
  | .obj fs, h, hnk =>
      rw [decodeIndexMap] at h
      have hmain := decodeEntries_encodeBack (decodeOptionWith decodeOperationMessageType)
        (encodeOptionWith encodeOperationMessageType) fs [] m ?hv
        (nk_obj_nodup hnk) (by simp [keysOf]) h
      · rw [encodeChannelMessages, encodeObjWith]
        rw [List.map_nil, List.nil_append] at hmain
        rw [hmain]
      case hv =>
        intro kv hkv v hv
        cases v with
        | none =>
            rw [encodeOptionWith]
            exact (decodeOptionWith_eq_some_none hv).symm
        | some t =>
            rw [encodeOptionWith]
            exact decodeOperationMessageType_encodeBack
              (decodeOptionWith_eq_some_some hv).2 (nk_obj_val hnk hkv)

theorem decodeParameters_encode {m : List (String × ReferenceOr Parameter)}
    (hnd : (keysOf m).Nodup) (hall : ∀ kv ∈ m, refOrWFB Parameter.extensions kv.2 = true) :
    decodeIndexMap (decodeReferenceOr decodeParameter)
      (encodeObjWith (encodeReferenceOr encodeParameter) m) = some m := by
  have hdec := decodeEntries_map (decodeReferenceOr decodeParameter)
    (encodeReferenceOr encodeParameter) m []
    (fun kv hkv => decodeRefOrParameter_encode (hall kv hkv)) hnd (by simp [keysOf])
  rw [encodeObjWith, decodeIndexMap, hdec]
  simp

theorem decodeParameters_encodeBack {j : Json} {m : List (String × ReferenceOr Parameter)}
    (h : decodeIndexMap (decodeReferenceOr decodeParameter) j = some m)
    (hnk : Json.nk j = true) :
    encodeObjWith (encodeReferenceOr encodeParameter) m = j := by
  match j, h, hnk with
  | .obj fs, h, hnk =>
      rw [decodeIndexMap] at h
      have hmain := decodeEntries_encodeBack (decodeReferenceOr decodeParameter)
        (encodeReferenceOr encodeParameter) fs [] m
        (fun kv hkv v hv => decodeRefOrParameter_encodeBack hv (nk_obj_val hnk hkv))
        (nk_obj_nodup hnk) (by simp [keysOf]) h
      rw [encodeObjWith]
      rw [List.map_nil, List.nil_append] at hmain
      rw [hmain]

/-! ## List-valued field round trips -/

theorem decodeListWith_map (f : Json → Option α) (g : α → Json) (l : List α)
    (hval : ∀ x ∈ l, f (g x) = some x) :
    decodeListWith f (.arr (l.map g)) = some l := by
  rw [decodeListWith]
  exact decodeElems_map f g l hval

theorem decodeListWith_eq_some {f : Json → Option α} {j : Json} {l : List α}
    (h : decodeListWith f j = some l) :
    ∃ xs, j = .arr xs ∧ decodeElems f xs = some l := by
  cases j <;> simp [decodeListWith] at h
  exact ⟨_, rfl, h⟩

theorem decodeStringList_map (l : List String) :
    decodeListWith decodeString (.arr (l.map Json.str)) = some l :=
  decodeListWith_map _ _ l (fun x _ => rfl)

theorem decodeStringList_encodeBack {j : Json} {l : List String}
    (h : decodeListWith decodeString j = some l) : j = .arr (l.map Json.str) := by
  rcases decodeListWith_eq_some h with ⟨xs, rfl, hx⟩
  rw [decodeElems_encodeBack decodeString Json.str xs l
    (fun x _ v hv => (decodeString_eq_some hv).symm) hx]

/-! ## ActionType round trips -/

theorem decodeActionType_encode (a : ActionType) :
    decodeActionType (encodeActionType a) = some a := by
  cases a <;> rfl

theorem decodeActionType_encodeBack {j : Json} {a : ActionType}
    (h : decodeActionType j = some a) : encodeActionType a = j := by
  match j, h with
  | .str s, h =>
      rw [decodeActionType] at h
      by_cases h1 : s = "receive"
      · simp [h1] at h
        simp [← h, encodeActionType, h1]
      · by_cases h2 : s = "send"
        · simp [h1, h2] at h
          simp [← h, encodeActionType, h2]
        · simp [h1, h2] at h

/-! ## operations-module untagged type round trips -/

theorem octWFB_any {v : Json}
    (h : octWFB (operations.OperationChannelType.Any v) = true) :
    decodeSchema v = none ∧ v ≠ .null := by
  cases v <;> simp [octWFB] at h ⊢ <;> exact h

theorem decodeOperationChannelType_encode {t : operations.OperationChannelType}
    (h : octWFB t = true) :
    operations.decodeOperationChannelType (operations.encodeOperationChannelType t) = t := by
  cases t with
  | Schema s =>
      rw [octWFB] at h
      rw [operations.encodeOperationChannelType, operations.decodeOperationChannelType,
        decodeSchema_encode (nodupKeysB_iff.mp h)]
  | Any v =>
      rw [operations.encodeOperationChannelType, operations.decodeOperationChannelType,
        (octWFB_any h).1]

theorem decodeOperationChannelType_encodeBack {j : Json} (hnk : Json.nk j = true) :
    operations.encodeOperationChannelType (operations.decodeOperationChannelType j) = j := by
  rw [operations.decodeOperationChannelType]
  cases hs : decodeSchema j with
  | some s =>
      rw [operations.encodeOperationChannelType]
      exact decodeSchema_encodeBack hs hnk
  | none => rw [operations.encodeOperationChannelType]

theorem decodeOperationMessageTypeOps_encode {t : operations.OperationMessageType}
    (h : omtOpWFB t = true) :
    operations.decodeOperationMessageType (operations.encodeOperationMessageType t) = t := by
  cases t with
  | Schema s =>
      rw [omtOpWFB] at h
      rw [operations.encodeOperationMessageType, operations.decodeOperationMessageType,
        decodeSchema_encode (nodupKeysB_iff.mp h)]
  | Any v =>
      rw [omtOpWFB] at h
      rw [operations.encodeOperationMessageType, operations.decodeOperationMessageType,
        Option.isNone_iff_eq_none.mp h]

theorem decodeOperationMessageTypeOps_encodeBack {j : Json} (hnk : Json.nk j = true) :
    operations.encodeOperationMessageType (operations.decodeOperationMessageType j) = j := by
  rw [operations.decodeOperationMessageType]
  cases hs : decodeSchema j with
  | some s =>
      rw [operations.encodeOperationMessageType]
      exact decodeSchema_encodeBack hs hnk
  | none => rw [operations.encodeOperationMessageType]

/-! ## Map-visitor fold lemmas -/

theorem setSlot_eq_some {d : Json → Option α} {slot : Option α} {j : Json}
    {set : α → β} {b : β} :
    setSlot d slot j set = some b ↔ slot = none ∧ ∃ v, d j = some v ∧ set v = b := by
  cases slot <;> simp [setSlot, Option.map_eq_some']

theorem foldFields_cons_some {step : β → String → Json → Option β} {acc acc₁ : β}
    {k : String} {j : Json} (rest : List (String × Json)) (h : step acc k j = some acc₁) :
    foldFields step ((k, j) :: rest) acc = foldFields step rest acc₁ := by
  rw [foldFields, h]

theorem foldFields_cons_none {step : β → String → Json → Option β} {acc : β}
    {k : String} {j : Json} (rest : List (String × Json)) (h : step acc k j = none) :
    foldFields step ((k, j) :: rest) acc = none := by
  rw [foldFields, h]

theorem foldFields_append (step : β → String → Json → Option β) :
    ∀ (xs ys : List (String × Json)) (acc : β),
      foldFields step (xs ++ ys) acc =
        (foldFields step xs acc).bind (fun a => foldFields step ys a) := by
  intro xs
  induction xs with
  | nil => intro ys acc; simp [foldFields]
  | cons kv rest ih =>
      intro ys acc
      obtain ⟨k, j⟩ := kv
      cases hs : step acc k j with
      | none =>
          rw [List.cons_append, foldFields_cons_none _ hs, foldFields_cons_none _ hs]
          rfl
      | some a1 =>
          rw [List.cons_append, foldFields_cons_some _ hs, foldFields_cons_some _ hs, ih]

theorem foldFields_frame {step : β → String → Json → Option β} {g : β → γ} {K : String}
    (hstep : ∀ acc k j acc₁, step acc k j = some acc₁ → k ≠ K → g acc₁ = g acc) :
    ∀ {fs : List (String × Json)} {acc acc' : β},
      foldFields step fs acc = some acc' → K ∉ keysOf fs → g acc' = g acc := by
  intro fs
  induction fs with
  | nil =>
      intro acc acc' h _
      rw [foldFields] at h
      cases h
      rfl
  | cons kv rest ih =>
      intro acc acc' h hk
      obtain ⟨k, j⟩ := kv
      rw [keysOf_cons] at hk
      cases hs : step acc k j with
      | none =>
          rw [foldFields_cons_none _ hs] at h
          exact Option.noConfusion h
      | some a1 =>
          rw [foldFields_cons_some _ hs] at h
          rw [ih h (fun hm => hk (List.mem_cons_of_mem _ hm)),
            hstep acc k j a1 hs (fun he => hk (he ▸ List.mem_cons_self _ _))]

theorem foldFields_persist {step : β → String → Json → Option β} {g : β → Option γ}
    {K : String}
    (hframe : ∀ acc k j acc₁, step acc k j = some acc₁ → k ≠ K → g acc₁ = g acc)
    (hdup : ∀ acc j acc₁, step acc K j = some acc₁ → g acc = none) :
    ∀ {fs : List (String × Json)} {acc acc' : β},
      foldFields step fs acc = some acc' →
      ∀ {x : γ}, g acc = some x → g acc' = some x := by
  intro fs
  induction fs with
  | nil =>
      intro acc acc' h x hx
      rw [foldFields] at h
      cases h
      exact hx
  | cons kv rest ih =>
      intro acc acc' h x hx
      obtain ⟨k, j⟩ := kv
      cases hs : step acc k j with
      | none =>
          rw [foldFields_cons_none _ hs] at h
          exact Option.noConfusion h
      | some a1 =>
          rw [foldFields_cons_some _ hs] at h
          by_cases he : k = K
          · subst he
            rw [hdup acc j a1 hs] at hx
            exact Option.noConfusion hx
          · exact ih h (by rw [hframe acc k j a1 hs he]; exact hx)

theorem foldFields_lookup {step : β → String → Json → Option β} {g : β → Option γ}
    {K : String} {d : Json → Option γ}
    (hframe : ∀ acc k j acc₁, step acc k j = some acc₁ → k ≠ K → g acc₁ = g acc)
    (hdup : ∀ acc j acc₁, step acc K j = some acc₁ → g acc = none)
    (hset : ∀ acc j acc₁, step acc K j = some acc₁ →
      ∃ v, d j = some v ∧ g acc₁ = some v) :
    ∀ {fs : List (String × Json)} {acc acc' : β},
      foldFields step fs acc = some acc' → g acc = none →
      ∀ {j : Json}, lookupKey K fs = some j →
      ∃ v, d j = some v ∧ g acc' = some v := by
  intro fs
  induction fs with
  | nil =>
      intro acc acc' _ _ j hj
      simp [lookupKey] at hj
  | cons kv rest ih =>
      intro acc acc' h hg j hj
      obtain ⟨k, j'⟩ := kv
      cases hs : step acc k j' with
      | none =>
          rw [foldFields_cons_none _ hs] at h
          exact Option.noConfusion h
      | some a1 =>
          rw [foldFields_cons_some _ hs] at h
          by_cases he : k = K
          · subst he
            rw [lookupKey, if_pos rfl] at hj
            cases hj
            obtain ⟨v, hv, hga⟩ := hset acc j a1 hs
            exact ⟨v, hv, foldFields_persist hframe hdup h hga⟩
          · rw [lookupKey, if_neg he] at hj
            exact ih h (by rw [hframe acc k j' a1 hs he]; exact hg) hj

theorem foldFields_extensions {step : β → String → Json → Option β}
    {gext : β → List (String × Json)} {declared : List String}
    (hstep : ∀ acc k j acc₁, step acc k j = some acc₁ →
      (k ∈ declared → gext acc₁ = gext acc) ∧
      (k ∉ declared → gext acc₁ = idxInsert (gext acc) k j)) :
    ∀ {fs : List (String × Json)} {acc acc' : β},
      foldFields step fs acc = some acc' →
      gext acc' = idxOfListFrom (gext acc)
        (fs.filter (fun kv => !(declared.contains kv.1))) := by
  intro fs
  induction fs with
  | nil =>
      intro acc acc' h
      rw [foldFields] at h
      cases h
      rfl
  | cons kv rest ih =>
      intro acc acc' h
      obtain ⟨k, j⟩ := kv
      cases hs : step acc k j with
      | none =>
          rw [foldFields_cons_none _ hs] at h
          exact Option.noConfusion h
      | some a1 =>
          rw [foldFields_cons_some _ hs] at h
          by_cases hd : k ∈ declared
          · rw [List.filter_cons]
            have hc : (declared.contains k) = true := List.elem_iff.mpr hd
            simp only [hc, Bool.not_true, if_neg (by simp : ¬ (false = true))]
            rw [ih h, (hstep acc k j a1 hs).1 hd]
          · rw [List.filter_cons]
            have hc : (declared.contains k) = false := by
              rw [← Bool.not_eq_true]
              exact fun hcc => hd (List.elem_iff.mp hcc)
            simp only [hc, Bool.not_false, if_pos rfl]
            rw [ih h, (hstep acc k j a1 hs).2 hd]
            rfl

theorem lookupKey_filter_of_key (p : String × α → Bool) (k : String)
    (hp : ∀ v, p (k, v) = true) :
    ∀ fs : List (String × α), lookupKey k (fs.filter p) = lookupKey k fs := by
  intro fs
  induction fs with
  | nil => rfl
  | cons kv rest ih =>
      obtain ⟨k', v⟩ := kv
      by_cases he : k' = k
      · subst he
        rw [List.filter_cons, hp v, if_pos rfl]
        simp [lookupKey]
      · rw [List.filter_cons]
        cases hpv : p (k', v)
        · rw [if_neg (by simp), ih, lookupKey, if_neg he]
        · rw [if_pos rfl, lookupKey, if_neg he, ih, lookupKey, if_neg he]

theorem nodup_keys_filter (p : String × α → Bool) {fs : List (String × α)}
    (h : (keysOf fs).Nodup) : (keysOf (fs.filter p)).Nodup :=
  List.Nodup.sublist (List.Sublist.map Prod.fst (List.filter_sublist fs)) h

/-! ## chStep per-field characterizations -/

theorem chStep_messages (acc : ChannelAcc) (k : String) (j : Json) (acc₁ : ChannelAcc)
    (h : chStep acc k j = some acc₁) :
    (k ≠ "messages" → acc₁.messages = acc.messages) ∧
    (k = "messages" → acc.messages = none ∧
      ∃ v, decodeChannelMessages j = some v ∧ acc₁.messages = some v) := by
  rw [chStep] at h
  split_ifs at h with h1 h2 h3 h4 h5 h6 h7
  all_goals first
    | (obtain ⟨hn, v, hv, rfl⟩ := setSlot_eq_some.mp h
       exact ⟨fun hne => absurd (by assumption) hne, fun _ => ⟨hn, v, hv, rfl⟩⟩)
    | (obtain ⟨-, v, -, rfl⟩ := setSlot_eq_some.mp h
       exact ⟨fun _ => rfl, fun he => by simp_all⟩)
    | (cases h
       exact ⟨fun _ => rfl, fun he => by simp_all⟩)

theorem chStep_address (acc : ChannelAcc) (k : String) (j : Json) (acc₁ : ChannelAcc)
    (h : chStep acc k j = some acc₁) :
    (k ≠ "address" → acc₁.address = acc.address) ∧
    (k = "address" → acc.address = none ∧
      ∃ v, decodeOptionWith decodeString j = some v ∧ acc₁.address = some v) := by
  rw [chStep] at h
  split_ifs at h with h1 h2 h3 h4 h5 h6 h7
  all_goals first
    | (obtain ⟨hn, v, hv, rfl⟩ := setSlot_eq_some.mp h
       exact ⟨fun hne => absurd (by assumption) hne, fun _ => ⟨hn, v, hv, rfl⟩⟩)
    | (obtain ⟨-, v, -, rfl⟩ := setSlot_eq_some.mp h
       exact ⟨fun _ => rfl, fun he => by simp_all⟩)
    | (cases h
       exact ⟨fun _ => rfl, fun he => by simp_all⟩)

theorem chStep_description (acc : ChannelAcc) (k : String) (j : Json) (acc₁ : ChannelAcc)
    (h : chStep acc k j = some acc₁) :
    (k ≠ "description" → acc₁.description = acc.description) ∧
    (k = "description" → acc.description = none ∧
      ∃ v, decodeOptionWith decodeString j = some v ∧ acc₁.description = some v) := by
  rw [chStep] at h
  split_ifs at h with h1 h2 h3 h4 h5 h6 h7
  all_goals first
    | (obtain ⟨hn, v, hv, rfl⟩ := setSlot_eq_some.mp h
       exact ⟨fun hne => absurd (by assumption) hne, fun _ => ⟨hn, v, hv, rfl⟩⟩)
    | (obtain ⟨-, v, -, rfl⟩ := setSlot_eq_some.mp h
       exact ⟨fun _ => rfl, fun he => by simp_all⟩)
    | (cases h
       exact ⟨fun _ => rfl, fun he => by simp_all⟩)

theorem chStep_servers (acc : ChannelAcc) (k : String) (j : Json) (acc₁ : ChannelAcc)
    (h : chStep acc k j = some acc₁) :
    (k ≠ "servers" → acc₁.servers = acc.servers) ∧
    (k = "servers" → acc.servers = none ∧
      ∃ v, decodeListWith decodeString j = some v ∧ acc₁.servers = some v) := by
  rw [chStep] at h
  split_ifs at h with h1 h2 h3 h4 h5 h6 h7
  all_goals first
    | (obtain ⟨hn, v, hv, rfl⟩ := setSlot_eq_some.mp h
       exact ⟨fun hne => absurd (by assumption) hne, fun _ => ⟨hn, v, hv, rfl⟩⟩)
    | (obtain ⟨-, v, -, rfl⟩ := setSlot_eq_some.mp h
       exact ⟨fun _ => rfl, fun he => by simp_all⟩)
    | (cases h
       exact ⟨fun _ => rfl, fun he => by simp_all⟩)

theorem chStep_parameters (acc : ChannelAcc) (k : String) (j : Json) (acc₁ : ChannelAcc)
    (h : chStep acc k j = some acc₁) :
    (k ≠ "parameters" → acc₁.parameters = acc.parameters) ∧
    (k = "parameters" → acc.parameters = none ∧
      ∃ v, decodeIndexMap (decodeReferenceOr decodeParameter) j = some v ∧ acc₁.parameters = some v) := by
  rw [chStep] at h
  split_ifs at h with h1 h2 h3 h4 h5 h6 h7
  all_goals first
    | (obtain ⟨hn, v, hv, rfl⟩ := setSlot_eq_some.mp h
       exact ⟨fun hne => absurd (by assumption) hne, fun _ => ⟨hn, v, hv, rfl⟩⟩)
    | (obtain ⟨-, v, -, rfl⟩ := setSlot_eq_some.mp h
       exact ⟨fun _ => rfl, fun he => by simp_all⟩)
    | (cases h
       exact ⟨fun _ => rfl, fun he => by simp_all⟩)

theorem chStep_bindings (acc : ChannelAcc) (k : String) (j : Json) (acc₁ : ChannelAcc)
    (h : chStep acc k j = some acc₁) :
    (k ≠ "bindings" → acc₁.bindings = acc.bindings) ∧
    (k = "bindings" → acc.bindings = none ∧
      ∃ v, decodeOptionWith (decodeReferenceOr decodeChannelBinding) j = some v ∧ acc₁.bindings = some v) := by
  rw [chStep] at h
  split_ifs at h with h1 h2 h3 h4 h5 h6 h7
  all_goals first
    | (obtain ⟨hn, v, hv, rfl⟩ := setSlot_eq_some.mp h
       exact ⟨fun hne => absurd (by assumption) hne, fun _ => ⟨hn, v, hv, rfl⟩⟩)
    | (obtain ⟨-, v, -, rfl⟩ := setSlot_eq_some.mp h
       exact ⟨fun _ => rfl, fun he => by simp_all⟩)
    | (cases h
       exact ⟨fun _ => rfl, fun he => by simp_all⟩)

theorem chStep_reference (acc : ChannelAcc) (k : String) (j : Json) (acc₁ : ChannelAcc)
    (h : chStep acc k j = some acc₁) :
    (k ≠ "$ref" → acc₁.reference = acc.reference) ∧
    (k = "$ref" → acc.reference = none ∧
      ∃ v, decodeOptionWith decodeString j = some v ∧ acc₁.reference = some v) := by
  rw [chStep] at h
  split_ifs at h with h1 h2 h3 h4 h5 h6 h7
  all_goals first
    | (obtain ⟨hn, v, hv, rfl⟩ := setSlot_eq_some.mp h
       exact ⟨fun hne => absurd (by assumption) hne, fun _ => ⟨hn, v, hv, rfl⟩⟩)
    | (obtain ⟨-, v, -, rfl⟩ := setSlot_eq_some.mp h
       exact ⟨fun _ => rfl, fun he => by simp_all⟩)
    | (cases h
       exact ⟨fun _ => rfl, fun he => by simp_all⟩)

theorem chStep_ext (acc : ChannelAcc) (k : String) (j : Json) (acc₁ : ChannelAcc)
    (h : chStep acc k j = some acc₁) :
    (k ∈ channelKeys → acc₁.extensions = acc.extensions) ∧
    (k ∉ channelKeys → acc₁.extensions = idxInsert acc.extensions k j) := by
  rw [chStep] at h
  split_ifs at h with h1 h2 h3 h4 h5 h6 h7
  all_goals first
    | (obtain ⟨-, v, -, rfl⟩ := setSlot_eq_some.mp h
       exact ⟨fun _ => rfl, fun hd => absurd (by simp [channelKeys, *]) hd⟩)
    | (cases h
       refine ⟨fun hd => absurd hd ?_, fun _ => rfl⟩
       simp [channelKeys]
       exact ⟨h1, h2, h3, h4, h5, h6, h7⟩)

/-! ## opStep per-field characterizations -/

theorem opStep_action (acc : OperationAcc) (k : String) (j : Json) (acc₁ : OperationAcc)
    (h : opStep acc k j = some acc₁) :
    (k ≠ "action" → acc₁.action = acc.action) ∧
    (k = "action" → acc.action = none ∧
      ∃ v, decodeActionType j = some v ∧ acc₁.action = some v) := by
  rw [opStep] at h
  by_cases h1 : k = "action"
  · rw [if_pos h1] at h
    obtain ⟨hn, v, hv, rfl⟩ := setSlot_eq_some.mp h
    exact ⟨fun hne => absurd h1 hne, fun _ => ⟨hn, v, hv, rfl⟩⟩
  rw [if_neg h1] at h
  by_cases h2 : k = "channel"
  · rw [if_pos h2] at h
    obtain ⟨-, v, -, rfl⟩ := setSlot_eq_some.mp h
    exact ⟨fun _ => rfl, fun he => absurd (h2.symm.trans he) (by decide)⟩
  rw [if_neg h2] at h
  by_cases h3 : k = "messages"
  · rw [if_pos h3] at h
    obtain ⟨-, v, -, rfl⟩ := setSlot_eq_some.mp h
    exact ⟨fun _ => rfl, fun he => absurd (h3.symm.trans he) (by decide)⟩
  rw [if_neg h3] at h
  by_cases h4 : k = "operationId"
  · rw [if_pos h4] at h
    obtain ⟨-, v, -, rfl⟩ := setSlot_eq_some.mp h
    exact ⟨fun _ => rfl, fun he => absurd (h4.symm.trans he) (by decide)⟩
  rw [if_neg h4] at h
  by_cases h5 : k = "summary"
  · rw [if_pos h5] at h
    obtain ⟨-, v, -, rfl⟩ := setSlot_eq_some.mp h
    exact ⟨fun _ => rfl, fun he => absurd (h5.symm.trans he) (by decide)⟩
  rw [if_neg h5] at h
  by_cases h6 : k = "description"
  · rw [if_pos h6] at h
    obtain ⟨-, v, -, rfl⟩ := setSlot_eq_some.mp h
    exact ⟨fun _ => rfl, fun he => absurd (h6.symm.trans he) (by decide)⟩
  rw [if_neg h6] at h
  by_cases h7 : k = "tags"
  · rw [if_pos h7] at h
    obtain ⟨-, v, -, rfl⟩ := setSlot_eq_some.mp h
    exact ⟨fun _ => rfl, fun he => absurd (h7.symm.trans he) (by decide)⟩
  rw [if_neg h7] at h
  by_cases h8 : k = "externalDocs"
  · rw [if_pos h8] at h
    obtain ⟨-, v, -, rfl⟩ := setSlot_eq_some.mp h
    exact ⟨fun _ => rfl, fun he => absurd (h8.symm.trans he) (by decide)⟩
  rw [if_neg h8] at h
  by_cases h9 : k = "bindings"
  · rw [if_pos h9] at h
    obtain ⟨-, v, -, rfl⟩ := setSlot_eq_some.mp h
    exact ⟨fun _ => rfl, fun he => absurd (h9.symm.trans he) (by decide)⟩
  rw [if_neg h9] at h
  by_cases h10 : k = "traits"
  · rw [if_pos h10] at h
    obtain ⟨-, v, -, rfl⟩ := setSlot_eq_some.mp h
    exact ⟨fun _ => rfl, fun he => absurd (h10.symm.trans he) (by decide)⟩
  rw [if_neg h10] at h
  cases h
  exact ⟨fun _ => rfl, fun he => absurd he h1⟩

theorem opStep_channel (acc : OperationAcc) (k : String) (j : Json) (acc₁ : OperationAcc)
    (h : opStep acc k j = some acc₁) :
    (k ≠ "channel" → acc₁.channel = acc.channel) ∧
    (k = "channel" → acc.channel = none ∧
      ∃ v, decodeOptionWith (fun j => some (operations.decodeOperationChannelType j)) j = some v ∧ acc₁.channel = some v) := by
  rw [opStep] at h
  by_cases h1 : k = "action"
  · rw [if_pos h1] at h
    obtain ⟨-, v, -, rfl⟩ := setSlot_eq_some.mp h
    exact ⟨fun _ => rfl, fun he => absurd (h1.symm.trans he) (by decide)⟩
  rw [if_neg h1] at h
  by_cases h2 : k = "channel"
  · rw [if_pos h2] at h
    obtain ⟨hn, v, hv, rfl⟩ := setSlot_eq_some.mp h
    exact ⟨fun hne => absurd h2 hne, fun _ => ⟨hn, v, hv, rfl⟩⟩
  rw [if_neg h2] at h
  by_cases h3 : k = "messages"
  · rw [if_pos h3] at h
    obtain ⟨-, v, -, rfl⟩ := setSlot_eq_some.mp h
    exact ⟨fun _ => rfl, fun he => absurd (h3.symm.trans he) (by decide)⟩
  rw [if_neg h3] at h
  by_cases h4 : k = "operationId"
  · rw [if_pos h4] at h
    obtain ⟨-, v, -, rfl⟩ := setSlot_eq_some.mp h
    exact ⟨fun _ => rfl, fun he => absurd (h4.symm.trans he) (by decide)⟩
  rw [if_neg h4] at h
  by_cases h5 : k = "summary"
  · rw [if_pos h5] at h
    obtain ⟨-, v, -, rfl⟩ := setSlot_eq_some.mp h
    exact ⟨fun _ => rfl, fun he => absurd (h5.symm.trans he) (by decide)⟩
  rw [if_neg h5] at h
  by_cases h6 : k = "description"
  · rw [if_pos h6] at h
    obtain ⟨-, v, -, rfl⟩ := setSlot_eq_some.mp h
    exact ⟨fun _ => rfl, fun he => absurd (h6.symm.trans he) (by decide)⟩
  rw [if_neg h6] at h
  by_cases h7 : k = "tags"
  · rw [if_pos h7] at h
    obtain ⟨-, v, -, rfl⟩ := setSlot_eq_some.mp h
    exact ⟨fun _ => rfl, fun he => absurd (h7.symm.trans he) (by decide)⟩
  rw [if_neg h7] at h
  by_cases h8 : k = "externalDocs"
  · rw [if_pos h8] at h
    obtain ⟨-, v, -, rfl⟩ := setSlot_eq_some.mp h
    exact ⟨fun _ => rfl, fun he => absurd (h8.symm.trans he) (by decide)⟩
  rw [if_neg h8] at h
  by_cases h9 : k = "bindings"
  · rw [if_pos h9] at h
    obtain ⟨-, v, -, rfl⟩ := setSlot_eq_some.mp h
    exact ⟨fun _ => rfl, fun he => absurd (h9.symm.trans he) (by decide)⟩
  rw [if_neg h9] at h
  by_cases h10 : k = "traits"
  · rw [if_pos h10] at h
    obtain ⟨-, v, -, rfl⟩ := setSlot_eq_some.mp h
    exact ⟨fun _ => rfl, fun he => absurd (h10.symm.trans he) (by decide)⟩
  rw [if_neg h10] at h
  cases h
  exact ⟨fun _ => rfl, fun he => absurd he h2⟩

theorem opStep_messages (acc : OperationAcc) (k : String) (j : Json) (acc₁ : OperationAcc)
    (h : opStep acc k j = some acc₁) :
    (k ≠ "messages" → acc₁.messages = acc.messages) ∧
    (k = "messages" → acc.messages = none ∧
      ∃ v, decodeOpMessages j = some v ∧ acc₁.messages = some v) := by
  rw [opStep] at h
  by_cases h1 : k = "action"
  · rw [if_pos h1] at h
    obtain ⟨-, v, -, rfl⟩ := setSlot_eq_some.mp h
    exact ⟨fun _ => rfl, fun he => absurd (h1.symm.trans he) (by decide)⟩
  rw [if_neg h1] at h
  by_cases h2 : k = "channel"
  · rw [if_pos h2] at h
    obtain ⟨-, v, -, rfl⟩ := setSlot_eq_some.mp h
    exact ⟨fun _ => rfl, fun he => absurd (h2.symm.trans he) (by decide)⟩
  rw [if_neg h2] at h
  by_cases h3 : k = "messages"
  · rw [if_pos h3] at h
    obtain ⟨hn, v, hv, rfl⟩ := setSlot_eq_some.mp h
    exact ⟨fun hne => absurd h3 hne, fun _ => ⟨hn, v, hv, rfl⟩⟩
  rw [if_neg h3] at h
  by_cases h4 : k = "operationId"
  · rw [if_pos h4] at h
    obtain ⟨-, v, -, rfl⟩ := setSlot_eq_some.mp h
    exact ⟨fun _ => rfl, fun he => absurd (h4.symm.trans he) (by decide)⟩
  rw [if_neg h4] at h
  by_cases h5 : k = "summary"
  · rw [if_pos h5] at h
    obtain ⟨-, v, -, rfl⟩ := setSlot_eq_some.mp h
    exact ⟨fun _ => rfl, fun he => absurd (h5.symm.trans he) (by decide)⟩
  rw [if_neg h5] at h
  by_cases h6 : k = "description"
  · rw [if_pos h6] at h
    obtain ⟨-, v, -, rfl⟩ := setSlot_eq_some.mp h
    exact ⟨fun _ => rfl, fun he => absurd (h6.symm.trans he) (by decide)⟩
  rw [if_neg h6] at h
  by_cases h7 : k = "tags"
  · rw [if_pos h7] at h
    obtain ⟨-, v, -, rfl⟩ := setSlot_eq_some.mp h
    exact ⟨fun _ => rfl, fun he => absurd (h7.symm.trans he) (by decide)⟩
  rw [if_neg h7] at h
  by_cases h8 : k = "externalDocs"
  · rw [if_pos h8] at h
    obtain ⟨-, v, -, rfl⟩ := setSlot_eq_some.mp h
    exact ⟨fun _ => rfl, fun he => absurd (h8.symm.trans he) (by decide)⟩
  rw [if_neg h8] at h
  by_cases h9 : k = "bindings"
  · rw [if_pos h9] at h
    obtain ⟨-, v, -, rfl⟩ := setSlot_eq_some.mp h
    exact ⟨fun _ => rfl, fun he => absurd (h9.symm.trans he) (by decide)⟩
  rw [if_neg h9] at h
  by_cases h10 : k = "traits"
  · rw [if_pos h10] at h
    obtain ⟨-, v, -, rfl⟩ := setSlot_eq_some.mp h
    exact ⟨fun _ => rfl, fun he => absurd (h10.symm.trans he) (by decide)⟩
  rw [if_neg h10] at h
  cases h
  exact ⟨fun _ => rfl, fun he => absurd he h3⟩

theorem opStep_operation_id (acc : OperationAcc) (k : String) (j : Json) (acc₁ : OperationAcc)
    (h : opStep acc k j = some acc₁) :
    (k ≠ "operationId" → acc₁.operation_id = acc.operation_id) ∧
    (k = "operationId" → acc.operation_id = none ∧
      ∃ v, decodeOptionWith decodeString j = some v ∧ acc₁.operation_id = some v) := by
  rw [opStep] at h
  by_cases h1 : k = "action"
  · rw [if_pos h1] at h
    obtain ⟨-, v, -, rfl⟩ := setSlot_eq_some.mp h
    exact ⟨fun _ => rfl, fun he => absurd (h1.symm.trans he) (by decide)⟩
  rw [if_neg h1] at h
  by_cases h2 : k = "channel"
  · rw [if_pos h2] at h
    obtain ⟨-, v, -, rfl⟩ := setSlot_eq_some.mp h
    exact ⟨fun _ => rfl, fun he => absurd (h2.symm.trans he) (by decide)⟩
  rw [if_neg h2] at h
  by_cases h3 : k = "messages"
  · rw [if_pos h3] at h
    obtain ⟨-, v, -, rfl⟩ := setSlot_eq_some.mp h
    exact ⟨fun _ => rfl, fun he => absurd (h3.symm.trans he) (by decide)⟩
  rw [if_neg h3] at h
  by_cases h4 : k = "operationId"
  · rw [if_pos h4] at h
    obtain ⟨hn, v, hv, rfl⟩ := setSlot_eq_some.mp h
    exact ⟨fun hne => absurd h4 hne, fun _ => ⟨hn, v, hv, rfl⟩⟩
  rw [if_neg h4] at h
  by_cases h5 : k = "summary"
  · rw [if_pos h5] at h
    obtain ⟨-, v, -, rfl⟩ := setSlot_eq_some.mp h
    exact ⟨fun _ => rfl, fun he => absurd (h5.symm.trans he) (by decide)⟩
  rw [if_neg h5] at h
  by_cases h6 : k = "description"
  · rw [if_pos h6] at h
    obtain ⟨-, v, -, rfl⟩ := setSlot_eq_some.mp h
    exact ⟨fun _ => rfl, fun he => absurd (h6.symm.trans he) (by decide)⟩
  rw [if_neg h6] at h
  by_cases h7 : k = "tags"
  · rw [if_pos h7] at h
    obtain ⟨-, v, -, rfl⟩ := setSlot_eq_some.mp h
    exact ⟨fun _ => rfl, fun he => absurd (h7.symm.trans he) (by decide)⟩
  rw [if_neg h7] at h
  by_cases h8 : k = "externalDocs"
  · rw [if_pos h8] at h
    obtain ⟨-, v, -, rfl⟩ := setSlot_eq_some.mp h
    exact ⟨fun _ => rfl, fun he => absurd (h8.symm.trans he) (by decide)⟩
  rw [if_neg h8] at h
  by_cases h9 : k = "bindings"
  · rw [if_pos h9] at h
    obtain ⟨-, v, -, rfl⟩ := setSlot_eq_some.mp h
    exact ⟨fun _ => rfl, fun he => absurd (h9.symm.trans he) (by decide)⟩
  rw [if_neg h9] at h
  by_cases h10 : k = "traits"
  · rw [if_pos h10] at h
    obtain ⟨-, v, -, rfl⟩ := setSlot_eq_some.mp h
    exact ⟨fun _ => rfl, fun he => absurd (h10.symm.trans he) (by decide)⟩
  rw [if_neg h10] at h
  cases h
  exact ⟨fun _ => rfl, fun he => absurd he h4⟩

theorem opStep_summary (acc : OperationAcc) (k : String) (j : Json) (acc₁ : OperationAcc)
    (h : opStep acc k j = some acc₁) :
    (k ≠ "summary" → acc₁.summary = acc.summary) ∧
    (k = "summary" → acc.summary = none ∧
      ∃ v, decodeOptionWith decodeString j = some v ∧ acc₁.summary = some v) := by
  rw [opStep] at h
  by_cases h1 : k = "action"
  · rw [if_pos h1] at h
    obtain ⟨-, v, -, rfl⟩ := setSlot_eq_some.mp h
    exact ⟨fun _ => rfl, fun he => absurd (h1.symm.trans he) (by decide)⟩
  rw [if_neg h1] at h
  by_cases h2 : k = "channel"
  · rw [if_pos h2] at h
    obtain ⟨-, v, -, rfl⟩ := setSlot_eq_some.mp h
    exact ⟨fun _ => rfl, fun he => absurd (h2.symm.trans he) (by decide)⟩
  rw [if_neg h2] at h
  by_cases h3 : k = "messages"
  · rw [if_pos h3] at h
    obtain ⟨-, v, -, rfl⟩ := setSlot_eq_some.mp h
    exact ⟨fun _ => rfl, fun he => absurd (h3.symm.trans he) (by decide)⟩
  rw [if_neg h3] at h
  by_cases h4 : k = "operationId"
  · rw [if_pos h4] at h
    obtain ⟨-, v, -, rfl⟩ := setSlot_eq_some.mp h
    exact ⟨fun _ => rfl, fun he => absurd (h4.symm.trans he) (by decide)⟩
  rw [if_neg h4] at h
  by_cases h5 : k = "summary"
  · rw [if_pos h5] at h
    obtain ⟨hn, v, hv, rfl⟩ := setSlot_eq_some.mp h
    exact ⟨fun hne => absurd h5 hne, fun _ => ⟨hn, v, hv, rfl⟩⟩
  rw [if_neg h5] at h
  by_cases h6 : k = "description"
  · rw [if_pos h6] at h
    obtain ⟨-, v, -, rfl⟩ := setSlot_eq_some.mp h
    exact ⟨fun _ => rfl, fun he => absurd (h6.symm.trans he) (by decide)⟩
  rw [if_neg h6] at h
  by_cases h7 : k = "tags"
  · rw [if_pos h7] at h
    obtain ⟨-, v, -, rfl⟩ := setSlot_eq_some.mp h
    exact ⟨fun _ => rfl, fun he => absurd (h7.symm.trans he) (by decide)⟩
  rw [if_neg h7] at h
  by_cases h8 : k = "externalDocs"
  · rw [if_pos h8] at h
    obtain ⟨-, v, -, rfl⟩ := setSlot_eq_some.mp h
    exact ⟨fun _ => rfl, fun he => absurd (h8.symm.trans he) (by decide)⟩
  rw [if_neg h8] at h
  by_cases h9 : k = "bindings"
  · rw [if_pos h9] at h
    obtain ⟨-, v, -, rfl⟩ := setSlot_eq_some.mp h
    exact ⟨fun _ => rfl, fun he => absurd (h9.symm.trans he) (by decide)⟩
  rw [if_neg h9] at h
  by_cases h10 : k = "traits"
  · rw [if_pos h10] at h
    obtain ⟨-, v, -, rfl⟩ := setSlot_eq_some.mp h
    exact ⟨fun _ => rfl, fun he => absurd (h10.symm.trans he) (by decide)⟩
  rw [if_neg h10] at h
  cases h
  exact ⟨fun _ => rfl, fun he => absurd he h5⟩

theorem opStep_description (acc : OperationAcc) (k : String) (j : Json) (acc₁ : OperationAcc)
    (h : opStep acc k j = some acc₁) :
    (k ≠ "description" → acc₁.description = acc.description) ∧
    (k = "description" → acc.description = none ∧
      ∃ v, decodeOptionWith decodeString j = some v ∧ acc₁.description = some v) := by
  rw [opStep] at h
  by_cases h1 : k = "action"
  · rw [if_pos h1] at h
    obtain ⟨-, v, -, rfl⟩ := setSlot_eq_some.mp h
    exact ⟨fun _ => rfl, fun he => absurd (h1.symm.trans he) (by decide)⟩
  rw [if_neg h1] at h
  by_cases h2 : k = "channel"
  · rw [if_pos h2] at h
    obtain ⟨-, v, -, rfl⟩ := setSlot_eq_some.mp h
    exact ⟨fun _ => rfl, fun he => absurd (h2.symm.trans he) (by decide)⟩
  rw [if_neg h2] at h
  by_cases h3 : k = "messages"
  · rw [if_pos h3] at h
    obtain ⟨-, v, -, rfl⟩ := setSlot_eq_some.mp h
    exact ⟨fun _ => rfl, fun he => absurd (h3.symm.trans he) (by decide)⟩
  rw [if_neg h3] at h
  by_cases h4 : k = "operationId"
  · rw [if_pos h4] at h
    obtain ⟨-, v, -, rfl⟩ := setSlot_eq_some.mp h
    exact ⟨fun _ => rfl, fun he => absurd (h4.symm.trans he) (by decide)⟩
  rw [if_neg h4] at h
  by_cases h5 : k = "summary"
  · rw [if_pos h5] at h
    obtain ⟨-, v, -, rfl⟩ := setSlot_eq_some.mp h
    exact ⟨fun _ => rfl, fun he => absurd (h5.symm.trans he) (by decide)⟩
  rw [if_neg h5] at h
  by_cases h6 : k = "description"
  · rw [if_pos h6] at h
    obtain ⟨hn, v, hv, rfl⟩ := setSlot_eq_some.mp h
    exact ⟨fun hne => absurd h6 hne, fun _ => ⟨hn, v, hv, rfl⟩⟩
  rw [if_neg h6] at h
  by_cases h7 : k = "tags"
  · rw [if_pos h7] at h
    obtain ⟨-, v, -, rfl⟩ := setSlot_eq_some.mp h
    exact ⟨fun _ => rfl, fun he => absurd (h7.symm.trans he) (by decide)⟩
  rw [if_neg h7] at h
  by_cases h8 : k = "externalDocs"
  · rw [if_pos h8] at h
    obtain ⟨-, v, -, rfl⟩ := setSlot_eq_some.mp h
    exact ⟨fun _ => rfl, fun he => absurd (h8.symm.trans he) (by decide)⟩
  rw [if_neg h8] at h
  by_cases h9 : k = "bindings"
  · rw [if_pos h9] at h
    obtain ⟨-, v, -, rfl⟩ := setSlot_eq_some.mp h
    exact ⟨fun _ => rfl, fun he => absurd (h9.symm.trans he) (by decide)⟩
  rw [if_neg h9] at h
  by_cases h10 : k = "traits"
  · rw [if_pos h10] at h
    obtain ⟨-, v, -, rfl⟩ := setSlot_eq_some.mp h
    exact ⟨fun _ => rfl, fun he => absurd (h10.symm.trans he) (by decide)⟩
  rw [if_neg h10] at h
  cases h
  exact ⟨fun _ => rfl, fun he => absurd he h6⟩

theorem opStep_tags (acc : OperationAcc) (k : String) (j : Json) (acc₁ : OperationAcc)
    (h : opStep acc k j = some acc₁) :
    (k ≠ "tags" → acc₁.tags = acc.tags) ∧
    (k = "tags" → acc.tags = none ∧
      ∃ v, decodeListWith decodeTag j = some v ∧ acc₁.tags = some v) := by
  rw [opStep] at h
  by_cases h1 : k = "action"
  · rw [if_pos h1] at h
    obtain ⟨-, v, -, rfl⟩ := setSlot_eq_some.mp h
    exact ⟨fun _ => rfl, fun he => absurd (h1.symm.trans he) (by decide)⟩
  rw [if_neg h1] at h
  by_cases h2 : k = "channel"
  · rw [if_pos h2] at h
    obtain ⟨-, v, -, rfl⟩ := setSlot_eq_some.mp h
    exact ⟨fun _ => rfl, fun he => absurd (h2.symm.trans he) (by decide)⟩
  rw [if_neg h2] at h
  by_cases h3 : k = "messages"
  · rw [if_pos h3] at h
    obtain ⟨-, v, -, rfl⟩ := setSlot_eq_some.mp h
    exact ⟨fun _ => rfl, fun he => absurd (h3.symm.trans he) (by decide)⟩
  rw [if_neg h3] at h
  by_cases h4 : k = "operationId"
  · rw [if_pos h4] at h
    obtain ⟨-, v, -, rfl⟩ := setSlot_eq_some.mp h
    exact ⟨fun _ => rfl, fun he => absurd (h4.symm.trans he) (by decide)⟩
  rw [if_neg h4] at h
  by_cases h5 : k = "summary"
  · rw [if_pos h5] at h
    obtain ⟨-, v, -, rfl⟩ := setSlot_eq_some.mp h
    exact ⟨fun _ => rfl, fun he => absurd (h5.symm.trans he) (by decide)⟩
  rw [if_neg h5] at h
  by_cases h6 : k = "description"
  · rw [if_pos h6] at h
    obtain ⟨-, v, -, rfl⟩ := setSlot_eq_some.mp h
    exact ⟨fun _ => rfl, fun he => absurd (h6.symm.trans he) (by decide)⟩
  rw [if_neg h6] at h
  by_cases h7 : k = "tags"
  · rw [if_pos h7] at h
    obtain ⟨hn, v, hv, rfl⟩ := setSlot_eq_some.mp h
    exact ⟨fun hne => absurd h7 hne, fun _ => ⟨hn, v, hv, rfl⟩⟩
  rw [if_neg h7] at h
  by_cases h8 : k = "externalDocs"
  · rw [if_pos h8] at h
    obtain ⟨-, v, -, rfl⟩ := setSlot_eq_some.mp h
    exact ⟨fun _ => rfl, fun he => absurd (h8.symm.trans he) (by decide)⟩
  rw [if_neg h8] at h
  by_cases h9 : k = "bindings"
  · rw [if_pos h9] at h
    obtain ⟨-, v, -, rfl⟩ := setSlot_eq_some.mp h
    exact ⟨fun _ => rfl, fun he => absurd (h9.symm.trans he) (by decide)⟩
  rw [if_neg h9] at h
  by_cases h10 : k = "traits"
  · rw [if_pos h10] at h
    obtain ⟨-, v, -, rfl⟩ := setSlot_eq_some.mp h
    exact ⟨fun _ => rfl, fun he => absurd (h10.symm.trans he) (by decide)⟩
  rw [if_neg h10] at h
  cases h
  exact ⟨fun _ => rfl, fun he => absurd he h7⟩

theorem opStep_external_docs (acc : OperationAcc) (k : String) (j : Json) (acc₁ : OperationAcc)
    (h : opStep acc k j = some acc₁) :
    (k ≠ "externalDocs" → acc₁.external_docs = acc.external_docs) ∧
    (k = "externalDocs" → acc.external_docs = none ∧
      ∃ v, decodeOptionWith decodeExternalDocumentation j = some v ∧ acc₁.external_docs = some v) := by
  rw [opStep] at h
  by_cases h1 : k = "action"
  · rw [if_pos h1] at h
    obtain ⟨-, v, -, rfl⟩ := setSlot_eq_some.mp h
    exact ⟨fun _ => rfl, fun he => absurd (h1.symm.trans he) (by decide)⟩
  rw [if_neg h1] at h
  by_cases h2 : k = "channel"
  · rw [if_pos h2] at h
    obtain ⟨-, v, -, rfl⟩ := setSlot_eq_some.mp h
    exact ⟨fun _ => rfl, fun he => absurd (h2.symm.trans he) (by decide)⟩
  rw [if_neg h2] at h
  by_cases h3 : k = "messages"
  · rw [if_pos h3] at h
    obtain ⟨-, v, -, rfl⟩ := setSlot_eq_some.mp h
    exact ⟨fun _ => rfl, fun he => absurd (h3.symm.trans he) (by decide)⟩
  rw [if_neg h3] at h
  by_cases h4 : k = "operationId"
  · rw [if_pos h4] at h
    obtain ⟨-, v, -, rfl⟩ := setSlot_eq_some.mp h
    exact ⟨fun _ => rfl, fun he => absurd (h4.symm.trans he) (by decide)⟩
  rw [if_neg h4] at h
  by_cases h5 : k = "summary"
  · rw [if_pos h5] at h
    obtain ⟨-, v, -, rfl⟩ := setSlot_eq_some.mp h
    exact ⟨fun _ => rfl, fun he => absurd (h5.symm.trans he) (by decide)⟩
  rw [if_neg h5] at h
  by_cases h6 : k = "description"
  · rw [if_pos h6] at h
    obtain ⟨-, v, -, rfl⟩ := setSlot_eq_some.mp h
    exact ⟨fun _ => rfl, fun he => absurd (h6.symm.trans he) (by decide)⟩
  rw [if_neg h6] at h
  by_cases h7 : k = "tags"
  · rw [if_pos h7] at h
    obtain ⟨-, v, -, rfl⟩ := setSlot_eq_some.mp h
    exact ⟨fun _ => rfl, fun he => absurd (h7.symm.trans he) (by decide)⟩
  rw [if_neg h7] at h
  by_cases h8 : k = "externalDocs"
  · rw [if_pos h8] at h
    obtain ⟨hn, v, hv, rfl⟩ := setSlot_eq_some.mp h
    exact ⟨fun hne => absurd h8 hne, fun _ => ⟨hn, v, hv, rfl⟩⟩
  rw [if_neg h8] at h
  by_cases h9 : k = "bindings"
  · rw [if_pos h9] at h
    obtain ⟨-, v, -, rfl⟩ := setSlot_eq_some.mp h
    exact ⟨fun _ => rfl, fun he => absurd (h9.symm.trans he) (by decide)⟩
  rw [if_neg h9] at h
  by_cases h10 : k = "traits"
  · rw [if_pos h10] at h
    obtain ⟨-, v, -, rfl⟩ := setSlot_eq_some.mp h
    exact ⟨fun _ => rfl, fun he => absurd (h10.symm.trans he) (by decide)⟩
  rw [if_neg h10] at h
  cases h
  exact ⟨fun _ => rfl, fun he => absurd he h8⟩

theorem opStep_bindings (acc : OperationAcc) (k : String) (j : Json) (acc₁ : OperationAcc)
    (h : opStep acc k j = some acc₁) :
    (k ≠ "bindings" → acc₁.bindings = acc.bindings) ∧
    (k = "bindings" → acc.bindings = none ∧
      ∃ v, decodeOptionWith (decodeReferenceOr decodeOperationBinding) j = some v ∧ acc₁.bindings = some v) := by
  rw [opStep] at h
  by_cases h1 : k = "action"
  · rw [if_pos h1] at h
    obtain ⟨-, v, -, rfl⟩ := setSlot_eq_some.mp h
    exact ⟨fun _ => rfl, fun he => absurd (h1.symm.trans he) (by decide)⟩
  rw [if_neg h1] at h
  by_cases h2 : k = "channel"
  · rw [if_pos h2] at h
    obtain ⟨-, v, -, rfl⟩ := setSlot_eq_some.mp h
    exact ⟨fun _ => rfl, fun he => absurd (h2.symm.trans he) (by decide)⟩
  rw [if_neg h2] at h
  by_cases h3 : k = "messages"
  · rw [if_pos h3] at h
    obtain ⟨-, v, -, rfl⟩ := setSlot_eq_some.mp h
    exact ⟨fun _ => rfl, fun he => absurd (h3.symm.trans he) (by decide)⟩
  rw [if_neg h3] at h
  by_cases h4 : k = "operationId"
  · rw [if_pos h4] at h
    obtain ⟨-, v, -, rfl⟩ := setSlot_eq_some.mp h
    exact ⟨fun _ => rfl, fun he => absurd (h4.symm.trans he) (by decide)⟩
  rw [if_neg h4] at h
  by_cases h5 : k = "summary"
  · rw [if_pos h5] at h
    obtain ⟨-, v, -, rfl⟩ := setSlot_eq_some.mp h
    exact ⟨fun _ => rfl, fun he => absurd (h5.symm.trans he) (by decide)⟩
  rw [if_neg h5] at h
  by_cases h6 : k = "description"
  · rw [if_pos h6] at h
    obtain ⟨-, v, -, rfl⟩ := setSlot_eq_some.mp h
    exact ⟨fun _ => rfl, fun he => absurd (h6.symm.trans he) (by decide)⟩
  rw [if_neg h6] at h
  by_cases h7 : k = "tags"
  · rw [if_pos h7] at h
    obtain ⟨-, v, -, rfl⟩ := setSlot_eq_some.mp h
    exact ⟨fun _ => rfl, fun he => absurd (h7.symm.trans he) (by decide)⟩
  rw [if_neg h7] at h
  by_cases h8 : k = "externalDocs"
  · rw [if_pos h8] at h
    obtain ⟨-, v, -, rfl⟩ := setSlot_eq_some.mp h
    exact ⟨fun _ => rfl, fun he => absurd (h8.symm.trans he) (by decide)⟩
  rw [if_neg h8] at h
  by_cases h9 : k = "bindings"
  · rw [if_pos h9] at h
    obtain ⟨hn, v, hv, rfl⟩ := setSlot_eq_some.mp h
    exact ⟨fun hne => absurd h9 hne, fun _ => ⟨hn, v, hv, rfl⟩⟩
  rw [if_neg h9] at h
  by_cases h10 : k = "traits"
  · rw [if_pos h10] at h
    obtain ⟨-, v, -, rfl⟩ := setSlot_eq_some.mp h
    exact ⟨fun _ => rfl, fun he => absurd (h10.symm.trans he) (by decide)⟩
  rw [if_neg h10] at h
  cases h
  exact ⟨fun _ => rfl, fun he => absurd he h9⟩

theorem opStep_traits (acc : OperationAcc) (k : String) (j : Json) (acc₁ : OperationAcc)
    (h : opStep acc k j = some acc₁) :
    (k ≠ "traits" → acc₁.traits = acc.traits) ∧
    (k = "traits" → acc.traits = none ∧
      ∃ v, decodeListWith (decodeReferenceOr decodeOperationTrait) j = some v ∧ acc₁.traits = some v) := by
  rw [opStep] at h
  by_cases h1 : k = "action"
  · rw [if_pos h1] at h
    obtain ⟨-, v, -, rfl⟩ := setSlot_eq_some.mp h
    exact ⟨fun _ => rfl, fun he => absurd (h1.symm.trans he) (by decide)⟩
  rw [if_neg h1] at h
  by_cases h2 : k = "channel"
  · rw [if_pos h2] at h
    obtain ⟨-, v, -, rfl⟩ := setSlot_eq_some.mp h
    exact ⟨fun _ => rfl, fun he => absurd (h2.symm.trans he) (by decide)⟩
  rw [if_neg h2] at h
  by_cases h3 : k = "messages"
  · rw [if_pos h3] at h
    obtain ⟨-, v, -, rfl⟩ := setSlot_eq_some.mp h
    exact ⟨fun _ => rfl, fun he => absurd (h3.symm.trans he) (by decide)⟩
  rw [if_neg h3] at h
  by_cases h4 : k = "operationId"
  · rw [if_pos h4] at h
    obtain ⟨-, v, -, rfl⟩ := setSlot_eq_some.mp h
    exact ⟨fun _ => rfl, fun he => absurd (h4.symm.trans he) (by decide)⟩
  rw [if_neg h4] at h
  by_cases h5 : k = "summary"
  · rw [if_pos h5] at h
    obtain ⟨-, v, -, rfl⟩ := setSlot_eq_some.mp h
    exact ⟨fun _ => rfl, fun he => absurd (h5.symm.trans he) (by decide)⟩
  rw [if_neg h5] at h
  by_cases h6 : k = "description"
  · rw [if_pos h6] at h
    obtain ⟨-, v, -, rfl⟩ := setSlot_eq_some.mp h
    exact ⟨fun _ => rfl, fun he => absurd (h6.symm.trans he) (by decide)⟩
  rw [if_neg h6] at h
  by_cases h7 : k = "tags"
  · rw [if_pos h7] at h
    obtain ⟨-, v, -, rfl⟩ := setSlot_eq_some.mp h
    exact ⟨fun _ => rfl, fun he => absurd (h7.symm.trans he) (by decide)⟩
  rw [if_neg h7] at h
  by_cases h8 : k = "externalDocs"
  · rw [if_pos h8] at h
    obtain ⟨-, v, -, rfl⟩ := setSlot_eq_some.mp h
    exact ⟨fun _ => rfl, fun he => absurd (h8.symm.trans he) (by decide)⟩
  rw [if_neg h8] at h
  by_cases h9 : k = "bindings"
  · rw [if_pos h9] at h
    obtain ⟨-, v, -, rfl⟩ := setSlot_eq_some.mp h
    exact ⟨fun _ => rfl, fun he => absurd (h9.symm.trans he) (by decide)⟩
  rw [if_neg h9] at h
  by_cases h10 : k = "traits"
  · rw [if_pos h10] at h
    obtain ⟨hn, v, hv, rfl⟩ := setSlot_eq_some.mp h
    exact ⟨fun hne => absurd h10 hne, fun _ => ⟨hn, v, hv, rfl⟩⟩
  rw [if_neg h10] at h
  cases h
  exact ⟨fun _ => rfl, fun he => absurd he h10⟩

theorem opStep_ext (acc : OperationAcc) (k : String) (j : Json) (acc₁ : OperationAcc)
    (h : opStep acc k j = some acc₁) :
    (k ∈ operationKeys → acc₁.extensions = acc.extensions) ∧
    (k ∉ operationKeys → acc₁.extensions = idxInsert acc.extensions k j) := by
  rw [opStep] at h
  by_cases h1 : k = "action"
  · rw [if_pos h1] at h
    obtain ⟨-, v, -, rfl⟩ := setSlot_eq_some.mp h
    exact ⟨fun _ => rfl, fun hd => absurd (by rw [h1]; decide) hd⟩
  rw [if_neg h1] at h
  by_cases h2 : k = "channel"
  · rw [if_pos h2] at h
    obtain ⟨-, v, -, rfl⟩ := setSlot_eq_some.mp h
    exact ⟨fun _ => rfl, fun hd => absurd (by rw [h2]; decide) hd⟩
  rw [if_neg h2] at h
  by_cases h3 : k = "messages"
  · rw [if_pos h3] at h
    obtain ⟨-, v, -, rfl⟩ := setSlot_eq_some.mp h
    exact ⟨fun _ => rfl, fun hd => absurd (by rw [h3]; decide) hd⟩
  rw [if_neg h3] at h
  by_cases h4 : k = "operationId"
  · rw [if_pos h4] at h
    obtain ⟨-, v, -, rfl⟩ := setSlot_eq_some.mp h
    exact ⟨fun _ => rfl, fun hd => absurd (by rw [h4]; decide) hd⟩
  rw [if_neg h4] at h
  by_cases h5 : k = "summary"
  · rw [if_pos h5] at h
    obtain ⟨-, v, -, rfl⟩ := setSlot_eq_some.mp h
    exact ⟨fun _ => rfl, fun hd => absurd (by rw [h5]; decide) hd⟩
  rw [if_neg h5] at h
  by_cases h6 : k = "description"
  · rw [if_pos h6] at h
    obtain ⟨-, v, -, rfl⟩ := setSlot_eq_some.mp h
    exact ⟨fun _ => rfl, fun hd => absurd (by rw [h6]; decide) hd⟩
  rw [if_neg h6] at h
  by_cases h7 : k = "tags"
  · rw [if_pos h7] at h
    obtain ⟨-, v, -, rfl⟩ := setSlot_eq_some.mp h
    exact ⟨fun _ => rfl, fun hd => absurd (by rw [h7]; decide) hd⟩
  rw [if_neg h7] at h
  by_cases h8 : k = "externalDocs"
  · rw [if_pos h8] at h
    obtain ⟨-, v, -, rfl⟩ := setSlot_eq_some.mp h
    exact ⟨fun _ => rfl, fun hd => absurd (by rw [h8]; decide) hd⟩
  rw [if_neg h8] at h
  by_cases h9 : k = "bindings"
  · rw [if_pos h9] at h
    obtain ⟨-, v, -, rfl⟩ := setSlot_eq_some.mp h
    exact ⟨fun _ => rfl, fun hd => absurd (by rw [h9]; decide) hd⟩
  rw [if_neg h9] at h
  by_cases h10 : k = "traits"
  · rw [if_pos h10] at h
    obtain ⟨-, v, -, rfl⟩ := setSlot_eq_some.mp h
    exact ⟨fun _ => rfl, fun hd => absurd (by rw [h10]; decide) hd⟩
  rw [if_neg h10] at h
  cases h
  refine ⟨fun hd => absurd hd ?_, fun _ => rfl⟩
  simp [operationKeys]
  exact ⟨h1, h2, h3, h4, h5, h6, h7, h8, h9, h10⟩

/-! ## Channel value round trip (decode after encode) -/

theorem optMapSome_getD (v : Option α) : (v.map some).getD none = v := by
  cases v <;> rfl

theorem seqSome_getD (l : List α) :
    (if l.isEmpty then none else some l).getD [] = l := by
  cases l <;> rfl

theorem encodeReferenceOr_channelBinding_ne_null (r : ReferenceOr ChannelBinding) :
    encodeReferenceOr encodeChannelBinding r ≠ .null := by
  cases r <;> simp [encodeReferenceOr, encodeChannelBinding]

theorem setSlot_none {d : Json → Option α} {j : Json} {set : α → β} {v : α}
    (hd : d j = some v) : setSlot d none j set = some (set v) := by
  simp [setSlot, hd]

theorem chStep_set_messages (acc : ChannelAcc) (j : Json)
    {m : List (String × Option OperationMessageType)}
    (hacc : acc.messages = none) (hdec : decodeChannelMessages j = some m) :
    chStep acc "messages" j = some { acc with messages := some m } := by
  rw [chStep, if_pos rfl, hacc, setSlot_none hdec]

theorem foldCh_address (v : Option String) (acc : ChannelAcc)
    (hacc : acc.address = none) :
    foldFields chStep (optEntry "address" Json.str v) acc =
      some { acc with address := v.map some } := by
  cases v with
  | none =>
      rw [optEntry, foldFields]
      cases acc
      simp_all
  | some s =>
      have hs : chStep acc "address" (.str s) = some { acc with address := some (some s) } := by
        rw [chStep, if_neg (by decide), if_pos rfl, hacc,
          setSlot_none (show decodeOptionWith decodeString (Json.str s) = some (some s) from rfl)]
      rw [optEntry, foldFields_cons_some _ hs, foldFields]
      rfl

theorem foldCh_description (v : Option String) (acc : ChannelAcc)
    (hacc : acc.description = none) :
    foldFields chStep (optEntry "description" Json.str v) acc =
      some { acc with description := v.map some } := by
  cases v with
  | none =>
      rw [optEntry, foldFields]
      cases acc
      simp_all
  | some s =>
      have hs : chStep acc "description" (.str s) =
          some { acc with description := some (some s) } := by
        rw [chStep, if_neg (by decide), if_neg (by decide), if_pos rfl, hacc,
          setSlot_none (show decodeOptionWith decodeString (Json.str s) = some (some s) from rfl)]
      rw [optEntry, foldFields_cons_some _ hs, foldFields]
      rfl

theorem foldCh_servers (l : List String) (acc : ChannelAcc)
    (hacc : acc.servers = none) :
    foldFields chStep (seqEntry "servers" (fun l => .arr (l.map Json.str)) l) acc =
      some { acc with servers := if l.isEmpty then none else some l } := by
  by_cases he : l.isEmpty
  · rw [seqEntry, if_pos he, if_pos he, foldFields]
    cases acc
    simp_all
  · have hs : chStep acc "servers" (.arr (l.map Json.str)) =
        some { acc with servers := some l } := by
      rw [chStep, if_neg (by decide), if_neg (by decide), if_neg (by decide), if_pos rfl,
        hacc, setSlot_none (decodeStringList_map l)]
    rw [seqEntry, if_neg he, if_neg he, foldFields_cons_some _ hs, foldFields]

theorem foldCh_parameters (m : List (String × ReferenceOr Parameter)) (acc : ChannelAcc)
    (hacc : acc.parameters = none) (hnd : (keysOf m).Nodup)
    (hall : ∀ kv ∈ m, refOrWFB Parameter.extensions kv.2 = true) :
    foldFields chStep
      (seqEntry "parameters" (fun m => encodeObjWith (encodeReferenceOr encodeParameter) m) m)
      acc =
      some { acc with parameters := if m.isEmpty then none else some m } := by
  by_cases he : m.isEmpty
  · rw [seqEntry, if_pos he, if_pos he, foldFields]
    cases acc
    simp_all
  · have hs : chStep acc "parameters" (encodeObjWith (encodeReferenceOr encodeParameter) m) =
        some { acc with parameters := some m } := by
      rw [chStep, if_neg (by decide), if_neg (by decide), if_neg (by decide),
        if_neg (by decide), if_pos rfl, hacc, setSlot_none (decodeParameters_encode hnd hall)]
    rw [seqEntry, if_neg he, if_neg he, foldFields_cons_some _ hs, foldFields]

theorem foldCh_bindings (b : Option (ReferenceOr ChannelBinding)) (acc : ChannelAcc)
    (hacc : acc.bindings = none)
    (hwf : optWFB (refOrWFB ChannelBinding.extensions) b = true) :
    foldFields chStep (optEntry "bindings" (encodeReferenceOr encodeChannelBinding) b) acc =
      some { acc with bindings := b.map some } := by
  cases b with
  | none =>
      rw [optEntry, foldFields]
      cases acc
      simp_all
  | some r =>
      rw [optWFB] at hwf
      have hdec : decodeOptionWith (decodeReferenceOr decodeChannelBinding)
          (encodeReferenceOr encodeChannelBinding r) = some (some r) := by
        rw [decodeOptionWith_not_null (encodeReferenceOr_channelBinding_ne_null r),
          decodeRefOrChannelBinding_encode hwf]
        rfl
      have hs : chStep acc "bindings" (encodeReferenceOr encodeChannelBinding r) =
          some { acc with bindings := some (some r) } := by
        rw [chStep, if_neg (by decide), if_neg (by decide), if_neg (by decide),
          if_neg (by decide), if_neg (by decide), if_pos rfl, hacc, setSlot_none hdec]
      rw [optEntry, foldFields_cons_some _ hs, foldFields]
      rfl

theorem foldCh_reference (v : Option String) (acc : ChannelAcc)
    (hacc : acc.reference = none) :
    foldFields chStep (optEntry "$ref" Json.str v) acc =
      some { acc with reference := v.map some } := by
  cases v with
  | none =>
      rw [optEntry, foldFields]
      cases acc
      simp_all
  | some s =>
      have hs : chStep acc "$ref" (.str s) =
          some { acc with reference := some (some s) } := by
        rw [chStep, if_neg (by decide), if_neg (by decide), if_neg (by decide),
          if_neg (by decide), if_neg (by decide), if_neg (by decide), if_pos rfl, hacc,
          setSlot_none (show decodeOptionWith decodeString (Json.str s) = some (some s) from rfl)]
      rw [optEntry, foldFields_cons_some _ hs, foldFields]
      rfl

theorem foldCh_extSeg :
    ∀ (es : List (String × Json)) (acc : ChannelAcc),
      (∀ kv ∈ es, kv.1 ∉ channelKeys) → (keysOf es).Nodup →
      (∀ kv ∈ es, kv.1 ∉ keysOf acc.extensions) →
      foldFields chStep es acc = some { acc with extensions := acc.extensions ++ es } := by
  intro es
  induction es with
  | nil =>
      intro acc _ _ _
      rw [foldFields]
      cases acc
      simp
  | cons kv rest ih =>
      intro acc hdecl hnd hfresh
      obtain ⟨k, j⟩ := kv
      have hk : k ∉ channelKeys := hdecl (k, j) (List.mem_cons_self _ _)
      simp only [channelKeys, List.mem_cons, List.mem_singleton, not_or] at hk
      obtain ⟨n1, n2, n3, n4, n5, n6, n7⟩ := hk
      have hstep : chStep acc k j =
          some { acc with extensions := idxInsert acc.extensions k j } := by
        rw [chStep, if_neg n1, if_neg n2, if_neg n3, if_neg n4, if_neg n5, if_neg n6,
          if_neg (by simpa using n7)]
      rw [foldFields_cons_some _ hstep]
      rw [keysOf_cons] at hnd
      have hins : idxInsert acc.extensions k j = acc.extensions ++ [(k, j)] :=
        idxInsert_of_not_mem j (hfresh (k, j) (List.mem_cons_self _ _))
      rw [hins]
      rw [ih { acc with extensions := acc.extensions ++ [(k, j)] }
        (fun kv hkv => hdecl kv (List.mem_cons_of_mem _ hkv))
        (List.nodup_cons.mp hnd).2 ?fresh]
      · simp
      case fresh =>
        intro kv hkv hmem
        simp only at hmem
        rw [keysOf_append] at hmem
        rcases List.mem_append.mp hmem with hin | hin
        · exact hfresh kv (List.mem_cons_of_mem _ hkv) hin
        · have hkk : kv.1 = k := by simpa [keysOf] using hin
          exact (List.nodup_cons.mp hnd).1 (hkk ▸ (List.mem_map_of_mem Prod.fst hkv))

theorem decodeChannel_encode {c : Channel} (h : channelWFB c = true) :
    decodeChannel (encodeChannel c) = some c := by
  rw [channelWFB] at h
  simp only [Bool.and_eq_true] at h
  obtain ⟨⟨⟨⟨⟨⟨hmnd, hmall⟩, hpnd⟩, hpall⟩, hbwf⟩, hend⟩, hedecl⟩ := h
  have hmall' : ∀ kv ∈ c.messages, optWFB omtWFB kv.2 = true :=
    fun kv hkv => List.all_eq_true.mp hmall kv hkv
  have hpall' : ∀ kv ∈ c.parameters, refOrWFB Parameter.extensions kv.2 = true :=
    fun kv hkv => List.all_eq_true.mp hpall kv hkv
  have hedecl' : ∀ kv ∈ c.extensions, kv.1 ∉ channelKeys := by
    intro kv hkv hmem
    have hfalse := List.all_eq_true.mp hedecl kv hkv
    rw [Bool.not_eq_true'] at hfalse
    have htrue : channelKeys.contains kv.1 = true := List.elem_iff.mpr hmem
    rw [hfalse] at htrue
    exact Bool.false_ne_true htrue
  have hmsgdec : decodeChannelMessages (encodeChannelMessages c.messages) = some c.messages :=
    decodeChannelMessages_encode (nodupKeysB_iff.mp hmnd) hmall'
  have h0 : chStep {} "messages" (encodeChannelMessages c.messages) =
      some { messages := some c.messages } :=
    chStep_set_messages {} _ rfl hmsgdec
  rw [encodeChannel, decodeChannel, decodeChannelFields, encChFields]
  rw [foldFields_cons_some _ h0]
  rw [foldFields_append,
    foldCh_address c.address { messages := some c.messages } rfl, Option.some_bind]
  rw [foldFields_append,
    foldCh_description c.description
      { messages := some c.messages, address := Option.map some c.address } rfl,
    Option.some_bind]
  rw [foldFields_append,
    foldCh_servers c.servers
      { messages := some c.messages, address := Option.map some c.address,
        description := Option.map some c.description } rfl,
    Option.some_bind]
  rw [foldFields_append,
    foldCh_parameters c.parameters
      { messages := some c.messages, address := Option.map some c.address,
        description := Option.map some c.description,
        servers := if c.servers.isEmpty then none else some c.servers } rfl
      (nodupKeysB_iff.mp hpnd) hpall',
    Option.some_bind]
  rw [foldFields_append,
    foldCh_bindings c.bindings
      { messages := some c.messages, address := Option.map some c.address,
        description := Option.map some c.description,
        servers := if c.servers.isEmpty then none else some c.servers,
        parameters := if c.parameters.isEmpty then none else some c.parameters } rfl hbwf,
    Option.some_bind]
  rw [foldFields_append,
    foldCh_extSeg c.extensions
      { messages := some c.messages, address := Option.map some c.address,
        description := Option.map some c.description,
        servers := if c.servers.isEmpty then none else some c.servers,
        parameters := if c.parameters.isEmpty then none else some c.parameters,
        bindings := Option.map some c.bindings }
      hedecl' (nodupKeysB_iff.mp hend) (by simp [keysOf]),
    Option.some_bind]
  rw [foldCh_reference c.reference
    { messages := some c.messages, address := Option.map some c.address,
      description := Option.map some c.description,
      servers := if c.servers.isEmpty then none else some c.servers,
      parameters := if c.parameters.isEmpty then none else some c.parameters,
      bindings := Option.map some c.bindings, extensions := [] ++ c.extensions } rfl]
  simp only [finChannel, optMapSome_getD, seqSome_getD, List.nil_append]

/-! ## Operation value round trip (decode after encode) -/

theorem encodeOCT_ne_null {t : operations.OperationChannelType} (h : octWFB t = true) :
    operations.encodeOperationChannelType t ≠ .null := by
  cases t with
  | Schema s => simp [operations.encodeOperationChannelType, encodeSchema]
  | Any v => simpa [operations.encodeOperationChannelType] using (octWFB_any h).2

theorem decodeOptChannel_encode {t : operations.OperationChannelType}
    (h : octWFB t = true) :
    decodeOptionWith (fun j => some (operations.decodeOperationChannelType j))
      (operations.encodeOperationChannelType t) = some (some t) := by
  rw [decodeOptionWith_not_null (encodeOCT_ne_null h)]
  simp [decodeOperationChannelType_encode h]

theorem decodeOpMessages_encode {l : List operations.OperationMessageType}
    (hall : ∀ x ∈ l, omtOpWFB x = true) :
    decodeOpMessages (.arr (l.map operations.encodeOperationMessageType)) =
      some (some l) := by
  rw [decodeOpMessages,
    decodeOptionWith_not_null (show Json.arr (l.map operations.encodeOperationMessageType) ≠ .null by simp),
    decodeListWith_map _ _ l
      (fun x hx => by rw [decodeOperationMessageTypeOps_encode (hall x hx)])]
  rfl

theorem encodeReferenceOr_operationBinding_ne_null (r : ReferenceOr OperationBinding) :
    encodeReferenceOr encodeOperationBinding r ≠ .null := by
  cases r <;> simp [encodeReferenceOr, encodeOperationBinding]

theorem opStep_set_action (acc : OperationAcc) (a : ActionType)
    (hacc : acc.action = none) :
    opStep acc "action" (encodeActionType a) = some { acc with action := some a } := by
  rw [opStep, if_pos rfl, hacc, setSlot_none (decodeActionType_encode a)]

theorem foldOp_channel (b : Option operations.OperationChannelType) (acc : OperationAcc)
    (hacc : acc.channel = none) (hwf : optWFB octWFB b = true) :
    foldFields opStep (optEntry "channel" operations.encodeOperationChannelType b) acc =
      some { acc with channel := b.map some } := by
  cases b with
  | none =>
      rw [optEntry, foldFields]
      cases acc
      simp_all
  | some t =>
      rw [optWFB] at hwf
      have hs : opStep acc "channel" (operations.encodeOperationChannelType t) =
          some { acc with channel := some (some t) } := by
        rw [opStep, if_neg (by decide), if_pos rfl, hacc,
          setSlot_none (decodeOptChannel_encode hwf)]
      rw [optEntry, foldFields_cons_some _ hs, foldFields]
      rfl

theorem foldOp_messages (m : Option (List operations.OperationMessageType))
    (acc : OperationAcc) (hacc : acc.messages = none)
    (hwf : optWFB (fun l => l.all omtOpWFB) m = true) :
    foldFields opStep
      (optEntry "messages"
        (fun l => .arr (l.map operations.encodeOperationMessageType)) m) acc =
      some { acc with messages := m.map some } := by
  cases m with
  | none =>
      rw [optEntry, foldFields]
      cases acc
      simp_all
  | some l =>
      rw [optWFB] at hwf
      have hs : opStep acc "messages"
          (.arr (l.map operations.encodeOperationMessageType)) =
          some { acc with messages := some (some l) } := by
        rw [opStep, if_neg (by decide), if_neg (by decide), if_pos rfl, hacc,
          setSlot_none (decodeOpMessages_encode
            (fun x hx => List.all_eq_true.mp hwf x hx))]
      rw [optEntry, foldFields_cons_some _ hs, foldFields]
      rfl

theorem foldOp_operation_id (v : Option String) (acc : OperationAcc)
    (hacc : acc.operation_id = none) :
    foldFields opStep (optEntry "operationId" Json.str v) acc =
      some { acc with operation_id := v.map some } := by
  cases v with
  | none =>
      rw [optEntry, foldFields]
      cases acc
      simp_all
  | some s =>
      have hs : opStep acc "operationId" (.str s) =
          some { acc with operation_id := some (some s) } := by
        rw [opStep, if_neg (by decide), if_neg (by decide), if_neg (by decide), if_pos rfl,
          hacc, setSlot_none (show decodeOptionWith decodeString (Json.str s) =
            some (some s) from rfl)]
      rw [optEntry, foldFields_cons_some _ hs, foldFields]
      rfl

theorem foldOp_summary (v : Option String) (acc : OperationAcc)
    (hacc : acc.summary = none) :
    foldFields opStep (optEntry "summary" Json.str v) acc =
      some { acc with summary := v.map some } := by
  cases v with
  | none =>
      rw [optEntry, foldFields]
      cases acc
      simp_all
  | some s =>
      have hs : opStep acc "summary" (.str s) =
          some { acc with summary := some (some s) } := by
        rw [opStep, if_neg (by decide), if_neg (by decide), if_neg (by decide),
          if_neg (by decide), if_pos rfl, hacc,
          setSlot_none (show decodeOptionWith decodeString (Json.str s) =
            some (some s) from rfl)]
      rw [optEntry, foldFields_cons_some _ hs, foldFields]
      rfl

theorem foldOp_description (v : Option String) (acc : OperationAcc)
    (hacc : acc.description = none) :
    foldFields opStep (optEntry "description" Json.str v) acc =
      some { acc with description := v.map some } := by
  cases v with
  | none =>
      rw [optEntry, foldFields]
      cases acc
      simp_all
  | some s =>
      have hs : opStep acc "description" (.str s) =
          some { acc with description := some (some s) } := by
        rw [opStep, if_neg (by decide), if_neg (by decide), if_neg (by decide),
          if_neg (by decide), if_neg (by decide), if_pos rfl, hacc,
          setSlot_none (show decodeOptionWith decodeString (Json.str s) =
            some (some s) from rfl)]
      rw [optEntry, foldFields_cons_some _ hs, foldFields]
      rfl

theorem foldOp_tags (l : List Tag) (acc : OperationAcc)
    (hacc : acc.tags = none) (hall : ∀ t ∈ l, nodupKeysB t.extensions = true) :
    foldFields opStep (seqEntry "tags" (fun l => .arr (l.map encodeTag)) l) acc =
      some { acc with tags := if l.isEmpty then none else some l } := by
  by_cases he : l.isEmpty
  · rw [seqEntry, if_pos he, if_pos he, foldFields]
    cases acc
    simp_all
  · have hs : opStep acc "tags" (.arr (l.map encodeTag)) =
        some { acc with tags := some l } := by
      rw [opStep, if_neg (by decide), if_neg (by decide), if_neg (by decide),
        if_neg (by decide), if_neg (by decide), if_neg (by decide), if_pos rfl, hacc,
        setSlot_none (decodeListWith_map _ _ l
          (fun t ht => decodeTag_encode (nodupKeysB_iff.mp (hall t ht))))]
    rw [seqEntry, if_neg he, if_neg he, foldFields_cons_some _ hs, foldFields]

theorem foldOp_external_docs (d : Option ExternalDocumentation) (acc : OperationAcc)
    (hacc : acc.external_docs = none)
    (hwf : optWFB (fun d => nodupKeysB d.extensions) d = true) :
    foldFields opStep (optEntry "externalDocs" encodeExternalDocumentation d) acc =
      some { acc with external_docs := d.map some } := by
  cases d with
  | none =>
      rw [optEntry, foldFields]
      cases acc
      simp_all
  | some x =>
      rw [optWFB] at hwf
      have hdec : decodeOptionWith decodeExternalDocumentation
          (encodeExternalDocumentation x) = some (some x) := by
        rw [decodeOptionWith_not_null
          (show encodeExternalDocumentation x ≠ .null by
            simp [encodeExternalDocumentation]),
          decodeExternalDocumentation_encode (nodupKeysB_iff.mp hwf)]
        rfl
      have hs : opStep acc "externalDocs" (encodeExternalDocumentation x) =
          some { acc with external_docs := some (some x) } := by
        rw [opStep, if_neg (by decide), if_neg (by decide), if_neg (by decide),
          if_neg (by decide), if_neg (by decide), if_neg (by decide), if_neg (by decide),
          if_pos rfl, hacc, setSlot_none hdec]
      rw [optEntry, foldFields_cons_some _ hs, foldFields]
      rfl

theorem foldOp_bindings (b : Option (ReferenceOr OperationBinding)) (acc : OperationAcc)
    (hacc : acc.bindings = none)
    (hwf : optWFB (refOrWFB OperationBinding.extensions) b = true) :
    foldFields opStep (optEntry "bindings" (encodeReferenceOr encodeOperationBinding) b)
      acc = some { acc with bindings := b.map some } := by
  cases b with
  | none =>
      rw [optEntry, foldFields]
      cases acc
      simp_all
  | some r =>
      rw [optWFB] at hwf
      have hdec : decodeOptionWith (decodeReferenceOr decodeOperationBinding)
          (encodeReferenceOr encodeOperationBinding r) = some (some r) := by
        rw [decodeOptionWith_not_null (encodeReferenceOr_operationBinding_ne_null r),
          decodeRefOrOperationBinding_encode hwf]
        rfl
      have hs : opStep acc "bindings" (encodeReferenceOr encodeOperationBinding r) =
          some { acc with bindings := some (some r) } := by
        rw [opStep, if_neg (by decide), if_neg (by decide), if_neg (by decide),
          if_neg (by decide), if_neg (by decide), if_neg (by decide), if_neg (by decide),
          if_neg (by decide), if_pos rfl, hacc, setSlot_none hdec]
      rw [optEntry, foldFields_cons_some _ hs, foldFields]
      rfl

theorem foldOp_traits (l : List (ReferenceOr OperationTrait)) (acc : OperationAcc)
    (hacc : acc.traits = none)
    (hall : ∀ r ∈ l, refOrWFB OperationTrait.extensions r = true) :
    foldFields opStep
      (seqEntry "traits" (fun l => .arr (l.map (encodeReferenceOr encodeOperationTrait))) l)
      acc = some { acc with traits := if l.isEmpty then none else some l } := by
  by_cases he : l.isEmpty
  · rw [seqEntry, if_pos he, if_pos he, foldFields]
    cases acc
    simp_all
  · have hs : opStep acc "traits"
        (.arr (l.map (encodeReferenceOr encodeOperationTrait))) =
        some { acc with traits := some l } := by
      rw [opStep, if_neg (by decide), if_neg (by decide), if_neg (by decide),
        if_neg (by decide), if_neg (by decide), if_neg (by decide), if_neg (by decide),
        if_neg (by decide), if_neg (by decide), if_pos rfl, hacc,
        setSlot_none (decodeListWith_map _ _ l
          (fun r hr => decodeRefOrOperationTrait_encode (hall r hr)))]
    rw [seqEntry, if_neg he, if_neg he, foldFields_cons_some _ hs, foldFields]

theorem foldOp_extSeg :
    ∀ (es : List (String × Json)) (acc : OperationAcc),
      (∀ kv ∈ es, kv.1 ∉ operationKeys) → (keysOf es).Nodup →
      (∀ kv ∈ es, kv.1 ∉ keysOf acc.extensions) →
      foldFields opStep es acc = some { acc with extensions := acc.extensions ++ es } := by
  intro es
  induction es with
  | nil =>
      intro acc _ _ _
      rw [foldFields]
      cases acc
      simp
  | cons kv rest ih =>
      intro acc hdecl hnd hfresh
      obtain ⟨k, j⟩ := kv
      have hk : k ∉ operationKeys := hdecl (k, j) (List.mem_cons_self _ _)
      simp only [operationKeys, List.mem_cons, List.mem_singleton, not_or] at hk
      obtain ⟨n1, n2, n3, n4, n5, n6, n7, n8, n9, n10⟩ := hk
      have hstep : opStep acc k j =
          some { acc with extensions := idxInsert acc.extensions k j } := by
        rw [opStep, if_neg n1, if_neg n2, if_neg n3, if_neg n4, if_neg n5, if_neg n6,
          if_neg n7, if_neg n8, if_neg n9, if_neg (by simpa using n10)]
      rw [foldFields_cons_some _ hstep]
      rw [keysOf_cons] at hnd
      have hins : idxInsert acc.extensions k j = acc.extensions ++ [(k, j)] :=
        idxInsert_of_not_mem j (hfresh (k, j) (List.mem_cons_self _ _))
      rw [hins]
      rw [ih { acc with extensions := acc.extensions ++ [(k, j)] }
        (fun kv hkv => hdecl kv (List.mem_cons_of_mem _ hkv))
        (List.nodup_cons.mp hnd).2 ?fresh]
      · simp
      case fresh =>
        intro kv hkv hmem
        simp only at hmem
        rw [keysOf_append] at hmem
        rcases List.mem_append.mp hmem with hin | hin
        · exact hfresh kv (List.mem_cons_of_mem _ hkv) hin
        · have hkk : kv.1 = k := by simpa [keysOf] using hin
          exact (List.nodup_cons.mp hnd).1 (hkk ▸ (List.mem_map_of_mem Prod.fst hkv))

theorem decodeOperation_encode {o : Operation} (h : operationWFB o = true) :
    decodeOperation (encodeOperation o) = some o := by
  rw [operationWFB] at h
  simp only [Bool.and_eq_true] at h
  obtain ⟨⟨⟨⟨⟨⟨⟨hch, hmsg⟩, htags⟩, hed⟩, hbi⟩, htr⟩, hend⟩, hedecl⟩ := h
  have htags' : ∀ t ∈ o.tags, nodupKeysB t.extensions = true :=
    fun t ht => List.all_eq_true.mp htags t ht
  have htr' : ∀ r ∈ o.traits, refOrWFB OperationTrait.extensions r = true :=
    fun r hr => List.all_eq_true.mp htr r hr
  have hedecl' : ∀ kv ∈ o.extensions, kv.1 ∉ operationKeys := by
    intro kv hkv hmem
    have hfalse := List.all_eq_true.mp hedecl kv hkv
    rw [Bool.not_eq_true'] at hfalse
    have htrue : operationKeys.contains kv.1 = true := List.elem_iff.mpr hmem
    rw [hfalse] at htrue
    exact Bool.false_ne_true htrue
  have h0 : opStep {} "action" (encodeActionType o.action) =
      some { action := some o.action } :=
    opStep_set_action {} o.action rfl
  rw [encodeOperation, decodeOperation, decodeOperationFields, encOpFields]
  rw [foldFields_cons_some _ h0]
  rw [foldFields_append,
    foldOp_channel o.channel { action := some o.action } rfl hch, Option.some_bind]
  rw [foldFields_append,
    foldOp_messages o.messages
      { action := some o.action, channel := Option.map some o.channel } rfl hmsg,
    Option.some_bind]
  rw [foldFields_append,
    foldOp_operation_id o.operation_id
      { action := some o.action, channel := Option.map some o.channel,
        messages := Option.map some o.messages } rfl,
    Option.some_bind]
  rw [foldFields_append,
    foldOp_summary o.summary
      { action := some o.action, channel := Option.map some o.channel,
        messages := Option.map some o.messages,
        operation_id := Option.map some o.operation_id } rfl,
    Option.some_bind]
  rw [foldFields_append,
    foldOp_description o.description
      { action := some o.action, channel := Option.map some o.channel,
        messages := Option.map some o.messages,
        operation_id := Option.map some o.operation_id,
        summary := Option.map some o.summary } rfl,
    Option.some_bind]
  rw [foldFields_append,
    foldOp_tags o.tags
      { action := some o.action, channel := Option.map some o.channel,
        messages := Option.map some o.messages,
        operation_id := Option.map some o.operation_id,
        summary := Option.map some o.summary,
        description := Option.map some o.description } rfl htags',
    Option.some_bind]
  rw [foldFields_append,
    foldOp_external_docs o.external_docs
      { action := some o.action, channel := Option.map some o.channel,
        messages := Option.map some o.messages,
        operation_id := Option.map some o.operation_id,
        summary := Option.map some o.summary,
        description := Option.map some o.description,
        tags := if o.tags.isEmpty then none else some o.tags } rfl hed,
    Option.some_bind]
  rw [foldFields_append,
    foldOp_bindings o.bindings
      { action := some o.action, channel := Option.map some o.channel,
        messages := Option.map some o.messages,
        operation_id := Option.map some o.operation_id,
        summary := Option.map some o.summary,
        description := Option.map some o.description,
        tags := if o.tags.isEmpty then none else some o.tags,
        external_docs := Option.map some o.external_docs } rfl hbi,
    Option.some_bind]
  rw [foldFields_append,
    foldOp_traits o.traits
      { action := some o.action, channel := Option.map some o.channel,
        messages := Option.map some o.messages,
        operation_id := Option.map some o.operation_id,
        summary := Option.map some o.summary,
        description := Option.map some o.description,
        tags := if o.tags.isEmpty then none else some o.tags,
        external_docs := Option.map some o.external_docs,
        bindings := Option.map some o.bindings } rfl htr',
    Option.some_bind]
  rw [foldOp_extSeg o.extensions
    { action := some o.action, channel := Option.map some o.channel,
      messages := Option.map some o.messages,
      operation_id := Option.map some o.operation_id,
      summary := Option.map some o.summary,
      description := Option.map some o.description,
      tags := if o.tags.isEmpty then none else some o.tags,
      external_docs := Option.map some o.external_docs,
      bindings := Option.map some o.bindings,
      traits := if o.traits.isEmpty then none else some o.traits }
    hedecl' (nodupKeysB_iff.mp hend) (by simp [keysOf])]
  simp only [finOperation, optMapSome_getD, seqSome_getD, List.nil_append]

/-! ## Lookup characterization of the serialized forms -/

theorem lookupKey_append (k : String) (xs ys : List (String × α)) :
    lookupKey k (xs ++ ys) = (lookupKey k xs).or (lookupKey k ys) := by
  cases hx : lookupKey k xs with
  | none => rw [lookupKey_append_right ys hx, Option.none_or]
  | some v => rw [lookupKey_append_left ys hx]; rfl

theorem lookupKey_optEntry_self (K : String) (f : α → Json) (v : Option α) :
    lookupKey K (optEntry K f v) = v.map f := by
  cases v <;> simp [optEntry, lookupKey]

theorem lookupKey_optEntry_ne {k K : String} (h : k ≠ K) (f : α → Json) (v : Option α) :
    lookupKey k (optEntry K f v) = none := by
  cases v <;> simp [optEntry, lookupKey, Ne.symm h]

theorem lookupKey_seqEntry_self (K : String) (f : List α → Json) (l : List α) :
    lookupKey K (seqEntry K f l) = if l.isEmpty then none else some (f l) := by
  by_cases he : l.isEmpty <;> simp [seqEntry, he, lookupKey]

theorem lookupKey_seqEntry_ne {k K : String} (h : k ≠ K) (f : List α → Json) (l : List α) :
    lookupKey k (seqEntry K f l) = none := by
  by_cases he : l.isEmpty <;> simp [seqEntry, he, lookupKey, Ne.symm h]

theorem lookupKey_ext_none {k : String} {e : List (String × Json)}
    (hext : ∀ kv ∈ e, kv.1 ∉ channelKeys) (hk : k ∈ channelKeys) :
    lookupKey k e = none := by
  rw [lookupKey_eq_none]
  intro hmem
  rcases List.mem_map.mp hmem with ⟨kv, hkv, rfl⟩
  exact hext kv hkv hk

theorem lookupKey_extOp_none {k : String} {e : List (String × Json)}
    (hext : ∀ kv ∈ e, kv.1 ∉ operationKeys) (hk : k ∈ operationKeys) :
    lookupKey k e = none := by
  rw [lookupKey_eq_none]
  intro hmem
  rcases List.mem_map.mp hmem with ⟨kv, hkv, rfl⟩
  exact hext kv hkv hk

theorem lookupKey_encChFields (c : Channel)
    (hext : ∀ kv ∈ c.extensions, kv.1 ∉ channelKeys) (k : String) :
    lookupKey k (encChFields c) =
      if k = "messages" then some (encodeChannelMessages c.messages)
      else if k = "address" then c.address.map Json.str
      else if k = "description" then c.description.map Json.str
      else if k = "servers" then
        (if c.servers.isEmpty then none else some (.arr (c.servers.map Json.str)))
      else if k = "parameters" then
        (if c.parameters.isEmpty then none
          else some (encodeObjWith (encodeReferenceOr encodeParameter) c.parameters))
      else if k = "bindings" then c.bindings.map (encodeReferenceOr encodeChannelBinding)
      else if k = "$ref" then c.reference.map Json.str
      else lookupKey k c.extensions := by
  by_cases h1 : k = "messages"
  · subst h1
    simp [encChFields, lookupKey]
  by_cases h2 : k = "address"
  · subst h2
    rw [encChFields, lookupKey, if_neg (by decide), lookupKey_append,
      lookupKey_optEntry_self, lookupKey_append, lookupKey_optEntry_ne (by decide),
      lookupKey_append, lookupKey_seqEntry_ne (by decide),
      lookupKey_append, lookupKey_seqEntry_ne (by decide),
      lookupKey_append, lookupKey_optEntry_ne (by decide),
      lookupKey_append, lookupKey_ext_none hext (by decide),
      lookupKey_optEntry_ne (by decide)]
    simp [h1]
  by_cases h3 : k = "description"
  · subst h3
    rw [encChFields, lookupKey, if_neg (by decide), lookupKey_append,
      lookupKey_optEntry_ne (by decide), lookupKey_append, lookupKey_optEntry_self,
      lookupKey_append, lookupKey_seqEntry_ne (by decide),
      lookupKey_append, lookupKey_seqEntry_ne (by decide),
      lookupKey_append, lookupKey_optEntry_ne (by decide),
      lookupKey_append, lookupKey_ext_none hext (by decide),
      lookupKey_optEntry_ne (by decide)]
    simp [h1, h2]
  by_cases h4 : k = "servers"
  · subst h4
    rw [encChFields, lookupKey, if_neg (by decide), lookupKey_append,
      lookupKey_optEntry_ne (by decide), lookupKey_append,
      lookupKey_optEntry_ne (by decide), lookupKey_append, lookupKey_seqEntry_self,
      lookupKey_append, lookupKey_seqEntry_ne (by decide),
      lookupKey_append, lookupKey_optEntry_ne (by decide),
      lookupKey_append, lookupKey_ext_none hext (by decide),
      lookupKey_optEntry_ne (by decide)]
    by_cases he : c.servers.isEmpty <;> simp [h1, h2, h3, he]
  by_cases h5 : k = "parameters"
  · subst h5
    rw [encChFields, lookupKey, if_neg (by decide), lookupKey_append,
      lookupKey_optEntry_ne (by decide), lookupKey_append,
      lookupKey_optEntry_ne (by decide), lookupKey_append,
      lookupKey_seqEntry_ne (by decide), lookupKey_append, lookupKey_seqEntry_self,
      lookupKey_append, lookupKey_optEntry_ne (by decide),
      lookupKey_append, lookupKey_ext_none hext (by decide),
      lookupKey_optEntry_ne (by decide)]
    by_cases he : c.parameters.isEmpty <;> simp [h1, h2, h3, h4, he]
  by_cases h6 : k = "bindings"
  · subst h6
    rw [encChFields, lookupKey, if_neg (by decide), lookupKey_append,
      lookupKey_optEntry_ne (by decide), lookupKey_append,
      lookupKey_optEntry_ne (by decide), lookupKey_append,
      lookupKey_seqEntry_ne (by decide), lookupKey_append,
      lookupKey_seqEntry_ne (by decide), lookupKey_append, lookupKey_optEntry_self,
      lookupKey_append, lookupKey_ext_none hext (by decide),
      lookupKey_optEntry_ne (by decide)]
    simp [h1, h2, h3, h4, h5]
  by_cases h7 : k = "$ref"
  · subst h7
    rw [encChFields, lookupKey, if_neg (by decide), lookupKey_append,
      lookupKey_optEntry_ne (by decide), lookupKey_append,
      lookupKey_optEntry_ne (by decide), lookupKey_append,
      lookupKey_seqEntry_ne (by decide), lookupKey_append,
      lookupKey_seqEntry_ne (by decide), lookupKey_append,
      lookupKey_optEntry_ne (by decide), lookupKey_append,
      lookupKey_ext_none hext (by decide), lookupKey_optEntry_self]
    simp [h1, h2, h3, h4, h5, h6]
  · rw [encChFields, lookupKey, if_neg (fun he => h1 he.symm), lookupKey_append,
      lookupKey_optEntry_ne h2, lookupKey_append, lookupKey_optEntry_ne h3,
      lookupKey_append, lookupKey_seqEntry_ne h4, lookupKey_append,
      lookupKey_seqEntry_ne h5, lookupKey_append, lookupKey_optEntry_ne h6,
      lookupKey_append, lookupKey_optEntry_ne h7, Option.or_none, Option.none_or,
      Option.none_or, Option.none_or, Option.none_or, Option.none_or]
    simp [h1, h2, h3, h4, h5, h6, h7]

theorem lookupKey_encOpFields (o : Operation)
    (hext : ∀ kv ∈ o.extensions, kv.1 ∉ operationKeys) (k : String) :
    lookupKey k (encOpFields o) =
      if k = "action" then some (encodeActionType o.action)
      else if k = "channel" then o.channel.map operations.encodeOperationChannelType
      else if k = "messages" then
        o.messages.map (fun l => .arr (l.map operations.encodeOperationMessageType))
      else if k = "operationId" then o.operation_id.map Json.str
      else if k = "summary" then o.summary.map Json.str
      else if k = "description" then o.description.map Json.str
      else if k = "tags" then
        (if o.tags.isEmpty then none else some (.arr (o.tags.map encodeTag)))
      else if k = "externalDocs" then o.external_docs.map encodeExternalDocumentation
      else if k = "bindings" then o.bindings.map (encodeReferenceOr encodeOperationBinding)
      else if k = "traits" then
        (if o.traits.isEmpty then none
          else some (.arr (o.traits.map (encodeReferenceOr encodeOperationTrait))))
      else lookupKey k o.extensions := by
  by_cases h1 : k = "action"
  · subst h1
    simp [encOpFields, lookupKey]
  by_cases h2 : k = "channel"
  · subst h2
    rw [encOpFields,
      lookupKey,
      if_neg (by decide),
      lookupKey_append,
      lookupKey_optEntry_self,
      lookupKey_append,
      lookupKey_optEntry_ne (by decide),
      lookupKey_append,
      lookupKey_optEntry_ne (by decide),
      lookupKey_append,
      lookupKey_optEntry_ne (by decide),
      lookupKey_append,
      lookupKey_optEntry_ne (by decide),
      lookupKey_append,
      lookupKey_seqEntry_ne (by decide),
      lookupKey_append,
      lookupKey_optEntry_ne (by decide),
      lookupKey_append,
      lookupKey_optEntry_ne (by decide),
      lookupKey_append,
      lookupKey_seqEntry_ne (by decide),
      lookupKey_extOp_none hext (by decide)]
    simp [h1]
  by_cases h3 : k = "messages"
  · subst h3
    rw [encOpFields,
      lookupKey,
      if_neg (by decide),
      lookupKey_append,
      lookupKey_optEntry_ne (by decide),
      lookupKey_append,
      lookupKey_optEntry_self,
      lookupKey_append,
      lookupKey_optEntry_ne (by decide),
      lookupKey_append,
      lookupKey_optEntry_ne (by decide),
      lookupKey_append,
      lookupKey_optEntry_ne (by decide),
      lookupKey_append,
      lookupKey_seqEntry_ne (by decide),
      lookupKey_append,
      lookupKey_optEntry_ne (by decide),
      lookupKey_append,
      lookupKey_optEntry_ne (by decide),
      lookupKey_append,
      lookupKey_seqEntry_ne (by decide),
      lookupKey_extOp_none hext (by decide)]
    simp [h1, h2]
  by_cases h4 : k = "operationId"
  · subst h4
    rw [encOpFields,
      lookupKey,
      if_neg (by decide),
      lookupKey_append,
      lookupKey_optEntry_ne (by decide),
      lookupKey_append,
      lookupKey_optEntry_ne (by decide),
      lookupKey_append,
      lookupKey_optEntry_self,
      lookupKey_append,
      lookupKey_optEntry_ne (by decide),
      lookupKey_append,
      lookupKey_optEntry_ne (by decide),
      lookupKey_append,
      lookupKey_seqEntry_ne (by decide),
      lookupKey_append,
      lookupKey_optEntry_ne (by decide),
      lookupKey_append,
      lookupKey_optEntry_ne (by decide),
      lookupKey_append,
      lookupKey_seqEntry_ne (by decide),
      lookupKey_extOp_none hext (by decide)]
    simp [h1, h2, h3]
  by_cases h5 : k = "summary"
  · subst h5
    rw [encOpFields,
      lookupKey,
      if_neg (by decide),
      lookupKey_append,
      lookupKey_optEntry_ne (by decide),
      lookupKey_append,
      lookupKey_optEntry_ne (by decide),
      lookupKey_append,
      lookupKey_optEntry_ne (by decide),
      lookupKey_append,
      lookupKey_optEntry_self,
      lookupKey_append,
      lookupKey_optEntry_ne (by decide),
      lookupKey_append,
      lookupKey_seqEntry_ne (by decide),
      lookupKey_append,
      lookupKey_optEntry_ne (by decide),
      lookupKey_append,
      lookupKey_optEntry_ne (by decide),
      lookupKey_append,
      lookupKey_seqEntry_ne (by decide),
      lookupKey_extOp_none hext (by decide)]
    simp [h1, h2, h3, h4]
  by_cases h6 : k = "description"
  · subst h6
    rw [encOpFields,
      lookupKey,
      if_neg (by decide),
      lookupKey_append,
      lookupKey_optEntry_ne (by decide),
      lookupKey_append,
      lookupKey_optEntry_ne (by decide),
      lookupKey_append,
      lookupKey_optEntry_ne (by decide),
      lookupKey_append,
      lookupKey_optEntry_ne (by decide),
      lookupKey_append,
      lookupKey_optEntry_self,
      lookupKey_append,
      lookupKey_seqEntry_ne (by decide),
      lookupKey_append,
      lookupKey_optEntry_ne (by decide),
      lookupKey_append,
      lookupKey_optEntry_ne (by decide),
      lookupKey_append,
      lookupKey_seqEntry_ne (by decide),
      lookupKey_extOp_none hext (by decide)]
    simp [h1, h2, h3, h4, h5]
  by_cases h7 : k = "tags"
  · subst h7
    rw [encOpFields,
      lookupKey,
      if_neg (by decide),
      lookupKey_append,
      lookupKey_optEntry_ne (by decide),
      lookupKey_append,
      lookupKey_optEntry_ne (by decide),
      lookupKey_append,
      lookupKey_optEntry_ne (by decide),
      lookupKey_append,
      lookupKey_optEntry_ne (by decide),
      lookupKey_append,
      lookupKey_optEntry_ne (by decide),
      lookupKey_append,
      lookupKey_seqEntry_self,
      lookupKey_append,
      lookupKey_optEntry_ne (by decide),
      lookupKey_append,
      lookupKey_optEntry_ne (by decide),
      lookupKey_append,
      lookupKey_seqEntry_ne (by decide),
      lookupKey_extOp_none hext (by decide)]
    by_cases he : o.tags.isEmpty <;> simp [h1, h2, h3, h4, h5, h6, he]
  by_cases h8 : k = "externalDocs"
  · subst h8
    rw [encOpFields,
      lookupKey,
      if_neg (by decide),
      lookupKey_append,
      lookupKey_optEntry_ne (by decide),
      lookupKey_append,
      lookupKey_optEntry_ne (by decide),
      lookupKey_append,
      lookupKey_optEntry_ne (by decide),
      lookupKey_append,
      lookupKey_optEntry_ne (by decide),
      lookupKey_append,
      lookupKey_optEntry_ne (by decide),
      lookupKey_append,
      lookupKey_seqEntry_ne (by decide),
      lookupKey_append,
      lookupKey_optEntry_self,
      lookupKey_append,
      lookupKey_optEntry_ne (by decide),
      lookupKey_append,
      lookupKey_seqEntry_ne (by decide),
      lookupKey_extOp_none hext (by decide)]
    simp [h1, h2, h3, h4, h5, h6, h7]
  by_cases h9 : k = "bindings"
  · subst h9
    rw [encOpFields,
      lookupKey,
      if_neg (by decide),
      lookupKey_append,
      lookupKey_optEntry_ne (by decide),
      lookupKey_append,
      lookupKey_optEntry_ne (by decide),
      lookupKey_append,
      lookupKey_optEntry_ne (by decide),
      lookupKey_append,
      lookupKey_optEntry_ne (by decide),
      lookupKey_append,
      lookupKey_optEntry_ne (by decide),
      lookupKey_append,
      lookupKey_seqEntry_ne (by decide),
      lookupKey_append,
      lookupKey_optEntry_ne (by decide),
      lookupKey_append,
      lookupKey_optEntry_self,
      lookupKey_append,
      lookupKey_seqEntry_ne (by decide),
      lookupKey_extOp_none hext (by decide)]
    simp [h1, h2, h3, h4, h5, h6, h7, h8]
  by_cases h10 : k = "traits"
  · subst h10
    rw [encOpFields,
      lookupKey,
      if_neg (by decide),
      lookupKey_append,
      lookupKey_optEntry_ne (by decide),
      lookupKey_append,
      lookupKey_optEntry_ne (by decide),
      lookupKey_append,
      lookupKey_optEntry_ne (by decide),
      lookupKey_append,
      lookupKey_optEntry_ne (by decide),
      lookupKey_append,
      lookupKey_optEntry_ne (by decide),
      lookupKey_append,
      lookupKey_seqEntry_ne (by decide),
      lookupKey_append,
      lookupKey_optEntry_ne (by decide),
      lookupKey_append,
      lookupKey_optEntry_ne (by decide),
      lookupKey_append,
      lookupKey_seqEntry_self,
      lookupKey_extOp_none hext (by decide)]
    by_cases he : o.traits.isEmpty <;> simp [h1, h2, h3, h4, h5, h6, h7, h8, h9, he]
  · rw [encOpFields,
      lookupKey,
      if_neg (fun he => h1 he.symm),
      lookupKey_append,
      lookupKey_optEntry_ne h2,
      lookupKey_append,
      lookupKey_optEntry_ne h3,
      lookupKey_append,
      lookupKey_optEntry_ne h4,
      lookupKey_append,
      lookupKey_optEntry_ne h5,
      lookupKey_append,
      lookupKey_optEntry_ne h6,
      lookupKey_append,
      lookupKey_seqEntry_ne h7,
      lookupKey_append,
      lookupKey_optEntry_ne h8,
      lookupKey_append,
      lookupKey_optEntry_ne h9,
      lookupKey_append,
      lookupKey_seqEntry_ne h10]
    simp [h1, h2, h3, h4, h5, h6, h7, h8, h9, h10]

/-! ## Channel document round trip (encode after decode) -/

theorem notNullAt_spec {K : String} {fs : List (String × Json)}
    (h : notNullAt K fs = true) {j : Json} (hj : lookupKey K fs = some j) :
    j ≠ .null := by
  intro he
  subst he
  rw [notNullAt, hj] at h
  exact Bool.false_ne_true h

theorem notEmptyArrAt_spec {K : String} {fs : List (String × Json)}
    (h : notEmptyArrAt K fs = true) {j : Json} (hj : lookupKey K fs = some j) :
    j ≠ .arr [] := by
  intro he
  subst he
  rw [notEmptyArrAt, hj] at h
  exact Bool.false_ne_true h

theorem notEmptyObjAt_spec {K : String} {fs : List (String × Json)}
    (h : notEmptyObjAt K fs = true) {j : Json} (hj : lookupKey K fs = some j) :
    j ≠ .obj [] := by
  intro he
  subst he
  rw [notEmptyObjAt, hj] at h
  exact Bool.false_ne_true h

theorem finChannel_eq_some {acc : ChannelAcc} {c : Channel}
    (h : finChannel acc = some c) :
    ∃ m, acc.messages = some m ∧
      c = { messages := m, address := acc.address.getD none,
            description := acc.description.getD none, servers := acc.servers.getD [],
            parameters := acc.parameters.getD [], bindings := acc.bindings.getD none,
            extensions := acc.extensions, reference := acc.reference.getD none } := by
  rw [finChannel] at h
  cases hm : acc.messages with
  | none =>
      rw [hm] at h
      exact absurd h (by simp)
  | some m =>
      rw [hm] at h
      simp only [Option.some.injEq] at h
      exact ⟨m, rfl, h.symm⟩

theorem encodeChannel_decodeBack {fs : List (String × Json)} {c : Channel}
    (hnk : Json.nk (.obj fs) = true) (hskip : chNoSkipB fs = true)
    (hdec : decodeChannel (.obj fs) = some c) :
    ∀ k, lookupKey k (encChFields c) = lookupKey k fs := by
  rw [chNoSkipB] at hskip
  simp only [Bool.and_eq_true] at hskip
  obtain ⟨⟨⟨⟨⟨sk1, sk2⟩, sk3⟩, sk4⟩, sk5⟩, sk6⟩ := hskip
  rw [decodeChannel, decodeChannelFields] at hdec
  cases hfold : foldFields chStep fs ({} : ChannelAcc) with
  | none =>
      rw [hfold] at hdec
      exact absurd hdec (by simp)
  | some acc =>
  rw [hfold] at hdec
  have hfin : finChannel acc = some c := hdec
  obtain ⟨m, hm, hc⟩ := finChannel_eq_some hfin
  have hndfs : (keysOf fs).Nodup := nk_obj_nodup hnk
  -- extensions characterization
  have hextchar := foldFields_extensions
    (fun acc k j acc₁ h => chStep_ext acc k j acc₁ h) hfold
  have hext_eq : acc.extensions =
      fs.filter (fun kv => !(channelKeys.contains kv.1)) := by
    rw [hextchar]
    simpa using idxOfListFrom_of_fresh
      (fs.filter (fun kv => !(channelKeys.contains kv.1))) []
      (nodup_keys_filter _ hndfs) (by simp [keysOf])
  have hcext : c.extensions = fs.filter (fun kv => !(channelKeys.contains kv.1)) := by
    rw [hc]
    exact hext_eq
  have hext : ∀ kv ∈ c.extensions, kv.1 ∉ channelKeys := by
    intro kv hkv hmem
    rw [hcext] at hkv
    have := (List.mem_filter.mp hkv).2
    rw [Bool.not_eq_true'] at this
    have htrue : channelKeys.contains kv.1 = true := List.elem_iff.mpr hmem
    rw [this] at htrue
    exact Bool.false_ne_true htrue
  -- per-field projections of c
  have hcm : c.messages = m := by rw [hc]
  have hca : c.address = acc.address.getD none := by rw [hc]
  have hcd : c.description = acc.description.getD none := by rw [hc]
  have hcs : c.servers = acc.servers.getD [] := by rw [hc]
  have hcp : c.parameters = acc.parameters.getD [] := by rw [hc]
  have hcb : c.bindings = acc.bindings.getD none := by rw [hc]
  have hcr : c.reference = acc.reference.getD none := by rw [hc]
  intro k
  rw [lookupKey_encChFields c hext k]
  by_cases h1 : k = "messages"
  · subst h1
    rw [if_pos rfl]
    cases hl : lookupKey "messages" fs with
    | none =>
        have hfr := foldFields_frame
          (fun acc k j acc₁ h hk => (chStep_messages acc k j acc₁ h).1 hk)
          hfold (lookupKey_eq_none.mp hl)
        rw [hm] at hfr
        exact absurd hfr (by simp)
    | some j =>
        obtain ⟨v, hv, haccm⟩ := foldFields_lookup
          (fun acc k j acc₁ h hk => (chStep_messages acc k j acc₁ h).1 hk)
          (fun acc j acc₁ h => ((chStep_messages acc _ j acc₁ h).2 rfl).1)
          (fun acc j acc₁ h => ((chStep_messages acc _ j acc₁ h).2 rfl).2)
          hfold rfl hl
        rw [hm] at haccm
        cases haccm
        rw [hcm, decodeChannelMessages_encodeBack hv (nk_obj_val hnk (lookupKey_mem hl))]
  by_cases h2 : k = "address"
  · subst h2
    rw [if_neg (by decide), if_pos rfl]
    cases hl : lookupKey "address" fs with
    | none =>
        have hfr := foldFields_frame
          (fun acc k j acc₁ h hk => (chStep_address acc k j acc₁ h).1 hk)
          hfold (lookupKey_eq_none.mp hl)
        rw [hca, hfr]
        rfl
    | some j =>
        obtain ⟨v, hv, hacca⟩ := foldFields_lookup
          (fun acc k j acc₁ h hk => (chStep_address acc k j acc₁ h).1 hk)
          (fun acc j acc₁ h => ((chStep_address acc _ j acc₁ h).2 rfl).1)
          (fun acc j acc₁ h => ((chStep_address acc _ j acc₁ h).2 rfl).2)
          hfold rfl hl
        cases v with
        | none => exact absurd (decodeOptionWith_eq_some_none hv) (notNullAt_spec sk1 hl)
        | some s =>
            obtain ⟨-, hs⟩ := decodeOptionWith_eq_some_some hv
            rw [hca, hacca, decodeString_eq_some hs]
            rfl
  by_cases h3 : k = "description"
  · subst h3
    rw [if_neg (by decide), if_neg (by decide), if_pos rfl]
    cases hl : lookupKey "description" fs with
    | none =>
        have hfr := foldFields_frame
          (fun acc k j acc₁ h hk => (chStep_description acc k j acc₁ h).1 hk)
          hfold (lookupKey_eq_none.mp hl)
        rw [hcd, hfr]
        rfl
    | some j =>
        obtain ⟨v, hv, hacca⟩ := foldFields_lookup
          (fun acc k j acc₁ h hk => (chStep_description acc k j acc₁ h).1 hk)
          (fun acc j acc₁ h => ((chStep_description acc _ j acc₁ h).2 rfl).1)
          (fun acc j acc₁ h => ((chStep_description acc _ j acc₁ h).2 rfl).2)
          hfold rfl hl
        cases v with
        | none => exact absurd (decodeOptionWith_eq_some_none hv) (notNullAt_spec sk2 hl)
        | some s =>
            obtain ⟨-, hs⟩ := decodeOptionWith_eq_some_some hv
            rw [hcd, hacca, decodeString_eq_some hs]
            rfl
  by_cases h4 : k = "servers"
  · subst h4
    rw [if_neg (by decide), if_neg (by decide), if_neg (by decide), if_pos rfl]
    cases hl : lookupKey "servers" fs with
    | none =>
        have hfr := foldFields_frame
          (fun acc k j acc₁ h hk => (chStep_servers acc k j acc₁ h).1 hk)
          hfold (lookupKey_eq_none.mp hl)
        rw [hcs, hfr]
        rfl
    | some j =>
        obtain ⟨v, hv, hacca⟩ := foldFields_lookup
          (fun acc k j acc₁ h hk => (chStep_servers acc k j acc₁ h).1 hk)
          (fun acc j acc₁ h => ((chStep_servers acc _ j acc₁ h).2 rfl).1)
          (fun acc j acc₁ h => ((chStep_servers acc _ j acc₁ h).2 rfl).2)
          hfold rfl hl
        have hj := decodeStringList_encodeBack hv
        have hvne : ¬ v.isEmpty := by
          intro he
          rw [List.isEmpty_iff] at he
          subst he
          exact notEmptyArrAt_spec sk3 hl (by rw [hj]; rfl)
        rw [hcs, hacca]
        simp only [Option.getD_some]
        rw [if_neg hvne, hj]
  by_cases h5 : k = "parameters"
  · subst h5
    rw [if_neg (by decide), if_neg (by decide), if_neg (by decide), if_neg (by decide),
      if_pos rfl]
    cases hl : lookupKey "parameters" fs with
    | none =>
        have hfr := foldFields_frame
          (fun acc k j acc₁ h hk => (chStep_parameters acc k j acc₁ h).1 hk)
          hfold (lookupKey_eq_none.mp hl)
        rw [hcp, hfr]
        rfl
    | some j =>
        obtain ⟨v, hv, hacca⟩ := foldFields_lookup
          (fun acc k j acc₁ h hk => (chStep_parameters acc k j acc₁ h).1 hk)
          (fun acc j acc₁ h => ((chStep_parameters acc _ j acc₁ h).2 rfl).1)
          (fun acc j acc₁ h => ((chStep_parameters acc _ j acc₁ h).2 rfl).2)
          hfold rfl hl
        have hj := decodeParameters_encodeBack hv (nk_obj_val hnk (lookupKey_mem hl))
        have hvne : ¬ v.isEmpty := by
          intro he
          rw [List.isEmpty_iff] at he
          subst he
          exact notEmptyObjAt_spec sk4 hl (by rw [← hj]; rfl)
        rw [hcp, hacca]
        simp only [Option.getD_some]
        rw [if_neg hvne, hj]
  by_cases h6 : k = "bindings"
  · subst h6
    rw [if_neg (by decide), if_neg (by decide), if_neg (by decide), if_neg (by decide),
      if_neg (by decide), if_pos rfl]
    cases hl : lookupKey "bindings" fs with
    | none =>
        have hfr := foldFields_frame
          (fun acc k j acc₁ h hk => (chStep_bindings acc k j acc₁ h).1 hk)
          hfold (lookupKey_eq_none.mp hl)
        rw [hcb, hfr]
        rfl
    | some j =>
        obtain ⟨v, hv, hacca⟩ := foldFields_lookup
          (fun acc k j acc₁ h hk => (chStep_bindings acc k j acc₁ h).1 hk)
          (fun acc j acc₁ h => ((chStep_bindings acc _ j acc₁ h).2 rfl).1)
          (fun acc j acc₁ h => ((chStep_bindings acc _ j acc₁ h).2 rfl).2)
          hfold rfl hl
        cases v with
        | none => exact absurd (decodeOptionWith_eq_some_none hv) (notNullAt_spec sk5 hl)
        | some r =>
            obtain ⟨-, hr⟩ := decodeOptionWith_eq_some_some hv
            rw [hcb, hacca]
            simp only [Option.getD_some, Option.map_some']
            rw [decodeRefOrChannelBinding_encodeBack hr
              (nk_obj_val hnk (lookupKey_mem hl))]
  by_cases h7 : k = "$ref"
  · subst h7
    rw [if_neg (by decide), if_neg (by decide), if_neg (by decide), if_neg (by decide),
      if_neg (by decide), if_neg (by decide), if_pos rfl]
    cases hl : lookupKey "$ref" fs with
    | none =>
        have hfr := foldFields_frame
          (fun acc k j acc₁ h hk => (chStep_reference acc k j acc₁ h).1 hk)
          hfold (lookupKey_eq_none.mp hl)
        rw [hcr, hfr]
        rfl
    | some j =>
        obtain ⟨v, hv, hacca⟩ := foldFields_lookup
          (fun acc k j acc₁ h hk => (chStep_reference acc k j acc₁ h).1 hk)
          (fun acc j acc₁ h => ((chStep_reference acc _ j acc₁ h).2 rfl).1)
          (fun acc j acc₁ h => ((chStep_reference acc _ j acc₁ h).2 rfl).2)
          hfold rfl hl
        cases v with
        | none => exact absurd (decodeOptionWith_eq_some_none hv) (notNullAt_spec sk6 hl)
        | some s =>
            obtain ⟨-, hs⟩ := decodeOptionWith_eq_some_some hv
            rw [hcr, hacca, decodeString_eq_some hs]
            rfl
  · rw [if_neg h1, if_neg h2, if_neg h3, if_neg h4, if_neg h5, if_neg h6, if_neg h7]
    rw [hcext]
    have hp : ∀ v : Json, (fun kv : String × Json => !(channelKeys.contains kv.1)) (k, v)
        = true := by
      intro v
      simp only [Bool.not_eq_true']
      rw [← Bool.not_eq_true]
      intro hcc
      have hmemk : k ∈ channelKeys := List.elem_iff.mp hcc
      simp only [channelKeys, List.mem_cons, List.mem_singleton] at hmemk
      rcases hmemk with h | h | h | h | h | h | h
      · exact h1 h
      · exact h2 h
      · exact h3 h
      · exact h4 h
      · exact h5 h
      · exact h6 h
      · rcases h with h | h
        · exact h7 h
        · simp at h
    exact lookupKey_filter_of_key _ k hp fs

/-! ## Operation document round trip (encode after decode) -/

theorem decodeListWith_encodeBack {f : Json → Option α} {g : α → Json} {j : Json}
    {l : List α} (h : decodeListWith f j = some l) (hnk : Json.nk j = true)
    (hval : ∀ x : Json, Json.nk x = true → ∀ v, f x = some v → g v = x) :
    Json.arr (l.map g) = j := by
  rcases decodeListWith_eq_some h with ⟨xs, rfl, hx⟩
  rw [decodeElems_encodeBack f g xs l
    (fun x hxm v hv => hval x (nk_arr_mem hnk hxm) v hv) hx]

theorem finOperation_eq_some {acc : OperationAcc} {o : Operation}
    (h : finOperation acc = some o) :
    ∃ a, acc.action = some a ∧
      o = { action := a, channel := acc.channel.getD none,
            messages := acc.messages.getD none,
            operation_id := acc.operation_id.getD none,
            summary := acc.summary.getD none,
            description := acc.description.getD none,
            tags := acc.tags.getD [],
            external_docs := acc.external_docs.getD none,
            bindings := acc.bindings.getD none,
            traits := acc.traits.getD [],
            extensions := acc.extensions } := by
  rw [finOperation] at h
  cases ha : acc.action with
  | none =>
      rw [ha] at h
      exact absurd h (by simp)
  | some a =>
      rw [ha] at h
      simp only [Option.some.injEq] at h
      exact ⟨a, rfl, h.symm⟩

theorem encodeOperation_decodeBack {fs : List (String × Json)} {o : Operation}
    (hnk : Json.nk (.obj fs) = true) (hskip : opNoSkipB fs = true)
    (hdec : decodeOperation (.obj fs) = some o) :
    ∀ k, lookupKey k (encOpFields o) = lookupKey k fs := by
  rw [opNoSkipB] at hskip
  simp only [Bool.and_eq_true] at hskip
  obtain ⟨⟨⟨⟨⟨⟨⟨⟨sk1, sk2⟩, sk3⟩, sk4⟩, sk5⟩, sk6⟩, sk7⟩, sk8⟩, sk9⟩ := hskip
  rw [decodeOperation, decodeOperationFields] at hdec
  cases hfold : foldFields opStep fs ({} : OperationAcc) with
  | none =>
      rw [hfold] at hdec
      exact absurd hdec (by simp)
  | some acc =>
  rw [hfold] at hdec
  have hfin : finOperation acc = some o := hdec
  obtain ⟨a, ha, ho⟩ := finOperation_eq_some hfin
  have hndfs : (keysOf fs).Nodup := nk_obj_nodup hnk
  have hextchar := foldFields_extensions
    (fun acc k j acc₁ h => opStep_ext acc k j acc₁ h) hfold
  have hext_eq : acc.extensions =
      fs.filter (fun kv => !(operationKeys.contains kv.1)) := by
    rw [hextchar]
    simpa using idxOfListFrom_of_fresh
      (fs.filter (fun kv => !(operationKeys.contains kv.1))) []
      (nodup_keys_filter _ hndfs) (by simp [keysOf])
  have hoext : o.extensions = fs.filter (fun kv => !(operationKeys.contains kv.1)) := by
    rw [ho]
    exact hext_eq
  have hext : ∀ kv ∈ o.extensions, kv.1 ∉ operationKeys := by
    intro kv hkv hmem
    rw [hoext] at hkv
    have hfe := (List.mem_filter.mp hkv).2
    rw [Bool.not_eq_true'] at hfe
    have htrue : operationKeys.contains kv.1 = true := List.elem_iff.mpr hmem
    rw [hfe] at htrue
    exact Bool.false_ne_true htrue
  have hoa : o.action = a := by rw [ho]
  have ho_channel : o.channel = acc.channel.getD none := by rw [ho]
  have ho_messages : o.messages = acc.messages.getD none := by rw [ho]
  have ho_operation_id : o.operation_id = acc.operation_id.getD none := by rw [ho]
  have ho_summary : o.summary = acc.summary.getD none := by rw [ho]
  have ho_description : o.description = acc.description.getD none := by rw [ho]
  have ho_tags : o.tags = acc.tags.getD [] := by rw [ho]
  have ho_external_docs : o.external_docs = acc.external_docs.getD none := by rw [ho]
  have ho_bindings : o.bindings = acc.bindings.getD none := by rw [ho]
  have ho_traits : o.traits = acc.traits.getD [] := by rw [ho]
  intro k
  rw [lookupKey_encOpFields o hext k]
  by_cases h1 : k = "action"
  · subst h1
    rw [if_pos rfl]
    cases hl : lookupKey "action" fs with
    | none =>
        have hfr := foldFields_frame
          (fun acc k j acc₁ h hk => (opStep_action acc k j acc₁ h).1 hk)
          hfold (lookupKey_eq_none.mp hl)
        rw [ha] at hfr
        exact absurd hfr (by simp)
    | some j =>
        obtain ⟨v, hv, hacca⟩ := foldFields_lookup
          (fun acc k j acc₁ h hk => (opStep_action acc k j acc₁ h).1 hk)
          (fun acc j acc₁ h => ((opStep_action acc _ j acc₁ h).2 rfl).1)
          (fun acc j acc₁ h => ((opStep_action acc _ j acc₁ h).2 rfl).2)
          hfold rfl hl
        rw [ha] at hacca
        cases hacca
        rw [hoa, decodeActionType_encodeBack hv]
  by_cases h2 : k = "channel"
  · subst h2
    rw [if_neg (by decide), if_pos rfl]
    cases hl : lookupKey "channel" fs with
    | none =>
        have hfr := foldFields_frame
          (fun acc k j acc₁ h hk => (opStep_channel acc k j acc₁ h).1 hk)
          hfold (lookupKey_eq_none.mp hl)
        rw [ho_channel, hfr]
        rfl
    | some j =>
        obtain ⟨v, hv, hacca⟩ := foldFields_lookup
          (fun acc k j acc₁ h hk => (opStep_channel acc k j acc₁ h).1 hk)
          (fun acc j acc₁ h => ((opStep_channel acc _ j acc₁ h).2 rfl).1)
          (fun acc j acc₁ h => ((opStep_channel acc _ j acc₁ h).2 rfl).2)
          hfold rfl hl
        cases v with
        | none => exact absurd (decodeOptionWith_eq_some_none hv) (notNullAt_spec sk1 hl)
        | some t =>
            obtain ⟨-, ht⟩ := decodeOptionWith_eq_some_some hv
            have ht2 : operations.decodeOperationChannelType j = t := Option.some.inj ht
            rw [ho_channel, hacca]
            simp only [Option.getD_some, Option.map_some']
            rw [← ht2,
              decodeOperationChannelType_encodeBack (nk_obj_val hnk (lookupKey_mem hl))]
  by_cases h3 : k = "messages"
  · subst h3
    rw [if_neg (by decide), if_neg (by decide), if_pos rfl]
    cases hl : lookupKey "messages" fs with
    | none =>
        have hfr := foldFields_frame
          (fun acc k j acc₁ h hk => (opStep_messages acc k j acc₁ h).1 hk)
          hfold (lookupKey_eq_none.mp hl)
        rw [ho_messages, hfr]
        rfl
    | some j =>
        obtain ⟨v, hv, hacca⟩ := foldFields_lookup
          (fun acc k j acc₁ h hk => (opStep_messages acc k j acc₁ h).1 hk)
          (fun acc j acc₁ h => ((opStep_messages acc _ j acc₁ h).2 rfl).1)
          (fun acc j acc₁ h => ((opStep_messages acc _ j acc₁ h).2 rfl).2)
          hfold rfl hl
        rw [decodeOpMessages] at hv
        cases v with
        | none => exact absurd (decodeOptionWith_eq_some_none hv) (notNullAt_spec sk2 hl)
        | some l =>
            obtain ⟨-, hlst⟩ := decodeOptionWith_eq_some_some hv
            rw [ho_messages, hacca]
            simp only [Option.getD_some, Option.map_some']
            rw [decodeListWith_encodeBack hlst (nk_obj_val hnk (lookupKey_mem hl))
              (fun x hnkx v hvv => by
                rw [← Option.some.inj hvv,
                  decodeOperationMessageTypeOps_encodeBack hnkx])]
  by_cases h4 : k = "operationId"
  · subst h4
    rw [if_neg (by decide), if_neg (by decide), if_neg (by decide), if_pos rfl]
    cases hl : lookupKey "operationId" fs with
    | none =>
        have hfr := foldFields_frame
          (fun acc k j acc₁ h hk => (opStep_operation_id acc k j acc₁ h).1 hk)
          hfold (lookupKey_eq_none.mp hl)
        rw [ho_operation_id, hfr]
        rfl
    | some j =>
        obtain ⟨v, hv, hacca⟩ := foldFields_lookup
          (fun acc k j acc₁ h hk => (opStep_operation_id acc k j acc₁ h).1 hk)
          (fun acc j acc₁ h => ((opStep_operation_id acc _ j acc₁ h).2 rfl).1)
          (fun acc j acc₁ h => ((opStep_operation_id acc _ j acc₁ h).2 rfl).2)
          hfold rfl hl
        cases v with
        | none => exact absurd (decodeOptionWith_eq_some_none hv) (notNullAt_spec sk3 hl)
        | some s =>
            obtain ⟨-, hs⟩ := decodeOptionWith_eq_some_some hv
            rw [ho_operation_id, hacca, decodeString_eq_some hs]
            rfl
  by_cases h5 : k = "summary"
  · subst h5
    rw [if_neg (by decide), if_neg (by decide), if_neg (by decide), if_neg (by decide), if_pos rfl]
    cases hl : lookupKey "summary" fs with
    | none =>
        have hfr := foldFields_frame
          (fun acc k j acc₁ h hk => (opStep_summary acc k j acc₁ h).1 hk)
          hfold (lookupKey_eq_none.mp hl)
        rw [ho_summary, hfr]
        rfl
    | some j =>
        obtain ⟨v, hv, hacca⟩ := foldFields_lookup
          (fun acc k j acc₁ h hk => (opStep_summary acc k j acc₁ h).1 hk)
          (fun acc j acc₁ h => ((opStep_summary acc _ j acc₁ h).2 rfl).1)
          (fun acc j acc₁ h => ((opStep_summary acc _ j acc₁ h).2 rfl).2)
          hfold rfl hl
        cases v with
        | none => exact absurd (decodeOptionWith_eq_some_none hv) (notNullAt_spec sk4 hl)
        | some s =>
            obtain ⟨-, hs⟩ := decodeOptionWith_eq_some_some hv
            rw [ho_summary, hacca, decodeString_eq_some hs]
            rfl
  by_cases h6 : k = "description"
  · subst h6
    rw [if_neg (by decide), if_neg (by decide), if_neg (by decide), if_neg (by decide), if_neg (by decide), if_pos rfl]
    cases hl : lookupKey "description" fs with
    | none =>
        have hfr := foldFields_frame
          (fun acc k j acc₁ h hk => (opStep_description acc k j acc₁ h).1 hk)
          hfold (lookupKey_eq_none.mp hl)
        rw [ho_description, hfr]
        rfl
    | some j =>
        obtain ⟨v, hv, hacca⟩ := foldFields_lookup
          (fun acc k j acc₁ h hk => (opStep_description acc k j acc₁ h).1 hk)
          (fun acc j acc₁ h => ((opStep_description acc _ j acc₁ h).2 rfl).1)
          (fun acc j acc₁ h => ((opStep_description acc _ j acc₁ h).2 rfl).2)
          hfold rfl hl
        cases v with
        | none => exact absurd (decodeOptionWith_eq_some_none hv) (notNullAt_spec sk5 hl)
        | some s =>
            obtain ⟨-, hs⟩ := decodeOptionWith_eq_some_some hv
            rw [ho_description, hacca, decodeString_eq_some hs]
            rfl
  by_cases h7 : k = "tags"
  · subst h7
    rw [if_neg (by decide), if_neg (by decide), if_neg (by decide), if_neg (by decide), if_neg (by decide), if_neg (by decide), if_pos rfl]
    cases hl : lookupKey "tags" fs with
    | none =>
        have hfr := foldFields_frame
          (fun acc k j acc₁ h hk => (opStep_tags acc k j acc₁ h).1 hk)
          hfold (lookupKey_eq_none.mp hl)
        rw [ho_tags, hfr]
        rfl
    | some j =>
        obtain ⟨v, hv, hacca⟩ := foldFields_lookup
          (fun acc k j acc₁ h hk => (opStep_tags acc k j acc₁ h).1 hk)
          (fun acc j acc₁ h => ((opStep_tags acc _ j acc₁ h).2 rfl).1)
          (fun acc j acc₁ h => ((opStep_tags acc _ j acc₁ h).2 rfl).2)
          hfold rfl hl
        have hj := decodeListWith_encodeBack hv (nk_obj_val hnk (lookupKey_mem hl))
          (fun x hnkx v hvv => decodeTag_encodeBack hvv hnkx)
        have hvne : ¬ v.isEmpty := by
          intro he
          rw [List.isEmpty_iff] at he
          subst he
          exact notEmptyArrAt_spec sk6 hl (by rw [← hj]; rfl)
        rw [ho_tags, hacca]
        simp only [Option.getD_some]
        rw [if_neg hvne, hj]
  by_cases h8 : k = "externalDocs"
  · subst h8
    rw [if_neg (by decide), if_neg (by decide), if_neg (by decide), if_neg (by decide), if_neg (by decide), if_neg (by decide), if_neg (by decide), if_pos rfl]
    cases hl : lookupKey "externalDocs" fs with
    | none =>
        have hfr := foldFields_frame
          (fun acc k j acc₁ h hk => (opStep_external_docs acc k j acc₁ h).1 hk)
          hfold (lookupKey_eq_none.mp hl)
        rw [ho_external_docs, hfr]
        rfl
    | some j =>
        obtain ⟨v, hv, hacca⟩ := foldFields_lookup
          (fun acc k j acc₁ h hk => (opStep_external_docs acc k j acc₁ h).1 hk)
          (fun acc j acc₁ h => ((opStep_external_docs acc _ j acc₁ h).2 rfl).1)
          (fun acc j acc₁ h => ((opStep_external_docs acc _ j acc₁ h).2 rfl).2)
          hfold rfl hl
        cases v with
        | none => exact absurd (decodeOptionWith_eq_some_none hv) (notNullAt_spec sk7 hl)
        | some d =>
            obtain ⟨-, hd⟩ := decodeOptionWith_eq_some_some hv
            rw [ho_external_docs, hacca]
            simp only [Option.getD_some, Option.map_some']
            rw [decodeExternalDocumentation_encodeBack hd
              (nk_obj_val hnk (lookupKey_mem hl))]
  by_cases h9 : k = "bindings"
  · subst h9
    rw [if_neg (by decide), if_neg (by decide), if_neg (by decide), if_neg (by decide), if_neg (by decide), if_neg (by decide), if_neg (by decide), if_neg (by decide), if_pos rfl]
    cases hl : lookupKey "bindings" fs with
    | none =>
        have hfr := foldFields_frame
          (fun acc k j acc₁ h hk => (opStep_bindings acc k j acc₁ h).1 hk)
          hfold (lookupKey_eq_none.mp hl)
        rw [ho_bindings, hfr]
        rfl
    | some j =>
        obtain ⟨v, hv, hacca⟩ := foldFields_lookup
          (fun acc k j acc₁ h hk => (opStep_bindings acc k j acc₁ h).1 hk)
          (fun acc j acc₁ h => ((opStep_bindings acc _ j acc₁ h).2 rfl).1)
          (fun acc j acc₁ h => ((opStep_bindings acc _ j acc₁ h).2 rfl).2)
          hfold rfl hl
        cases v with
        | none => exact absurd (decodeOptionWith_eq_some_none hv) (notNullAt_spec sk8 hl)
        | some r =>
            obtain ⟨-, hr⟩ := decodeOptionWith_eq_some_some hv
            rw [ho_bindings, hacca]
            simp only [Option.getD_some, Option.map_some']
            rw [decodeRefOrOperationBinding_encodeBack hr
              (nk_obj_val hnk (lookupKey_mem hl))]
  by_cases h10 : k = "traits"
  · subst h10
    rw [if_neg (by decide), if_neg (by decide), if_neg (by decide), if_neg (by decide), if_neg (by decide), if_neg (by decide), if_neg (by decide), if_neg (by decide), if_neg (by decide), if_pos rfl]
    cases hl : lookupKey "traits" fs with
    | none =>
        have hfr := foldFields_frame
          (fun acc k j acc₁ h hk => (opStep_traits acc k j acc₁ h).1 hk)
          hfold (lookupKey_eq_none.mp hl)
        rw [ho_traits, hfr]
        rfl
    | some j =>
        obtain ⟨v, hv, hacca⟩ := foldFields_lookup
          (fun acc k j acc₁ h hk => (opStep_traits acc k j acc₁ h).1 hk)
          (fun acc j acc₁ h => ((opStep_traits acc _ j acc₁ h).2 rfl).1)
          (fun acc j acc₁ h => ((opStep_traits acc _ j acc₁ h).2 rfl).2)
          hfold rfl hl
        have hj := decodeListWith_encodeBack hv (nk_obj_val hnk (lookupKey_mem hl))
          (fun x hnkx v hvv => decodeRefOrOperationTrait_encodeBack hvv hnkx)
        have hvne : ¬ v.isEmpty := by
          intro he
          rw [List.isEmpty_iff] at he
          subst he
          exact notEmptyArrAt_spec sk9 hl (by rw [← hj]; rfl)
        rw [ho_traits, hacca]
        simp only [Option.getD_some]
        rw [if_neg hvne, hj]
  · rw [if_neg h1, if_neg h2, if_neg h3, if_neg h4, if_neg h5, if_neg h6, if_neg h7,
      if_neg h8, if_neg h9, if_neg h10]
    rw [hoext]
    have hp : ∀ v : Json, (fun kv : String × Json => !(operationKeys.contains kv.1)) (k, v)
        = true := by
      intro v
      simp only [Bool.not_eq_true']
      rw [← Bool.not_eq_true]
      intro hcc
      have hmemk : k ∈ operationKeys := List.elem_iff.mp hcc
      simp only [operationKeys, List.mem_cons, List.mem_singleton] at hmemk
      rcases hmemk with h | h | h | h | h | h | h | h | h | h
      · exact h1 h
      · exact h2 h
      · exact h3 h
      · exact h4 h
      · exact h5 h
      · exact h6 h
      · exact h7 h
      · exact h8 h
      · exact h9 h
      · rcases h with h | h
        · exact h10 h
        · simp at h
    exact lookupKey_filter_of_key _ k hp fs

/-! ## Claims -/

/-- Claim C1 counterexample: the round trip is not unrestricted.  The
channel value whose extension bag holds the declared field name
`"address"` (with value `null`) encodes to a document from which decoding
returns a different value (the bag entry is rerouted into the declared
field, where `null` means absent); moreover that document itself decodes
successfully but its re-encoding drops the `"address"` key the document
contains, so the second direction fails on the same input. -/
theorem claim_C1_counterexample :
    decodeChannel (encodeChannel { messages := [], extensions := [("address", Json.null)] }) ≠
      some { messages := [], extensions := [("address", Json.null)] } ∧
    decodeChannel (encodeChannel { messages := [], extensions := [("address", Json.null)] }) =
      some { messages := [] } ∧
    lookupKey "address"
      (encChFields { messages := [], extensions := [("address", Json.null)] }) =
      some Json.null ∧
    lookupKey "address" (encChFields { messages := [] }) = none := by
  decide

/-- Claim C1 (amended): for `Channel` and `Operation`,
decode after encode is the identity on every well-formed value — maps and
extension bags with pairwise-distinct keys, extension keys disjoint from
the declared field names, and shape-discriminated variants whose encoded
form re-selects the same variant — and encode after decode reproduces the
document's semantic content, i.e. the same key set with equal values
(member order aside, stated as equal lookups at every key), for every
document object that decodes successfully, has duplicate-free object keys
throughout, and contains no field whose decoded value the serializer
skips (an explicitly `null` optional field, or an explicitly empty
defaulted collection). -/
theorem claim_C1 :
    (∀ c : Channel, channelWFB c = true → decodeChannel (encodeChannel c) = some c) ∧
    (∀ o : Operation, operationWFB o = true →
      decodeOperation (encodeOperation o) = some o) ∧
    (∀ (fs : List (String × Json)) (c : Channel),
      Json.nk (.obj fs) = true → chNoSkipB fs = true →
      decodeChannel (.obj fs) = some c →
      ∀ k, lookupKey k (encChFields c) = lookupKey k fs) ∧
    (∀ (fs : List (String × Json)) (o : Operation),
      Json.nk (.obj fs) = true → opNoSkipB fs = true →
      decodeOperation (.obj fs) = some o →
      ∀ k, lookupKey k (encOpFields o) = lookupKey k fs) :=
  ⟨fun _ h => decodeChannel_encode h,
   fun _ h => decodeOperation_encode h,
   fun _ _ h1 h2 h3 => encodeChannel_decodeBack h1 h2 h3,
   fun _ _ h1 h2 h3 => encodeOperation_decodeBack h1 h2 h3⟩

/-- Claim C1 witness: the four parts applied to concrete well-formed
values and documents. -/
theorem claim_C1_witness :
    decodeChannel (encodeChannel
        { messages := [("a", none)], extensions := [("x-a", Json.num 1)] }) =
      some { messages := [("a", none)], extensions := [("x-a", Json.num 1)] } ∧
    decodeOperation (encodeOperation
        { action := .Send, extensions := [("x-t", Json.str "p")] }) =
      some { action := .Send, extensions := [("x-t", Json.str "p")] } ∧
    lookupKey "x-a" (encChFields { messages := [], extensions := [("x-a", Json.num 2)] }) =
      lookupKey "x-a" [("messages", Json.obj []), ("x-a", Json.num 2)] ∧
    lookupKey "action"
        (encOpFields { action := .Send, extensions := [("x-b", Json.bool true)] }) =
      lookupKey "action" [("action", Json.str "send"), ("x-b", Json.bool true)] :=
  ⟨claim_C1.1 { messages := [("a", none)], extensions := [("x-a", Json.num 1)] } (by decide),
   claim_C1.2.1 { action := .Send, extensions := [("x-t", Json.str "p")] } (by decide),
   claim_C1.2.2.1 [("messages", Json.obj []), ("x-a", Json.num 2)]
     { messages := [], extensions := [("x-a", Json.num 2)] }
     (by decide) (by decide) (by decide) "x-a",
   claim_C1.2.2.2 [("action", Json.str "send"), ("x-b", Json.bool true)]
     { action := .Send, extensions := [("x-b", Json.bool true)] }
     (by decide) (by decide) (by decide) "action"⟩

/-- Claim C2: for both extension-bag entities, decoding a document with
the known fields plus any field whose key matches no declared field name
succeeds and stores that field in the extension bag, and re-encoding
emits it flattened into the same object, with its original value,
alongside the declared fields. -/
theorem claim_C2 :
    (∀ (k : String) (v : Json), k ∉ channelKeys →
      decodeChannel (.obj [("messages", .obj []), (k, v)]) =
        some { messages := [], extensions := [(k, v)] } ∧
      lookupKey k (encChFields { messages := [], extensions := [(k, v)] }) = some v ∧
      lookupKey "messages" (encChFields { messages := [], extensions := [(k, v)] }) =
        some (.obj [])) ∧
    (∀ (k : String) (v : Json), k ∉ operationKeys →
      decodeOperation (.obj [("action", .str "receive"), (k, v)]) =
        some { action := .Receive, extensions := [(k, v)] } ∧
      lookupKey k (encOpFields { action := .Receive, extensions := [(k, v)] }) = some v ∧
      lookupKey "action" (encOpFields { action := .Receive, extensions := [(k, v)] }) =
        some (.str "receive")) := by
  constructor
  · intro k v hk
    have hk7 := hk
    simp only [channelKeys, List.mem_cons, List.mem_singleton, not_or] at hk7
    obtain ⟨n1, n2, n3, n4, n5, n6, n7⟩ := hk7
    refine ⟨?_, ?_, ?_⟩
    · rw [decodeChannel, decodeChannelFields]
      have h0 : chStep {} "messages" (.obj []) = some { messages := some [] } :=
        chStep_set_messages {} _ rfl rfl
      rw [foldFields_cons_some _ h0]
      have h1 : chStep
          { messages := some ([] : List (String × Option OperationMessageType)) } k v =
          some { messages := some [], extensions := [(k, v)] } := by
        rw [chStep, if_neg n1, if_neg n2, if_neg n3, if_neg n4, if_neg n5, if_neg n6,
          if_neg (by simpa using n7)]
        rfl
      rw [foldFields_cons_some _ h1, foldFields]
      rfl
    · rw [encChFields, lookupKey, if_neg (fun he => n1 he.symm), lookupKey_append,
        lookupKey_optEntry_ne n2, lookupKey_append, lookupKey_optEntry_ne n3,
        lookupKey_append, lookupKey_seqEntry_ne n4, lookupKey_append,
        lookupKey_seqEntry_ne n5, lookupKey_append, lookupKey_optEntry_ne n6]
      simp [lookupKey, optEntry]
    · rw [encChFields, lookupKey, if_pos rfl]
      rfl
  · intro k v hk
    have hk10 := hk
    simp only [operationKeys, List.mem_cons, List.mem_singleton, not_or] at hk10
    obtain ⟨n1, n2, n3, n4, n5, n6, n7, n8, n9, n10⟩ := hk10
    refine ⟨?_, ?_, ?_⟩
    · rw [decodeOperation, decodeOperationFields]
      have h0 : opStep {} "action" (.str "receive") =
          some { action := some ActionType.Receive } := by
        rw [opStep, if_pos rfl,
          setSlot_none (show decodeActionType (.str "receive") =
            some ActionType.Receive from rfl)]
      rw [foldFields_cons_some _ h0]
      have h1 : opStep { action := some ActionType.Receive } k v =
          some { action := some ActionType.Receive, extensions := [(k, v)] } := by
        rw [opStep, if_neg n1, if_neg n2, if_neg n3, if_neg n4, if_neg n5, if_neg n6,
          if_neg n7, if_neg n8, if_neg n9, if_neg (by simpa using n10)]
        rfl
      rw [foldFields_cons_some _ h1, foldFields]
      rfl
    · rw [encOpFields, lookupKey, if_neg (fun he => n1 he.symm), lookupKey_append,
        lookupKey_optEntry_ne n2, lookupKey_append, lookupKey_optEntry_ne n3,
        lookupKey_append, lookupKey_optEntry_ne n4, lookupKey_append,
        lookupKey_optEntry_ne n5, lookupKey_append, lookupKey_optEntry_ne n6,
        lookupKey_append, lookupKey_seqEntry_ne n7, lookupKey_append,
        lookupKey_optEntry_ne n8, lookupKey_append, lookupKey_optEntry_ne n9,
        lookupKey_append, lookupKey_seqEntry_ne n10.1]
      simp [lookupKey]
    · rw [encOpFields, lookupKey, if_pos rfl]
      rfl

/-- Claim C2 witness: the concrete unrecognized key `x-custom` with a
string value, on both entities. -/
theorem claim_C2_witness :
    decodeChannel (.obj [("messages", .obj []), ("x-custom", .str "v")]) =
      some { messages := [], extensions := [("x-custom", .str "v")] } ∧
    lookupKey "x-custom"
      (encChFields { messages := [], extensions := [("x-custom", .str "v")] }) =
      some (.str "v") ∧
    decodeOperation (.obj [("action", .str "receive"), ("x-custom", .str "v")]) =
      some { action := .Receive, extensions := [("x-custom", .str "v")] } :=
  ⟨(claim_C2.1 "x-custom" (.str "v") (by decide)).1,
   (claim_C2.1 "x-custom" (.str "v") (by decide)).2.1,
   (claim_C2.2 "x-custom" (.str "v") (by decide)).1⟩

/-- Claim C3 counterexample: decoding an operation document without an
`action` key does not succeed — it is a missing-field error, and in
particular does not produce the default-action operation. -/
theorem claim_C3_counterexample :
    decodeOperation (.obj []) = none ∧
    decodeOperation (.obj []) ≠ some { action := ActionType.default } := by
  decide

/-- Claim C3 (amended): decoding an operation document in which the
`action` key is absent fails with a missing-field error — the field is
required, carrying no serde default attribute; the `Default` impl of
`ActionType` (whose value is `Receive`) plays no part in
deserialization. -/
theorem claim_C3 :
    (∀ fs : List (String × Json), "action" ∉ keysOf fs →
      decodeOperation (.obj fs) = none) ∧
    ActionType.default = ActionType.Receive := by
  constructor
  · intro fs hk
    rw [decodeOperation, decodeOperationFields]
    cases hfold : foldFields opStep fs ({} : OperationAcc) with
    | none => rfl
    | some acc =>
        have hfr := foldFields_frame
          (fun acc k j acc₁ h hkk => (opStep_action acc k j acc₁ h).1 hkk) hfold hk
        have hnone : acc.action = none := hfr
        show finOperation acc = none
        rw [finOperation, hnone]
  · rfl

/-- Claim C3 witness: a concrete operation document with no `action` key
(but another valid declared field) fails to decode. -/
theorem claim_C3_witness :
    decodeOperation (.obj [("summary", Json.str "s")]) = none ∧
    ActionType.default = ActionType.Receive :=
  ⟨claim_C3.1 [("summary", Json.str "s")] (by decide), claim_C3.2⟩

/-- Claim C4: the operation document with `action: "send"` and the
unrecognized field `x-team: "payments"` decodes successfully, yields
`ActionType.Send`, and its re-encoding contains `x-team: "payments"`. -/
theorem claim_C4 :
    decodeOperation (.obj [("action", .str "send"), ("x-team", .str "payments")]) =
      some { action := .Send, extensions := [("x-team", .str "payments")] } ∧
    lookupKey "x-team"
      (encOpFields { action := .Send, extensions := [("x-team", .str "payments")] }) =
      some (.str "payments") := by
  decide

/-- Claim C5: a channel document whose `messages` value for a name is the
mapping shape with one `$ref`-valued entry decodes to the `Map` variant,
and re-encoding reproduces the document exactly — the mapping shape and
the reference string are preserved. -/
theorem claim_C5 :
    decodeChannel (.obj [("messages",
        .obj [("n", .obj [("a", .obj [("$ref", .str "#/components/messages/a")])])])]) =
      some { messages :=
        [("n", some (.Map [("a", .Reference "#/components/messages/a")]))] } ∧
    encodeChannel { messages :=
        [("n", some (.Map [("a", .Reference "#/components/messages/a")]))] } =
      .obj [("messages",
        .obj [("n", .obj [("a", .obj [("$ref", .str "#/components/messages/a")])])])] := by
  decide

/-- Claim C6: the untagged `OperationMessageType` deserializer tries the
`Map` variant before `Single`: whenever a value parses under both
candidate shapes the `Map` variant is produced, and failure of both
shape-matchers is the only error path. -/
theorem claim_C6 :
    (∀ (j : Json) (m : List (String × ReferenceOr Message)) (r : ReferenceOr Message),
      decodeIndexMap decodeRefOrMessage j = some m →
      decodeRefOrMessage j = some r →
      decodeOperationMessageType j = some (.Map m)) ∧
    (∀ j : Json, decodeOperationMessageType j = none ↔
      (decodeIndexMap decodeRefOrMessage j = none ∧ decodeRefOrMessage j = none)) := by
  constructor
  · intro j m r hm _
    rw [decodeOperationMessageType, hm]
  · intro j
    cases hm : decodeIndexMap decodeRefOrMessage j with
    | some m =>
        rw [decodeOperationMessageType, hm]
        simp [hm]
    | none =>
        rw [decodeOperationMessageType, hm]
        cases hr : decodeRefOrMessage j <;> simp [hr]

/-- Claim C6 witness: a concrete object that parses under both shapes
(its single value is an object, hence both a valid message map entry and
a valid inline message) decodes to the `Map` variant. -/
theorem claim_C6_witness :
    decodeOperationMessageType (.obj [("a", .obj [])]) =
      some (.Map [("a", .Item { extensions := [] })]) :=
  claim_C6.1 (.obj [("a", .obj [])]) [("a", .Item { extensions := [] })]
    (.Item { extensions := [("a", .obj [])] }) (by decide) (by decide)

/-- Claim C7: an `action` value that is any string other than `"receive"`
or `"send"`, or any non-string value, fails to deserialize, and an
operation document whose `action` entry fails makes the whole decode
return the single terminal failure `none` — no operation value and no
partial result is produced. -/
theorem claim_C7 :
    (∀ s : String, s ≠ "receive" → s ≠ "send" → decodeActionType (.str s) = none) ∧
    (∀ j : Json, (∀ s, j ≠ .str s) → decodeActionType j = none) ∧
    (∀ (v : Json) (rest : List (String × Json)), decodeActionType v = none →
      decodeOperation (.obj (("action", v) :: rest)) = none) := by
  refine ⟨?_, ?_, ?_⟩
  · intro s h1 h2
    rw [decodeActionType, if_neg h1, if_neg h2]
  · intro j hj
    cases j <;> first
      | rfl
      | exact absurd rfl (hj _)
  · intro v rest hv
    rw [decodeOperation, decodeOperationFields]
    have hstep : opStep {} "action" v = none := by
      rw [opStep, if_pos rfl]
      simp [setSlot, hv]
    rw [foldFields_cons_none _ hstep]

/-- Claim C7 witness: `"publish"`, a non-string value, and a document
carrying a bad `action` all fail. -/
theorem claim_C7_witness :
    decodeActionType (.str "publish") = none ∧
    decodeActionType (.num 3) = none ∧
    decodeOperation (.obj [("action", .bool true), ("summary", .str "s")]) = none :=
  ⟨claim_C7.1 "publish" (by decide) (by decide),
   claim_C7.2.1 (.num 3) (fun s h => Json.noConfusion h),
   claim_C7.2.2 (.bool true) [("summary", .str "s")] (by decide)⟩

/-- Claim C8: a channel document without the `messages` key fails to
decode — the field has no default and is required — while a document
carrying only `messages` (every other declared field absent) decodes
successfully. -/
theorem claim_C8 :
    (∀ fs : List (String × Json), "messages" ∉ keysOf fs →
      decodeChannel (.obj fs) = none) ∧
    decodeChannel (.obj [("messages", .obj [])]) = some { messages := [] } := by
  constructor
  · intro fs hk
    rw [decodeChannel, decodeChannelFields]
    cases hfold : foldFields chStep fs ({} : ChannelAcc) with
    | none => rfl
    | some acc =>
        have hfr := foldFields_frame
          (fun acc k j acc₁ h hkk => (chStep_messages acc k j acc₁ h).1 hkk) hfold hk
        have hnone : acc.messages = none := hfr
        show finChannel acc = none
        rw [finChannel, hnone]
  · decide

/-- Claim C8 witness: a concrete channel document without `messages`
fails; the minimal document with only `messages` succeeds. -/
theorem claim_C8_witness :
    decodeChannel (.obj [("address", Json.str "a")]) = none ∧
    decodeChannel (.obj [("messages", .obj [])]) = some { messages := [] } :=
  ⟨claim_C8.1 [("address", Json.str "a")] (by decide), claim_C8.2⟩

/-- Claim C9: a `$ref` key in a channel document is parsed into the
dedicated `reference` field and not into the extension bag; on
serialization the `$ref` key is omitted entirely when the field is `None`
(and the bag holds no shadowing `$ref` entry) and emitted with the stored
string when it is `Some`. -/
theorem claim_C9 :
    (∀ s : String,
      decodeChannel (.obj [("messages", .obj []), ("$ref", .str s)]) =
        some { messages := [], reference := some s }) ∧
    (∀ c : Channel, c.reference = none → "$ref" ∉ keysOf c.extensions →
      lookupKey "$ref" (encChFields c) = none) ∧
    (∀ (c : Channel) (s : String), c.reference = some s →
      "$ref" ∉ keysOf c.extensions →
      lookupKey "$ref" (encChFields c) = some (.str s)) := by
  refine ⟨?_, ?_, ?_⟩
  · intro s
    rw [decodeChannel, decodeChannelFields]
    have h0 : chStep {} "messages" (.obj []) = some { messages := some [] } :=
      chStep_set_messages {} _ rfl rfl
    rw [foldFields_cons_some _ h0]
    have h1 : chStep { messages := some ([] : List (String × Option OperationMessageType)) }
        "$ref" (.str s) = some { messages := some [], reference := some (some s) } := by
      rw [chStep, if_neg (by decide), if_neg (by decide), if_neg (by decide),
        if_neg (by decide), if_neg (by decide), if_neg (by decide), if_pos rfl,
        setSlot_none (show decodeOptionWith decodeString (Json.str s) =
          some (some s) from rfl)]
    rw [foldFields_cons_some _ h1, foldFields]
    rfl
  · intro c hr hext
    rw [encChFields, lookupKey, if_neg (by decide), lookupKey_append,
      lookupKey_optEntry_ne (by decide), lookupKey_append,
      lookupKey_optEntry_ne (by decide), lookupKey_append,
      lookupKey_seqEntry_ne (by decide), lookupKey_append,
      lookupKey_seqEntry_ne (by decide), lookupKey_append,
      lookupKey_optEntry_ne (by decide), lookupKey_append,
      lookupKey_eq_none.mpr hext, lookupKey_optEntry_self, hr]
    rfl
  · intro c s hr hext
    rw [encChFields, lookupKey, if_neg (by decide), lookupKey_append,
      lookupKey_optEntry_ne (by decide), lookupKey_append,
      lookupKey_optEntry_ne (by decide), lookupKey_append,
      lookupKey_seqEntry_ne (by decide), lookupKey_append,
      lookupKey_seqEntry_ne (by decide), lookupKey_append,
      lookupKey_optEntry_ne (by decide), lookupKey_append,
      lookupKey_eq_none.mpr hext, lookupKey_optEntry_self, hr]
    rfl

/-- Claim C9 witness: concrete instances of the three parts. -/
theorem claim_C9_witness :
    decodeChannel (.obj [("messages", .obj []), ("$ref", .str "#/c")]) =
      some { messages := [], reference := some "#/c" } ∧
    lookupKey "$ref" (encChFields { messages := [] }) = none ∧
    lookupKey "$ref" (encChFields { messages := [], reference := some "#/x" }) =
      some (.str "#/x") :=
  ⟨claim_C9.1 "#/c",
   claim_C9.2.1 { messages := [] } rfl (by decide),
   claim_C9.2.2 { messages := [], reference := some "#/x" } "#/x" rfl (by decide)⟩

/-- Claim C10: an explicit `null` entry in a channel's `messages` map
decodes to a present entry holding `none` — distinct from the entry being
absent — and re-encoding emits the entry with `null` again, so
present-null entries round-trip to their own original form. -/
theorem claim_C10 : ∀ k : String,
    decodeChannel (.obj [("messages", .obj [(k, .null)])]) =
      some { messages := [(k, none)] } ∧
    encodeChannel { messages := [(k, (none : Option OperationMessageType))] } =
      .obj [("messages", .obj [(k, .null)])] ∧
    [(k, (none : Option OperationMessageType))] ≠ [] := by
  intro k
  refine ⟨?_, rfl, List.cons_ne_nil _ _⟩
  rw [decodeChannel, decodeChannelFields]
  have h0 : chStep {} "messages" (.obj [(k, .null)]) =
      some { messages := some [(k, none)] } :=
    chStep_set_messages {} _ rfl rfl
  rw [foldFields_cons_some _ h0, foldFields]
  rfl

end AsyncAPI
